import Mathlib

/-! # goat: consumption driver, health reporter, module version, buckets and crypto

A shallow embedding of pieces of the `goat` library:

* `stream/consume.go`, `stream/stream.go`: the consumption driver
  `StreamConfig.Consume` and the session type `StreamConfig`;
* `health/health.go`: the health reporter's stat layers, its snapshot
  `Reporter.Health`, the backoff arithmetic of `Reporter.startHealthCheck`, publishing,
  stopping, `State.Set` and `Reporter.Initialize`;
* `build/modinfo.go`: `Module.MajorVersion`;
* `bucket/bucket.go`, `bucket/amazon.go`, `bucket/google.go`, `bucket/object.go`:
  `NewBucket`, the keys of stored objects and `NewPipelineObject`;
* `crypto/scrypt.go`, `crypto/crypto.go`: the encoded key package, and encryption and
  decryption with AES-GCM.

Stateful Go code is embedded by explicit state passing.  The broker library
(`confluent-kafka-go`) and the clock are inputs of the embedding: what the broker
answers, which `select` case fires and what the clock reads are parameters.
Go's `int` is embedded as `Int`, and so are a `time.Duration` (a count of
nanoseconds) and a `time.Time` (nanoseconds since the epoch).  The counters `Messages`
and `Bytes` of a session, which the caller may set, are added to in the wrapping
arithmetic of a 64-bit `int` (`wrapInt`); the backoff durations, which start from the
constants of the reporter, are added and multiplied exactly, their wrap-around being
centuries of ticks away.  An `error` is an `Option GoError`, with `none` for `nil`; a
function that can panic returns an `Except` whose error side is the panic.
-/

namespace Goat

/-- Go `error` values; the `nil` error is `none : Option GoError`. -/
abbrev GoError := String

/-! ## stream/stream.go -/

namespace Stream

/-- Handle of a `*kafka.Consumer`; the embedding keeps the topic it subscribed to. -/
structure KafkaConsumer where
  subscribed : String
  deriving DecidableEq, Repr

/-- Handle of a `*kafka.Producer`. -/
structure KafkaProducer where
  id : Nat
  deriving DecidableEq, Repr

/-- The type `kafka.Message`, of which the driver reads `Value` only. -/
structure KafkaMessage where
  Value : List UInt8
  deriving DecidableEq, Repr

/-- The type `kafka.Error`: an error code and its text. -/
structure KafkaError where
  code : Int
  str : String
  deriving DecidableEq, Repr

/-- The struct `StreamConfig` of `stream.go` (the callback `deliveryError` is left out).
`Messages` and `Bytes` are Go `int`s: the driver adds to them in the wrapping arithmetic
of `int` (`countMessage`). -/
structure StreamConfig where
  Brokers : String
  Prefix : String
  Topic : String
  Messages : Int
  Bytes : Int
  /-- A `time.Duration`. -/
  Timeout : Int
  /-- A `time.Duration`. -/
  Interval : Int
  Offset : String
  GroupId : String
  Glob : Bool
  DeliveryReports : Bool
  Codec : String
  producer : Option KafkaProducer
  consumer : Option KafkaConsumer
  deriving DecidableEq, Repr

/-- What the broker library answers to the calls `NewConsumer` makes:
the error of `kafka.NewConsumer` and the error of `GetMetadata`. -/
structure Kafka where
  newConsumer : Option GoError
  getMetadata : Option GoError
  deriving DecidableEq, Repr

/-- `FullTopic`: `prefix.topic`, with `sc.Topic` standing in for an empty `t`. -/
def StreamConfig.FullTopic (sc : StreamConfig) (t : String) : String :=
  let t := if t = "" then sc.Topic else t
  sc.Prefix ++ "." ++ t

/-- `NewConsumer(nil)`: creates the consumer, checks the broker with `GetMetadata`,
subscribes and stores the handle in `sc.consumer`.  The `topic` declared inside the
`if sc.Glob` block is a new variable of that block, so the subscription uses the
outer `topic`. -/
def StreamConfig.NewConsumer (sc : StreamConfig) (k : Kafka) :
    Except GoError KafkaConsumer × StreamConfig :=
  match k.newConsumer with
  | none =>
    let topic := sc.FullTopic ""
    let _inner := if sc.Glob then ("^" ++ sc.FullTopic "") ++ ".*" else topic
    match k.getMetadata with
    | some err => (.error err, sc)
    | none =>
      let c : KafkaConsumer := { subscribed := topic }
      (.ok c, { sc with consumer := some c })
  | some err => (.error err, sc)

/-! ## stream/consume.go -/

/-- The interface `StreamConsumer`, over a consumer state `σ` and the type `κ` of the
`config` value handed to `Start`.  A method takes the consumer state and returns the new
state with the method's result.  The consumer keeps the `*StreamConfig` it received in
`Start`, so every method can read the session as it is when the method is called; the
session is written by the driver only.  `DoneCh` is not a method here: whether the channel
it returns is ready is part of the `select` outcome, `Event.done`. -/
structure StreamConsumer (σ κ : Type) where
  Start : σ → StreamConfig → κ → σ × Option GoError
  Message : σ → StreamConfig → KafkaMessage → σ × Option GoError
  Interval : σ → StreamConfig → Int → σ × Option GoError
  Timeout : σ → StreamConfig → Int → Bool → σ × Bool
  Error : σ → StreamConfig → KafkaError → σ × Bool
  Process : σ → StreamConfig → σ × (Bool × Option GoError)
  Finish : σ → StreamConfig → σ × Option GoError

/-- What `c.Events()` delivers: a message, an error, or another `kafka.Event`
(such as `kafka.PartitionEOF` or `kafka.AssignedPartitions`). -/
inductive BrokerEvent where
  | message (e : KafkaMessage)
  | error (e : KafkaError)
  | other
  deriving DecidableEq, Repr

/-- The case of the `select` statement that fires in one wait. -/
inductive Event where
  | events (ev : BrokerEvent)
  | intTick (t : Int)
  | timeTick (t : Int)
  | done
  deriving DecidableEq, Repr

/-- A `*time.Ticker`: `C` is `none` for the zero value `&time.Ticker{}` (a nil channel)
and holds the period for a ticker made by `time.NewTicker`. -/
structure Ticker where
  C : Option Int
  deriving DecidableEq, Repr

/-- The ticker `Consume` builds for a duration `d`: `time.NewTicker(d)` if `d > 0`,
the zero value otherwise. -/
def mkTicker (d : Int) : Ticker :=
  if d > 0 then { C := some d } else { C := none }

/-- Whether a `select` case can fire: a receive from a nil channel never proceeds,
so the tick cases need a ticker with a channel. -/
def Event.ready (timeTick intTick : Ticker) : Event → Bool
  | .events _ => true
  | .intTick _ => intTick.C.isSome
  | .timeTick _ => timeTick.C.isSome
  | .done => true

/-- A call of a consumer method, as recorded by the instrumentation. -/
inductive Call where
  | Start
  | Message (e : KafkaMessage)
  | Error (e : KafkaError)
  | Interval (t : Int)
  | Timeout (t : Int) (stalled : Bool)
  | Process
  | Finish
  deriving DecidableEq, Repr

/-- The variables of the loop in `Consume`: the session `sc`, the consumer's state, the
locals `last`, `stalled`, `run`, and two instrumentation fields: the consumer calls made
so far and the number of iterations started. -/
structure Loop (σ : Type) where
  sc : StreamConfig
  consumer : σ
  last : Int
  stalled : Bool
  run : Bool
  calls : List Call
  iterations : Nat

/-- The values of Go's `int`, 64 bits wide. -/
@[reducible] def inInt (n : Int) : Prop := -2 ^ 63 ≤ n ∧ n < 2 ^ 63

/-- The `int` that holds the sum or product `n`: the arithmetic of `int` wraps around. -/
def wrapInt (n : Int) : Int := (n + 2 ^ 63) % 2 ^ 64 - 2 ^ 63

/-- The two statements `sc.Messages += 1` and `sc.Bytes += len(e.Value)`, in the
arithmetic of `int`. -/
def StreamConfig.countMessage (sc : StreamConfig) (e : KafkaMessage) : StreamConfig :=
  let sc := { sc with Messages := wrapInt (sc.Messages + 1) }
  { sc with Bytes := wrapInt (sc.Bytes + (e.Value.length : Int)) }

/-- The messages handed to `Message` in a list of calls, in order. -/
def messagesOf : List Call → List KafkaMessage
  | [] => []
  | Call.Message e :: rest => e :: messagesOf rest
  | _ :: rest => messagesOf rest

/-- The sum of `len(m.Value)` over messages. -/
def bytesOf (ms : List KafkaMessage) : Int :=
  (ms.map (fun m => (m.Value.length : Int))).sum

/-- The body of the `select` statement for the case that fired. -/
def selectCase {σ κ : Type} (c : StreamConsumer σ κ) (s : Loop σ) : Event → Loop σ
  | .events (.message e) =>
    let sc := s.sc.countMessage e
    let r := c.Message s.consumer sc e
    { s with sc := sc, consumer := r.1, calls := s.calls ++ [Call.Message e],
             run := if r.2.isSome then false else s.run }
  | .events (.error e) =>
    let r := c.Error s.consumer s.sc e
    { s with consumer := r.1, calls := s.calls ++ [Call.Error e],
             run := if r.2 then false else s.run }
  | .events .other => s
  | .intTick t =>
    let r := c.Interval s.consumer s.sc t
    { s with consumer := r.1, calls := s.calls ++ [Call.Interval t],
             run := if r.2.isSome then false else s.run }
  | .timeTick t =>
    let stalled := if s.last = s.sc.Messages then true else false
    let last := s.sc.Messages
    let r := c.Timeout s.consumer s.sc t stalled
    { s with consumer := r.1, last := last, stalled := stalled,
             calls := s.calls ++ [Call.Timeout t stalled],
             run := if r.2 then false else s.run }
  | .done => { s with run := false }

/-- The consumer call the `select` case for an outcome makes, if it makes one (read off
`selectCase`, for stating what an iteration calls). -/
def branchCalls {σ : Type} (s : Loop σ) : Event → List Call
  | .events (.message e) => [Call.Message e]
  | .events (.error e) => [Call.Error e]
  | .events .other => []
  | .intTick t => [Call.Interval t]
  | .timeTick t => [Call.Timeout t (decide (s.last = s.sc.Messages))]
  | .done => []

/-- The statement after the `select`: `Process` is called and may stop the loop. -/
def process {σ κ : Type} (c : StreamConsumer σ κ) (s : Loop σ) : Loop σ :=
  let r := c.Process s.consumer s.sc
  { s with consumer := r.1, calls := s.calls ++ [Call.Process],
           run := if r.2.2.isSome || r.2.1 then false else s.run }

/-- One iteration of the loop body, for the `select` case `ev`. -/
def iteration {σ κ : Type} (c : StreamConsumer σ κ) (s : Loop σ) (ev : Event) : Loop σ :=
  process c (selectCase c { s with iterations := s.iterations + 1 } ev)

/-- The loop `for run { select ...; Process }` over the outcomes of the successive waits.
An outcome whose channel is nil cannot fire and starts no iteration.  The loop ends when
`run` is false; when the outcomes are used up while `run` is true the driver is waiting
in `select`. -/
def loop {σ κ : Type} (c : StreamConsumer σ κ) (timeTick intTick : Ticker) :
    Loop σ → List Event → Loop σ
  | s, [] => s
  | s, ev :: rest =>
    if s.run then
      if ev.ready timeTick intTick then loop c timeTick intTick (iteration c s ev) rest
      else loop c timeTick intTick s rest
    else s

/-- The result of running `Consume` on a list of `select` outcomes: `result` is
`some err` when `Consume` returned `err`, and `none` when the driver is still waiting
in `select` after the last outcome. -/
structure Outcome (σ : Type) where
  result : Option (Option GoError)
  sc : StreamConfig
  consumer : σ
  calls : List Call
  iterations : Nat

/-- The loop variables at the first test of `for run`, after `Start` succeeded. -/
def enterLoop {σ : Type} (sc : StreamConfig) (st : σ) : Loop σ :=
  { sc := sc, consumer := st, last := 0, stalled := false, run := true,
    calls := [Call.Start], iterations := 0 }

/-- `Consume`: connects, builds the two tickers, calls `Start`, runs the loop and
returns what `Finish` returns.  The deferred `c.Close()` and `Stop()` of the tickers call
no consumer method and are left out. -/
def StreamConfig.Consume {σ κ : Type} (sc : StreamConfig) (k : Kafka)
    (consumer : StreamConsumer σ κ) (st : σ) (config : κ) (events : List Event) :
    Outcome σ :=
  match sc.NewConsumer k with
  | (.error err, sc) =>
    { result := some (some err), sc := sc, consumer := st, calls := [], iterations := 0 }
  | (.ok _, sc) =>
    let timeTick := mkTicker sc.Timeout
    let intTick := mkTicker sc.Interval
    match consumer.Start st sc config with
    | (st, some err) =>
      { result := some (some err), sc := sc, consumer := st, calls := [Call.Start],
        iterations := 0 }
    | (st, none) =>
      let s := loop consumer timeTick intTick (enterLoop sc st) events
      if s.run then
        { result := none, sc := s.sc, consumer := s.consumer, calls := s.calls,
          iterations := s.iterations }
      else
        let r := consumer.Finish s.consumer s.sc
        { result := some r.2, sc := s.sc, consumer := r.1,
          calls := s.calls ++ [Call.Finish], iterations := s.iterations }

/-- The loop variables with which `Consume` leaves its loop, or waits in it, when
`NewConsumer` and `Start` succeeded. -/
def StreamConfig.consumeLoop {σ κ : Type} (sc : StreamConfig) (k : Kafka)
    (consumer : StreamConsumer σ κ) (st : σ) (config : κ) (events : List Event) : Loop σ :=
  loop consumer (mkTicker (sc.NewConsumer k).2.Timeout) (mkTicker (sc.NewConsumer k).2.Interval)
    (enterLoop (sc.NewConsumer k).2 (consumer.Start st (sc.NewConsumer k).2 config).1) events

/-- The default configuration `testStreamConfig` of `stream_test.go`. -/
def testStreamConfig : StreamConfig :=
  { Brokers := "kafka-atsu-prod-01:9092,kafka-atsu-prod-02:9092,kafka-atsu-prod-03:9092",
    Prefix := "atsu", Topic := "unset", Messages := 0, Bytes := 0, Timeout := 0,
    Interval := 0, Offset := "latest", GroupId := "atsu-unset-group-id", Glob := false,
    DeliveryReports := false, Codec := "none", producer := none, consumer := none }

/-- A broker that accepts the consumer and answers the metadata request. -/
def kafkaUp : Kafka := { newConsumer := none, getMetadata := none }

/-- A one-byte message for worked examples. -/
def testMessage (b : UInt8) : KafkaMessage := { Value := [b] }

/-- A consumer for worked examples.  Its state is the number of `Process` calls made;
`Start` and `Finish` return the given errors, `Message` and `Interval` return nil,
`Timeout` and `Error` return false, and `Process` returns `(true, nil)` at its `n`-th call
and `(false, nil)` at every other call. -/
def countingConsumer (n : Nat) (start finish : Option GoError) : StreamConsumer Nat Unit :=
  { Start := fun _ _ _ => (0, start)
    Message := fun st _ _ => (st, none)
    Interval := fun st _ _ => (st, none)
    Timeout := fun st _ _ _ => (st, false)
    Error := fun st _ _ => (st, false)
    Process := fun st _ => (st + 1, (decide (st + 1 = n), none))
    Finish := fun st _ => (st, finish) }

end Stream

/-! ## health/health.go -/

namespace Health

/-- The type `State`, a Go string. -/
abbrev State := String

def Blue : State := "blue"
def Green : State := "green"
def Yellow : State := "yellow"
def Red : State := "red"
def Gray : State := "gray"

/-- `StateDefault` health is `Blue`. -/
def StateDefault : State := Blue

/-- `MaxKafkaHealthCheckInterval`: five minutes. -/
def MaxKafkaHealthCheckInterval : Int := 5 * (60 * 1000000000)

/-- Values of type `interface{}`: the nil interface value, a `bool`, an `int`, a
`string`, or a value of any other dynamic type, told apart by a number. -/
inductive Any where
  | nil
  | bool (b : Bool)
  | int (n : Int)
  | str (s : String)
  | other (id : Nat)
  deriving DecidableEq, Repr

/-- A `sync.Map`: its entries, at most one per key when built by `Store`. -/
structure SyncMap where
  entries : List (Any × Any)
  deriving DecidableEq, Repr

/-- The zero value `sync.Map{}`. -/
def SyncMap.empty : SyncMap := { entries := [] }

/-- `Store` sets the value for a key. -/
def SyncMap.Store (m : SyncMap) (key value : Any) : SyncMap :=
  { entries := (key, value) :: m.entries.filter (fun e => e.1 ≠ key) }

/-- `Load` returns the value stored for a key, `none` standing for `ok == false`. -/
def SyncMap.Load (m : SyncMap) (key : Any) : Option Any :=
  (m.entries.find? (fun e => e.1 = key)).map (fun e => e.2)

/-- `Delete` deletes the value for a key. -/
def SyncMap.Delete (m : SyncMap) (key : Any) : SyncMap :=
  { entries := m.entries.filter (fun e => e.1 ≠ key) }

/-- The iteration of `Range` over the entries still to visit. -/
def SyncMap.rangeGo {α : Type} (f : α → Any → Any → α × Bool) : List (Any × Any) → α → α
  | [], a => a
  | e :: rest, a =>
    let r := f a e.1 e.2
    if r.2 then SyncMap.rangeGo f rest r.1 else r.1

/-- `Range` calls `f` on each entry in turn, threading the state `f` works on; it stops
when `f` returns false.  Go leaves the order open; the embedding uses the list's. -/
def SyncMap.Range {α : Type} (m : SyncMap) (f : α → Any → Any → α × Bool) (init : α) : α :=
  SyncMap.rangeGo f m.entries init

/-- A Go `map[string]interface{}`. -/
structure GoMap where
  entries : List (String × Any)
  deriving DecidableEq, Repr

/-- The map made by `make(map[string]interface{})`. -/
def GoMap.make : GoMap := { entries := [] }

/-- The assignment `m[key] = v`. -/
def GoMap.set (m : GoMap) (key : String) (v : Any) : GoMap :=
  { entries := (key, v) :: m.entries.filter (fun e => e.1 ≠ key) }

/-- The lookup `v, ok := m[key]`, `none` standing for `ok == false`. -/
def GoMap.get (m : GoMap) (key : String) : Option Any :=
  (m.entries.find? (fun e => e.1 = key)).map (fun e => e.2)

/-- The struct `Event` (`Type_` for the field `Type`); `Data` always holds the map
`Health` builds. -/
structure Event where
  Hostname : String
  Timestamp : Int
  Type_ : String
  Name : String
  Service : String
  Version : String
  State : State
  Message : String
  Data : GoMap
  deriving DecidableEq, Repr

/-- The data fields of the struct `Reporter`. -/
structure Reporter where
  hostname : String
  service : String
  version : String
  state : State
  message : String
  stats : SyncMap
  persistentStats : SyncMap
  stdOutFallback : Bool
  healthCheckInterval : Int
  maxCheckInterval : Int
  kafkaHealthy : Bool
  kafkaErr : Option GoError
  topic : String
  deriving DecidableEq, Repr

/-- `NewReporter`, given what `os.Hostname` and `build.GetInfo(service).Version` return. -/
def NewReporter (hn version service : String) : Reporter :=
  { hostname := hn, service := service, version := version, state := StateDefault,
    message := "", stats := SyncMap.empty, persistentStats := SyncMap.empty,
    stdOutFallback := false, healthCheckInterval := 60 * 1000000000,
    maxCheckInterval := MaxKafkaHealthCheckInterval, kafkaHealthy := false,
    kafkaErr := none, topic := "" }

/-- The closure `fn` of `Health`: a string key is written to `stats`, any other key is
skipped with a warning; ranging always continues. -/
def Reporter.healthFn (stats : GoMap) (k v : Any) : GoMap × Bool :=
  match k with
  | .str key => (stats.set key v, true)
  | _ => (stats, true)

/-- `Health`: the current health as an `Event`, with `now` for `time.Now().Unix()`;
the persistent stats are ranged over first, then the transient ones. -/
def Reporter.Health (r : Reporter) (now : Int) : Event :=
  let stats := GoMap.make
  let stats := r.persistentStats.Range Reporter.healthFn stats
  let stats := r.stats.Range Reporter.healthFn stats
  { Hostname := r.hostname, Timestamp := now, Type_ := "health", Name := "status",
    Service := r.service, Version := r.version, State := r.state, Message := r.message,
    Data := stats }

/-- `SetHealth` sets the current state and message. -/
def Reporter.SetHealth (r : Reporter) (state : State) (message : String) : Reporter :=
  { r with state := state, message := message }

/-- `PersistStat` stores a stat that `ClearStat` and `ClearStats` do not clear. -/
def Reporter.PersistStat (r : Reporter) (key : String) (val : Any) : Reporter :=
  { r with persistentStats := r.persistentStats.Store (.str key) val }

/-- `AddStat` adds a keyed entry to be included in reporting. -/
def Reporter.AddStat (r : Reporter) (key : String) (val : Any) : Reporter :=
  { r with stats := r.stats.Store (.str key) val }

/-- `GetStat` retrieves a stat, the persistent stats acting as defaults. -/
def Reporter.GetStat (r : Reporter) (key : String) : Any :=
  match r.stats.Load (.str key) with
  | some val => val
  | none =>
    match r.persistentStats.Load (.str key) with
    | some val => val
    | none => .nil

/-- `ClearStat` clears one transient stat by key. -/
def Reporter.ClearStat (r : Reporter) (key : String) : Reporter :=
  { r with stats := r.stats.Delete (.str key) }

/-- `ClearStats` clears all transient stats. -/
def Reporter.ClearStats (r : Reporter) : Reporter :=
  { r with stats := SyncMap.empty }

/-- `ClearAll` clears the transient and the persistent stats. -/
def Reporter.ClearAll (r : Reporter) : Reporter :=
  { r.ClearStats with persistentStats := SyncMap.empty }

/-- The locals `retry`, `backOff` and `nextCheck` of `startHealthCheck`. -/
structure Backoff where
  retry : Int
  backOff : Int
  nextCheck : Int
  deriving DecidableEq, Repr

/-- The zero value `time.Time{}` (January 1 of year 1), in nanoseconds from the epoch. -/
def zeroTime : Int := -62135596800 * 1000000000

/-- The locals of `startHealthCheck` before the first tick. -/
def Backoff.init : Backoff := { retry := 0, backOff := 0, nextCheck := zeroTime }

/-- The body of `if time.Now().After(nextCheck)`: one probe, of which `healthy` is what
`checkKafkaHealth` returned and `now` what `time.Now()` reads after a failure. -/
def probe (interval maxCheckInterval : Int) (b : Backoff) (healthy : Bool)
    (now : Int) : Backoff :=
  if healthy then
    { b with retry := 0, backOff := 0 }
  else
    let retry := b.retry + 1
    let backOff := b.backOff + interval * retry
    let backOff := if backOff > maxCheckInterval then maxCheckInterval else backOff
    { retry := retry, backOff := backOff, nextCheck := now + backOff }

/-- The case `<-healthTicker.C` of `startHealthCheck`: a probe is made when the clock
`now0` is after `nextCheck`. -/
def healthTick (interval maxCheckInterval : Int) (b : Backoff) (now0 : Int)
    (healthy : Bool) (now : Int) : Backoff :=
  if now0 > b.nextCheck then probe interval maxCheckInterval b healthy now else b

/-- `AddHostnameSuffix`: an empty suffix is ignored, any other is appended after a dash. -/
def Reporter.AddHostnameSuffix (r : Reporter) (suffix : String) : Reporter :=
  if suffix = "" then r else { r with hostname := r.hostname ++ "-" ++ suffix }

/-- The locals of the task of `startHealthCheck` after a sequence of ticks of
`healthTicker`; a tick is given by the clock reading at the tick, what
`checkKafkaHealth` returns if it is called, and the clock reading after a failure. -/
def runHealthTicks (interval maxCheckInterval : Int) :
    Backoff → List (Int × Bool × Int) → Backoff
  | b, [] => b
  | b, t :: rest =>
    runHealthTicks interval maxCheckInterval
      (healthTick interval maxCheckInterval b t.1 t.2.1 t.2.2) rest

/-! ### Encoding, publishing and stopping -/

/-- `DefaultFlushTimeout`, in milliseconds. -/
def DefaultFlushTimeout : Int := 1000

/-- A JSON value, standing for the bytes `json.Marshal` writes. -/
inductive Json where
  | null
  | bool (b : Bool)
  | num (n : Int)
  | str (s : String)
  | obj (fields : List (String × Json))

/-- What `json.Marshal` writes for a value of type `interface{}`, or the error it
returns; `enc` says what it does with a value of another dynamic type (a float or a
struct is encoded, a channel or a function is an error). -/
def marshalAny (enc : Nat → Except String Json) : Any → Except String Json
  | .nil => .ok .null
  | .bool b => .ok (.bool b)
  | .int n => .ok (.num n)
  | .str s => .ok (.str s)
  | .other id => enc id

/-- The members `json.Marshal` writes for the entries of a `map[string]interface{}`
(Go writes them sorted by key; the embedding keeps the order of the entries). -/
def marshalEntries (enc : Nat → Except String Json) :
    List (String × Any) → Except String (List (String × Json))
  | [] => .ok []
  | e :: rest =>
    match marshalAny enc e.2 with
    | .error err => .error err
    | .ok j =>
      match marshalEntries enc rest with
      | .error err => .error err
      | .ok js => .ok ((e.1, j) :: js)

/-- What a struct field of type `interface{}` holds when the struct encoder of
`encoding/json` looks at it: the nil interface, or a map. -/
inductive InterfaceValue where
  | nil
  | map (m : GoMap)

/-- `isEmptyValue` of `encoding/json` on a value of kind `reflect.Interface`: it is
`v.IsNil()`, so an interface that holds a map is not empty, even when the map is. -/
def isEmptyValue : InterfaceValue → Bool
  | .nil => true
  | .map _ => false

/-- `json.Marshal` of the struct `Event` with `data` in its field `Data`: the fields in
order under the names of their tags, `Data` being left out when `omitempty` finds it
empty. -/
def marshalEvent (enc : Nat → Except String Json) (e : Event) (data : InterfaceValue) :
    Except String Json :=
  let fields := [("hostname", Json.str e.Hostname), ("timestamp", Json.num e.Timestamp),
    ("etype", Json.str e.Type_), ("event", Json.str e.Name), ("service", Json.str e.Service),
    ("version", Json.str e.Version), ("state", Json.str e.State), ("msg", Json.str e.Message)]
  if isEmptyValue data then .ok (.obj fields)
  else
    match data with
    | .nil => .ok (.obj (fields ++ [("data", Json.null)]))
    | .map m =>
      match marshalEntries enc m.entries with
      | .error err => .error err
      | .ok js => .ok (.obj (fields ++ [("data", Json.obj js)]))

/-- `json.Marshal` of an `Event` made by `Health`, whose `Data` holds the stats map. -/
def Event.marshal (e : Event) (enc : Nat → Except String Json) : Except String Json :=
  marshalEvent enc e (.map e.Data)

/-- `safeMarshal`: the encoding, or an object with `error` and `msg` when
`json.Marshal` fails. -/
def safeMarshal (r : Except String Json) : Json :=
  match r with
  | .ok b => b
  | .error err => .obj [("error", .str "internal"), ("msg", .str err)]

/-- The interface `stream.KafkaStreamConfig` as the reporter uses it, given by what
each method answers. -/
structure KafkaStreamConfig where
  GetProducer : Option Stream.KafkaProducer
  FullTopic : String → String
  Produce : String → Json → Option GoError
  Flush : Int → Int
  Close : Option GoError

/-- The `*stream.StreamConfig` behind the interface; `produce` and `flush` are what the
producer answers and `consumerClose` what closing the consumer returns.  (The reporter
calls `Produce` and `Flush` only when `GetProducer` is not nil.) -/
def KafkaStreamConfig.ofStreamConfig (sc : Stream.StreamConfig)
    (produce : String → Json → Option GoError) (flush : Int → Int)
    (consumerClose : Option GoError) : KafkaStreamConfig :=
  { GetProducer := sc.producer, FullTopic := sc.FullTopic, Produce := produce,
    Flush := flush, Close := if sc.consumer.isSome then consumerClose else none }

/-- The stream config mocked in `TestReporter_Stop`: a producer, topic `test`, and nil
from `Produce` and `Close`. -/
def mockStreamConfig : KafkaStreamConfig :=
  { GetProducer := some { id := 0 }, FullTopic := fun _ => "test",
    Produce := fun _ _ => none, Flush := fun _ => 1, Close := none }

/-- What a registered stat function does to the reporter it is called with: through
`IReporter` it may change the data fields of the reporter. -/
abbrev StatFn := Reporter → Reporter

/-- What the reporter does to the outside, in order. -/
inductive Effect where
  | StatFn (name : String)
  | Produce (topic : String) (value : Json)
  | Println (value : Json)
  | Errfn (err : String)
  | TickerStop
  | CloseDoneCh
  | Flush (ms : Int)
  | Close

/-- The struct `Reporter` in full: the data fields of `Reporter` and the fields
`Errfn` (true when it is not nil), `statFns` (a `sync.Map` from names to functions),
`doneCh` (`none` when nil, else whether it is closed), `reportTicker` (`none` when nil)
and `sc`. -/
structure FullReporter extends Reporter where
  Errfn : Bool
  statFns : List (String × StatFn)
  doneCh : Option Bool
  reportTicker : Option Stream.Ticker
  sc : KafkaStreamConfig

/-- The literal `&stream.StreamConfig{Brokers: brokers, Prefix: prefix}` of
`NewReporter`: every other field has its zero value. -/
def newStreamConfig (pfx brokers : String) : Stream.StreamConfig :=
  { Brokers := brokers, Prefix := pfx, Topic := "", Messages := 0, Bytes := 0, Timeout := 0,
    Interval := 0, Offset := "", GroupId := "", Glob := false, DeliveryReports := false,
    Codec := "", producer := none, consumer := none }

/-- `NewReporter` in full: `Errfn` as given, no stat function, an open `doneCh`, the
zero ticker, and a `StreamConfig` with the brokers and the stream name only. -/
def NewFullReporter (hn version service pfx brokers : String) (errfn : Bool) :
    FullReporter :=
  { toReporter := NewReporter hn version service, Errfn := errfn, statFns := [],
    doneCh := some false, reportTicker := some { C := none },
    sc := KafkaStreamConfig.ofStreamConfig (newStreamConfig pfx brokers)
      (fun _ _ => none) (fun _ => 0) none }

/-- `RegisterStatFn`: `statFns.Store(name, fn)`. -/
def FullReporter.RegisterStatFn (x : FullReporter) (name : String) (fn : StatFn) :
    FullReporter :=
  { x with statFns := (name, fn) :: x.statFns.filter (fun e => e.1 ≠ name) }

/-- `ClearStatFns` clears the registered functions. -/
def FullReporter.ClearStatFns (x : FullReporter) : FullReporter :=
  { x with statFns := [] }

/-- The `statFns.Range` of `ReportHealth`: every registered function is called on the
reporter, in the order of the entries; the names of the functions called are returned
with the reporter. -/
def runStatFns : List (String × StatFn) → Reporter → Reporter × List String
  | [], r => (r, [])
  | e :: rest, r =>
    let out := runStatFns rest (e.2 r)
    (out.1, e.1 :: out.2)

/-- `errorHandler`: a goroutine calls `Errfn`, if there is one, with the message and the
error, if there is one; the call is recorded where the goroutine is started. -/
def FullReporter.errorHandler (x : FullReporter) (message : String) (err : Option GoError) :
    List Effect :=
  match err with
  | some e => if x.Errfn then [Effect.Errfn (message ++ ": " ++ e)] else []
  | none => []

/-- `produce`: what it does to the outside, and the error it returns. -/
def FullReporter.produce (x : FullReporter) (fallback : Bool) (topic : String)
    (message : Json) : List Effect × Option GoError :=
  let fullTopic := x.sc.FullTopic topic
  let producer := x.sc.GetProducer
  let healthy := x.kafkaHealthy
  let attempt : List Effect × Option GoError :=
    if producer.isSome then ([Effect.Produce fullTopic message], x.sc.Produce fullTopic message)
    else ([], none)
  let produceErr := attempt.2
  if !healthy || produceErr.isSome || producer.isNone then
    let out := if fallback then [Effect.Println message] else []
    let errorMessage :=
      if producer.isNone then "producer not set"
      else
        match produceErr with
        | some e => "could not produce: " ++ e
        | none => if !healthy then "kafka not available" else ""
    (attempt.1 ++ out
      ++ x.errorHandler "produce error" (some ("[" ++ errorMessage ++ "] " ++ fullTopic)),
     produceErr)
  else (attempt.1, produceErr)

/-- `ReportHealth`: the stat functions are called, then the snapshot is taken (at clock
reading `now`), encoded and handed to `produce`. -/
def FullReporter.ReportHealth (x : FullReporter) (enc : Nat → Except String Json)
    (now : Int) : FullReporter × List Effect :=
  let ran := runStatFns x.statFns x.toReporter
  let x := { x with toReporter := ran.1 }
  let h := x.toReporter.Health now
  let b := safeMarshal (h.marshal enc)
  let out := x.produce x.stdOutFallback x.topic b
  (x, ran.2.map Effect.StatFn ++ out.1)

/-- The outcome of `StopWithFinalState`: the reporter, what was done to the outside,
and either the error returned or the panic raised. -/
structure Stopped where
  x : FullReporter
  effects : List Effect
  result : Except String (Option GoError)

/-- `StopWithFinalState`: the final state is set and reported, then the ticker is
stopped, `doneCh` closed, the producer flushed and the stream config closed.  Closing a
closed channel panics. -/
def FullReporter.StopWithFinalState (x : FullReporter) (enc : Nat → Except String Json)
    (now : Int) (final : State) (msg : String) : Stopped :=
  let x := { x with toReporter := x.toReporter.SetHealth final msg }
  let reported := x.ReportHealth enc now
  let x := reported.1
  let eff := reported.2 ++ (if x.reportTicker.isSome then [Effect.TickerStop] else [])
  match x.doneCh with
  | some true => { x := x, effects := eff, result := .error "close of closed channel" }
  | dc =>
    let closed : FullReporter × List Effect :=
      if dc.isSome then ({ x with doneCh := some true }, eff ++ [Effect.CloseDoneCh])
      else (x, eff)
    let x := closed.1
    let eff := closed.2
      ++ (if x.sc.GetProducer.isSome then [Effect.Flush DefaultFlushTimeout] else [])
    { x := x, effects := eff ++ [Effect.Close], result := .ok x.sc.Close }

/-- `Stop`: `StopWithFinalState(Gray, "")`. -/
def FullReporter.Stop (x : FullReporter) (enc : Nat → Except String Json) (now : Int) :
    Stopped :=
  x.StopWithFinalState enc now Gray ""

/-! ### State names and initialization -/

/-- `State.Set`: the receiver after the call, and the error returned.  The case of
`"red"` assigns `Blue`, as the source does. -/
def State.Set (s : State) (h : String) : State × Option GoError :=
  if h = Blue then (Blue, none)
  else if h = Green then (Green, none)
  else if h = Yellow then (Yellow, none)
  else if h = Red then (Blue, none)
  else if h = Gray then (Gray, none)
  else (s, some ("unknown State: " ++ h))

/-- `State.String`: the string of the state. -/
def State.String (s : State) : String := s

/-- `validate`: the stream config must not be nil. -/
def validate (sc : Option KafkaStreamConfig) : Option GoError :=
  match sc with
  | none => some "stream config cannot be nil"
  | some _ => none

/-- What the stream config answers when `Initialize` makes a producer: the error of
`pd.SetKey`, and the producer and the error that `NewProducer` returns. -/
structure NewProducerAnswers where
  setKey : Option GoError
  producer : Option Stream.KafkaProducer
  err : Option GoError

/-- The outcome of `Initialize`: the reporter, what was done to the outside, and the
pair returned. -/
structure Initialized where
  x : FullReporter
  effects : List Effect
  result : Bool × Option GoError

/-- The end of `Initialize`, with `p` the local variable `p`: health is reported when
`kafkaErr` is nil, and `p != nil, r.kafkaErr` is returned.  (The two goroutines started
before the return are left out.) -/
def FullReporter.initializeReturn (x : FullReporter) (p : Option Stream.KafkaProducer)
    (enc : Nat → Except String Json) (now : Int) : Initialized :=
  let reported := if x.kafkaErr.isNone then x.ReportHealth enc now else (x, [])
  { x := reported.1, effects := reported.2, result := (p.isSome, reported.1.kafkaErr) }

/-- `Initialize`, with `sc` for the field `r.sc`, which may be nil.  The local `p` is
assigned only when the stream config has no producer and one is made; a producer
`NewProducer` returns is the one `GetProducer` returns afterwards. -/
def FullReporter.Initialize (x : FullReporter) (sc : Option KafkaStreamConfig)
    (a : NewProducerAnswers) (enc : Nat → Except String Json) (now : Int) : Initialized :=
  match sc with
  | none => { x := x, effects := [], result := (false, validate none) }
  | some c =>
    let x := { x with sc := c }
    if x.sc.GetProducer.isNone then
      let r := x.toReporter
      let r := if r.topic = "" then { r with topic := "health." ++ r.service } else r
      match a.setKey with
      | some err => { x := { x with toReporter := r }, effects := [], result := (false, some err) }
      | none =>
        let r := { r with kafkaErr := a.err }
        let r := if a.err.isNone then { r with kafkaHealthy := true } else r
        let c := { c with GetProducer := a.producer }
        FullReporter.initializeReturn { x with toReporter := r, sc := c } a.producer enc now
    else FullReporter.initializeReturn x none enc now

/-- `KafkaHealthy`: whether kafka is healthy, and the last error. -/
def FullReporter.KafkaHealthy (x : FullReporter) : Bool × Option GoError :=
  (x.kafkaHealthy, x.kafkaErr)

/-- The reporter of `TestReporter_Stop`: a new reporter with its stream config
replaced by the mock. -/
def mockReporter : FullReporter :=
  { NewFullReporter "host" "v1" "test" "test" "0.0.0.0:9092" true with sc := mockStreamConfig }

end Health

/-! ## Strings and numerals of the Go library

Go strings are byte strings.  They are modelled by their characters: the bytes this
code looks for (`/`, `v`, the digits, `$`, `.`) are ASCII, and no byte of a longer
UTF-8 sequence is ASCII.  Offsets into a string are counted in characters, which is the
count in bytes for ASCII text. -/

namespace Strconv

/-- The largest `uint64`. -/
def maxUint64 : Nat := 2 ^ 64 - 1

/-- The value of one byte of a numeral as `strconv.ParseUint` reads it: a digit, a
letter (from ten on), or nothing. -/
def digitValue (c : Char) : Option Nat :=
  if 48 ≤ c.toNat ∧ c.toNat ≤ 57 then some (c.toNat - 48)
  else if c.toNat < 128 ∧ 97 ≤ (c.toNat ||| 32) ∧ (c.toNat ||| 32) ≤ 122 then
    some ((c.toNat ||| 32) - 97 + 10)
  else none

/-- The loop of `strconv.ParseUint(s, 10, 64)` from the value `n` on: the value and the
error returned.  Arithmetic is that of `uint64`. -/
def parseUintLoop (n : Nat) : List Char → Nat × Option GoError
  | [] => (n, none)
  | c :: cs =>
    match digitValue c with
    | none => (0, some "invalid syntax")
    | some d =>
      if d ≥ 10 then (0, some "invalid syntax")
      else if n ≥ maxUint64 / 10 + 1 then (maxUint64, some "value out of range")
      else
        let n := n * 10 % 2 ^ 64
        let n1 := (n + d) % 2 ^ 64
        if n1 < n ∨ n1 > maxUint64 then (maxUint64, some "value out of range")
        else parseUintLoop n1 cs

/-- `strconv.ParseUint(s, 10, 64)`. -/
def ParseUint (s : List Char) : Nat × Option GoError :=
  if s = [] then (0, some "invalid syntax") else parseUintLoop 0 s

/-- `strconv.ParseInt(s, 10, 64)`: a sign, then `ParseUint`; a value out of the range
of `int64` is replaced by the nearest bound and reported. -/
def ParseInt (s : List Char) : Int × Option GoError :=
  match s with
  | [] => (0, some "invalid syntax")
  | c :: cs =>
    let neg := c == '-'
    let s := if c == '+' ∨ c == '-' then cs else c :: cs
    let un := ParseUint s
    if un.2 = some "invalid syntax" then (0, un.2)
    else if !neg ∧ un.1 ≥ 2 ^ 63 then (2 ^ 63 - 1, some "value out of range")
    else if neg ∧ un.1 > 2 ^ 63 then (-(2 ^ 63), some "value out of range")
    else (if neg then -(un.1 : Int) else (un.1 : Int), none)

/-- The number a string of decimal digits writes, continuing from `n`. -/
def decimalFrom (n : Nat) (s : List Char) : Nat :=
  s.foldl (fun a c => a * 10 + (c.toNat - 48)) n

/-- Whether `s` is an unsigned 64-bit decimal integer: not empty, digits only, and a
value below `2 ^ 64`. -/
def isUint64Decimal (s : List Char) : Bool :=
  !s.isEmpty && s.all (fun c => decide (48 ≤ c.toNat ∧ c.toNat ≤ 57))
    && decide (decimalFrom 0 s < 2 ^ 64)

end Strconv

namespace Fmt

/-- The digits of `u` in front of `acc`, as `fmt` writes them: from the last digit to
the first, in at most `fuel` steps. -/
def digitsCore : Nat → Nat → List Char → List Char
  | 0, _, acc => acc
  | fuel + 1, u, acc =>
    if u < 10 then Char.ofNat (48 + u) :: acc
    else digitsCore fuel (u / 10) (Char.ofNat (48 + u % 10) :: acc)

/-- The decimal digits of `u`. -/
def formatUint (u : Nat) : List Char := digitsCore (u + 1) u []

/-- `%d` (with `width = 0`) and `%0<width>d` of `fmt.Sprintf`: the sign of a negative
number, then the digits, filled with zeros up to the width. -/
def formatInt (width : Nat) (n : Int) : List Char :=
  let digits := formatUint n.natAbs
  let prec := if n < 0 then width - 1 else width
  let padded := List.replicate (prec - digits.length) '0' ++ digits
  if n < 0 then '-' :: padded else padded

end Fmt

namespace Strings

/-- `strings.Split(s, sep)` for a separator of one character. -/
def Split (s : String) (sep : Char) : List String :=
  (s.toList.splitOn sep).map String.mk

end Strings

/-! ## build/modinfo.go -/

namespace Build

/-- `filepath.Split` with the separator `/`: the path is cut after its final separator
into the directory and the file. -/
def Split (path : List Char) : List Char × List Char :=
  let file := (path.reverse.takeWhile (fun c => c != '/')).reverse
  (path.take (path.length - file.length), file)

/-- The module of `go.mod`. -/
structure Module where
  Path : String

/-- `MajorVersion`: the number after `v` in the final segment of the path, or `"0"`. -/
def Module.MajorVersion (r : Module) : String :=
  let lastSegment := (Split r.Path.toList).2
  if !(lastSegment.take 1 == ['v']) || lastSegment.length == 1 then "0"
  else
    let numericPart := lastSegment.drop 1
    match (Strconv.ParseUint numericPart).2 with
    | some _ => "0"
    | none => String.mk numericPart

end Build

/-! ## bucket/bucket.go, bucket/amazon.go, bucket/google.go, bucket/object.go -/

namespace Bucket

set_option linter.dupNamespace false

/-- The configuration `S3`. -/
structure S3 where
  Pipeline : String
  Owner : String
  Bucket : String
  Suffix : String
  Name : String
  Objects : Int
  Bytes : Int
  deriving DecidableEq, Repr

/-- The configuration `GCS`. -/
structure GCS where
  Pipeline : String
  Owner : String
  Bucket : String
  Suffix : String
  Name : String
  Objects : Int
  Bytes : Int
  deriving DecidableEq, Repr

/-- The zero value `S3{}`. -/
def S3.zero : S3 :=
  { Pipeline := "", Owner := "", Bucket := "", Suffix := "", Name := "", Objects := 0, Bytes := 0 }

/-- The zero value `GCS{}`. -/
def GCS.zero : GCS :=
  { Pipeline := "", Owner := "", Bucket := "", Suffix := "", Name := "", Objects := 0, Bytes := 0 }

/-- The interface `Bucket`, with its two implementations. -/
inductive Bucket where
  | S3 (s : S3)
  | GCS (g : GCS)
  deriving DecidableEq, Repr

/-- `GetName`. -/
def Bucket.GetName : Bucket → String
  | .S3 s => s.Name
  | .GCS g => g.Name

/-- `SetName`. -/
def Bucket.SetName (b : Bucket) (o : String) : Bucket :=
  match b with
  | .S3 s => .S3 { s with Name := o }
  | .GCS g => .GCS { g with Name := o }

/-- `GetOwner`. -/
def Bucket.GetOwner : Bucket → String
  | .S3 s => s.Owner
  | .GCS g => g.Owner

/-- `GetPipeline`. -/
def Bucket.GetPipeline : Bucket → String
  | .S3 s => s.Pipeline
  | .GCS g => g.Pipeline

/-- `NewBucket`: the bucket and the error returned, or the panic of a slice out of
range.  `strings.ToLower` is applied character by character; letters outside ASCII are
left as they are, none of them being lowered to a character of a scheme. -/
def NewBucket (name : String) : Except String (Option Bucket × Option GoError) :=
  let lower := name.toList.map Char.toLower
  if lower.length < 5 then .error "slice bounds out of range"
  else
    let scheme := String.mk (lower.take 5)
    let stripped := String.mk (name.toList.drop 5)
    if scheme = "s3://" then .ok (some ((Bucket.S3 S3.zero).SetName stripped), none)
    else if scheme = "gs://" then
      if '.' ∈ name.toList then .ok (none, some "illegal dot (.) character in name")
      else .ok (some ((Bucket.GCS GCS.zero).SetName stripped), none)
    else .ok (some ((Bucket.S3 S3.zero).SetName stripped), none)

/-- What `Key` reads of a `time.Time`. -/
structure Time where
  Year : Int
  YearDay : Int
  Hour : Int
  UnixNano : Int
  deriving DecidableEq, Repr

/-- `S3.Path`. -/
def S3.Path (s : S3) : String := s.Owner ++ "/" ++ s.Pipeline ++ "/" ++ s.Name

/-- `S3.KeyPrefix`. -/
def S3.KeyPrefix (s : S3) (t : Time) : String :=
  let hash := String.mk (Fmt.formatInt 0 t.Year) ++ "/" ++ String.mk (Fmt.formatInt 3 t.YearDay)
    ++ "/" ++ String.mk (Fmt.formatInt 2 t.Hour)
  s.Path ++ "/" ++ hash

/-- `S3.Key`. -/
def S3.Key (s : S3) (t : Time) : String :=
  s.KeyPrefix t ++ "/" ++ s.Name ++ "-" ++ String.mk (Fmt.formatInt 0 t.UnixNano) ++ "."
    ++ s.Suffix

/-- `GCS.Path`. -/
def GCS.Path (g : GCS) : String := g.Owner ++ "/" ++ g.Pipeline ++ "/" ++ g.Name

/-- `GCS.KeyPrefix`. -/
def GCS.KeyPrefix (g : GCS) (t : Time) : String :=
  let hash := String.mk (Fmt.formatInt 0 t.Year) ++ "/" ++ String.mk (Fmt.formatInt 3 t.YearDay)
    ++ "/" ++ String.mk (Fmt.formatInt 2 t.Hour)
  g.Path ++ "/" ++ hash

/-- `GCS.Key`. -/
def GCS.Key (g : GCS) (t : Time) : String :=
  g.KeyPrefix t ++ "/" ++ g.Name ++ "-" ++ String.mk (Fmt.formatInt 0 t.UnixNano) ++ "."
    ++ g.Suffix

/-- An object stored in a bucket.  `Date` is the instant, in nanoseconds since the
epoch. -/
structure PipelineObject where
  Owner : String
  Pipeline : String
  Name : String
  Date : Int
  File : String
  Key : String
  Etag : String
  deriving DecidableEq, Repr

/-- The number of parts of a key. -/
def objectPathCount : Nat := 7

/-- The length of the nanoseconds in a file name. -/
def objectStrNanoLength : Int := 19

/-- The length of `.json.gz`. -/
def objectStrSuffixLength : Int := 8

/-- `NewPipelineObject`: nil for a key that has not seven parts; else the object, or
the panic of a slice out of range when the file name is shorter than the window read.
The error of `ParseInt` is dropped, and `Date` is `time.Unix(0, nano)`. -/
def NewPipelineObject (key etag : String) : Except String (Option PipelineObject) :=
  let p := Strings.Split key '/'
  if p.length ≠ objectPathCount then .ok none
  else
    let file := p.getD 6 ""
    let start : Int := file.length - (objectStrNanoLength + objectStrSuffixLength)
    let stop : Int := file.length - objectStrSuffixLength
    if start < 0 then .error "slice bounds out of range"
    else
      let nano := (Strconv.ParseInt ((file.toList.drop start.toNat).take (stop - start).toNat)).1
      .ok (some { Owner := p.getD 0 "", Pipeline := p.getD 1 "", Name := p.getD 2 "", Date := nano, File := file, Key := key, Etag := etag })

/-- `MatchesBucket`. -/
def PipelineObject.MatchesBucket (oc : PipelineObject) (bc : Bucket) : Bool :=
  oc.Pipeline == bc.GetPipeline && oc.Owner == bc.GetOwner && oc.Name == bc.GetName

/-- An S3 configuration with the suffix `json.gz`. -/
def testS3 : S3 :=
  { S3.zero with Owner := "owner", Pipeline := "pipeline", Name := "topic", Suffix := "json.gz" }

/-- A GCS configuration with the suffix `json.gz`. -/
def testGCS : GCS :=
  { GCS.zero with Owner := "owner", Pipeline := "pipeline", Name := "topic", Suffix := "json.gz" }

/-- The hour from 09:00 UTC on 3 July 2024. -/
def testTime : Time :=
  { Year := 2024, YearDay := 185, Hour := 9, UnixNano := 1719997200000000000 }

/-- The first hour of 1930 (UTC), before the epoch. -/
def testTime1930 : Time :=
  { Year := 1930, YearDay := 1, Hour := 0, UnixNano := -1262304000000000000 }

end Bucket

/-! ## crypto/scrypt.go, crypto/crypto.go

A byte slice is the list of its bytes, its capacity taken to be its length.  The
libraries the package calls are `encoding/base64`, modelled below, and `scrypt`,
`crypto/aes`, `crypto/cipher` and `crypto/rand`, which are parameters. -/

namespace Crypto

/-- A byte. -/
abbrev Byte := Fin 256

/-- The alphabet of `base64.StdEncoding`. -/
def encodeStd : List Char :=
  "ABCDEFGHIJKLMNOPQRSTUVWXYZabcdefghijklmnopqrstuvwxyz0123456789+/".toList

/-- The character for six bits. -/
def encodeChar (i : Nat) : Char := encodeStd.getD i 'A'

/-- The six bits of a character of the alphabet (`decodeMap`). -/
def decodeMap (c : Char) : Option Nat :=
  let i := encodeStd.indexOf c
  if i < 64 then some i else none

/-- The loop of `Encoding.Encode`: three bytes give four characters, and a rest of one
or two bytes is filled up with `=`.  The bit fields put together do not overlap, so
they are added. -/
def encodeQuanta : List Byte → List Char
  | [] => []
  | [a] =>
    let val := a.val * 65536
    [encodeChar (val / 262144 % 64), encodeChar (val / 4096 % 64), '=', '=']
  | [a, b] =>
    let val := a.val * 65536 + b.val * 256
    [encodeChar (val / 262144 % 64), encodeChar (val / 4096 % 64),
      encodeChar (val / 64 % 64), '=']
  | a :: b :: c :: rest =>
    let val := a.val * 65536 + b.val * 256 + c.val
    encodeChar (val / 262144 % 64) :: encodeChar (val / 4096 % 64)
      :: encodeChar (val / 64 % 64) :: encodeChar (val % 64) :: encodeQuanta rest

/-- `base64.StdEncoding.EncodeToString`. -/
def EncodeToString (src : List Byte) : String := String.mk (encodeQuanta src)

/-- The error of a string that is not base64. -/
def CorruptInputError : GoError := "illegal base64 data"

/-- The loop of `Encoding.Decode` over `decodeQuantum`, on input without line ends:
four characters give three bytes; `=` may stand only at the end, after two or three
characters of the final four, and nothing may follow it.  The bits left over in a
final group are not checked. -/
def decodeQuanta : List Char → Except GoError (List Byte)
  | [] => .ok []
  | [_] => .error CorruptInputError
  | [_, _] => .error CorruptInputError
  | [_, _, _] => .error CorruptInputError
  | a :: b :: c :: d :: rest =>
    match decodeMap a, decodeMap b with
    | some x, some y =>
      match decodeMap c with
      | some z =>
        match decodeMap d with
        | some w =>
          let val := x * 262144 + y * 4096 + z * 64 + w
          match decodeQuanta rest with
          | .ok out =>
            .ok (Fin.ofNat (val / 65536) :: Fin.ofNat (val / 256) :: Fin.ofNat val :: out)
          | .error e => .error e
        | none =>
          if d = '=' ∧ rest = [] then
            let val := x * 262144 + y * 4096 + z * 64
            .ok [Fin.ofNat (val / 65536), Fin.ofNat (val / 256)]
          else .error CorruptInputError
      | none =>
        if c = '=' ∧ d = '=' ∧ rest = [] then
          let val := x * 262144 + y * 4096
          .ok [Fin.ofNat (val / 65536)]
        else .error CorruptInputError
    | _, _ => .error CorruptInputError

/-- `base64.StdEncoding.DecodeString`: line ends are skipped. -/
def DecodeString (s : String) : Except GoError (List Byte) :=
  decodeQuanta (s.toList.filter (fun c => c != '\n' && c != '\r'))

/-- The parameters of scrypt. -/
structure ScryptParams where
  N : Int
  R : Int
  P : Int
  SaltLen : Int
  DKLen : Int
  deriving DecidableEq, Repr

/-- `GetDefaultParams`. -/
def GetDefaultParams : ScryptParams := { N := 32768, R := 8, P := 1, SaltLen := 16, DKLen := 32 }

/-- A derived key with its salt and parameters. -/
structure ScryptPkg where
  Key : List Byte
  Salt : List Byte
  Params : ScryptParams
  deriving DecidableEq, Repr

/-- `ScryptPkg.Encode`: the salt and the key in base64, with `$` between them. -/
def ScryptPkg.Encode (r : ScryptPkg) : String :=
  let encodedSalt := EncodeToString r.Salt
  let encodedKey := EncodeToString r.Key
  encodedSalt ++ "$" ++ encodedKey

/-- `ErrInvalidHash`. -/
def ErrInvalidHash : GoError := "scrypt: the provided hash is not in the correct format"

/-- `EncodedScryptPkg.Decode`. -/
def Decode (r : String) : Except GoError ScryptPkg :=
  let values := Strings.Split r '$'
  if values.length ≠ 2 then .error ErrInvalidHash
  else
    match DecodeString (values.getD 0 "") with
    | .error _ => .error ErrInvalidHash
    | .ok salt =>
      match DecodeString (values.getD 1 "") with
      | .error _ => .error ErrInvalidHash
      | .ok key => .ok { Key := key, Salt := salt, Params := GetDefaultParams }

/-- What `crypto/rand` delivers to one read: an error, or bytes without end. -/
structure Random where
  err : Option GoError
  byte : Nat → Byte

/-- Filling a buffer of `n` bytes (`rand.Read`, `io.ReadFull(rand.Reader, _)`). -/
def Random.read (r : Random) (n : Nat) : Except GoError (List Byte) :=
  match r.err with
  | some e => .error e
  | none => .ok ((List.range n).map r.byte)

/-- The cryptographic libraries: `scrypt.Key(password, salt, N, R, P, DKLen)`, and
`Seal` and `Open` of AES-GCM for a key, a nonce and a text, with no additional data. -/
structure Primitives where
  scryptKey : List Byte → List Byte → ScryptParams → Except GoError (List Byte)
  gcmSeal : List Byte → List Byte → List Byte → List Byte
  gcmOpen : List Byte → List Byte → List Byte → Except GoError (List Byte)

/-- What a function returning bytes and an error does: it panics, or returns an error,
or returns bytes. -/
abbrev Result := Except String (Except GoError (List Byte))

/-- The panic of a slice expression out of range. -/
def sliceBounds : String := "slice bounds out of range"

/-- The slice `data[lo:hi]`. -/
def slice (data : List Byte) (lo hi : Nat) : Except String (List Byte) :=
  if lo ≤ hi ∧ hi ≤ data.length then .ok ((data.take hi).drop lo) else .error sliceBounds

/-- An AES-GCM cipher: its key. -/
structure AEAD where
  key : List Byte
  deriving DecidableEq, Repr

/-- `NonceSize` of the standard GCM. -/
def AEAD.NonceSize (_ : AEAD) : Nat := 12

/-- `createAESGCM`: `aes.NewCipher` takes keys of 16, 24 or 32 bytes; `cipher.NewGCM`
takes every AES cipher. -/
def createAESGCM (key : List Byte) : Except GoError AEAD :=
  if key.length = 16 ∨ key.length = 24 ∨ key.length = 32 then .ok { key := key }
  else .error ("crypto/aes: invalid key size " ++ String.mk (Fmt.formatUint key.length))

/-- `NewScryptPkgWithParams`; `make` panics on a negative length. -/
def NewScryptPkgWithParams (P : Primitives) (saltSrc : Random) (password : List Byte)
    (params : ScryptParams) : Except String (Except GoError ScryptPkg) :=
  if params.SaltLen < 0 then .error "makeslice: len out of range"
  else
    match saltSrc.read params.SaltLen.toNat with
    | .error e => .ok (.error e)
    | .ok salt =>
      match P.scryptKey password salt params with
      | .error e => .ok (.error e)
      | .ok key => .ok (.ok { Key := key, Salt := salt, Params := params })

/-- `NewScryptPkg`. -/
def NewScryptPkg (P : Primitives) (saltSrc : Random) (password : List Byte) :
    Except String (Except GoError ScryptPkg) :=
  NewScryptPkgWithParams P saltSrc password GetDefaultParams

/-- `encryptGCM`: the nonce, after the salt when `addSalt` is set, and then what `Seal`
appends. -/
def encryptGCM (P : Primitives) (nonceSrc : Random) (plainText : List Byte)
    (scryptPkg : ScryptPkg) (addSalt : Bool) : Except GoError (List Byte) :=
  match createAESGCM scryptPkg.Key with
  | .error e => .error e
  | .ok aesGCM =>
    match nonceSrc.read aesGCM.NonceSize with
    | .error e => .error e
    | .ok nonce =>
      let pfx := if addSalt then scryptPkg.Salt ++ nonce else nonce
      .ok (pfx ++ P.gcmSeal aesGCM.key nonce plainText)

/-- `EncryptGCM(plainText, password)`. -/
def EncryptGCM (P : Primitives) (saltSrc nonceSrc : Random) (plainText password : List Byte) :
    Result :=
  match NewScryptPkg P saltSrc password with
  | .error msg => .error msg
  | .ok (.error e) => .ok (.error e)
  | .ok (.ok scryptPkg) => .ok (encryptGCM P nonceSrc plainText scryptPkg true)

/-- `ScryptPkg.EncryptGCM`. -/
def ScryptPkg.EncryptGCM (r : ScryptPkg) (P : Primitives) (nonceSrc : Random)
    (plainText : List Byte) : Except GoError (List Byte) :=
  encryptGCM P nonceSrc plainText r false

/-- `ScryptPkg.EncryptGCMBase64`. -/
def ScryptPkg.EncryptGCMBase64 (r : ScryptPkg) (P : Primitives) (nonceSrc : Random)
    (plainText : List Byte) : Except GoError String :=
  match r.EncryptGCM P nonceSrc plainText with
  | .error e => .error e
  | .ok bytes => .ok (EncodeToString bytes)

/-- `decryptGCM`: the nonce and the ciphertext are cut out of `data`, after the salt
when `hasSalt` is set, and given to `Open`. -/
def decryptGCM (P : Primitives) (data : List Byte) (r : ScryptPkg) (hasSalt : Bool) : Result :=
  match createAESGCM r.Key with
  | .error e => .ok (.error e)
  | .ok aesGCM =>
    let nonceSize := aesGCM.NonceSize
    let lo := if hasSalt then r.Salt.length else 0
    match slice data lo (lo + nonceSize), slice data (lo + nonceSize) data.length with
    | .ok nonce, .ok cipherText =>
      match P.gcmOpen aesGCM.key nonce cipherText with
      | .error e => .ok (.error e)
      | .ok plainText => .ok (.ok plainText)
    | _, _ => .error sliceBounds

/-- `DecryptGCM(data, password)`: the salt is the first `SaltLen` bytes of `data`.  Data
shorter than that makes `data[:dp.SaltLen]` panic, or, where the capacity of the slice
allows it, the later `data[saltSize+nonceSize:]`. -/
def DecryptGCM (P : Primitives) (data password : List Byte) : Result :=
  let dp := GetDefaultParams
  match slice data 0 dp.SaltLen.toNat with
  | .error msg => .error msg
  | .ok salt =>
    match P.scryptKey password salt dp with
    | .error e => .ok (.error e)
    | .ok key => decryptGCM P data { Key := key, Salt := salt, Params := dp } true

/-- `ScryptPkg.DecryptGCM`. -/
def ScryptPkg.DecryptGCM (r : ScryptPkg) (P : Primitives) (data : List Byte) : Result :=
  decryptGCM P data r false

/-- `ScryptPkg.DecryptGCMBase64`. -/
def ScryptPkg.DecryptGCMBase64 (r : ScryptPkg) (P : Primitives) (dataBase64 : String) :
    Result :=
  match DecodeString dataBase64 with
  | .error e => .ok (.error e)
  | .ok bytes => r.DecryptGCM P bytes

/-- Stand-ins for the libraries: a key of 32 zero bytes, a cipher that adds a tag of 16
zero bytes to the text, and random bytes that count up. -/
def toyPrimitives : Primitives :=
  { scryptKey := fun _ _ _ => .ok (List.replicate 32 0),
    gcmSeal := fun _ _ plainText => plainText ++ List.replicate 16 0,
    gcmOpen := fun _ _ cipherText =>
      if cipherText.length < 16 then .error "cipher: message authentication failed"
      else .ok (cipherText.take (cipherText.length - 16)) }

/-- Random bytes that count up. -/
def toyRandom : Random := { err := none, byte := fun i => Fin.ofNat i }

/-- A package with a key of 32 bytes. -/
def toyPkg : ScryptPkg :=
  { Key := List.replicate 32 7, Salt := List.replicate 16 9, Params := GetDefaultParams }

end Crypto

/-! ## Properties of the health reporter -/

namespace Health

theorem GoMap.get_set_self (m : GoMap) (key : String) (v : Any) :
    (m.set key v).get key = some v := by
  simp [GoMap.set, GoMap.get]

/-- Dropping the entries of one key does not change what is found for another key. -/
theorem find_filter_ne {α β : Type} [DecidableEq α] (l : List (α × β)) (key k : α)
    (h : key ≠ k) :
    (l.filter (fun e => e.1 ≠ key)).find? (fun e => e.1 = k)
      = l.find? (fun e => e.1 = k) := by
  induction l with
  | nil => rfl
  | cons e rest ih =>
    by_cases hk : e.1 = key
    · have hne : ¬ e.1 = k := fun h2 => h (hk ▸ h2)
      rw [List.filter_cons_of_neg (by simpa using hk),
        List.find?_cons_of_neg _ (by simpa using hne)]
      exact ih
    · rw [List.filter_cons_of_pos (by simpa using hk)]
      by_cases hk2 : e.1 = k
      · rw [List.find?_cons_of_pos _ (by simpa using hk2),
          List.find?_cons_of_pos _ (by simpa using hk2)]
      · rw [List.find?_cons_of_neg _ (by simpa using hk2),
          List.find?_cons_of_neg _ (by simpa using hk2)]
        exact ih

theorem GoMap.get_set_other (m : GoMap) (key k : String) (v : Any) (h : key ≠ k) :
    (m.set key v).get k = m.get k := by
  simp only [GoMap.set, GoMap.get]
  rw [List.find?_cons_of_neg _ (by simpa using h), find_filter_ne _ _ _ h]

/-- Ranging `healthFn` over entries none of which has the string key `k` leaves the
value of `k` in the map as it was. -/
theorem rangeGo_healthFn_absent (k : String) (l : List (Any × Any)) (m : GoMap)
    (h : ∀ e ∈ l, e.1 ≠ Any.str k) :
    (SyncMap.rangeGo Reporter.healthFn l m).get k = m.get k := by
  induction l generalizing m with
  | nil => rfl
  | cons e rest ih =>
    have hrest : ∀ e ∈ rest, e.1 ≠ Any.str k := fun x hx => h x (List.mem_cons_of_mem _ hx)
    have he : e.1 ≠ Any.str k := h e (List.mem_cons_self _ _)
    obtain ⟨ek, ev⟩ := e
    cases ek with
    | str key =>
      have hne : key ≠ k := fun hk => he (by simp [hk])
      simp only [SyncMap.rangeGo, Reporter.healthFn, if_true]
      rw [ih _ hrest, GoMap.get_set_other _ _ _ _ hne]
    | nil => simpa [SyncMap.rangeGo, Reporter.healthFn] using ih m hrest
    | bool b => simpa [SyncMap.rangeGo, Reporter.healthFn] using ih m hrest
    | int n => simpa [SyncMap.rangeGo, Reporter.healthFn] using ih m hrest
    | other n => simpa [SyncMap.rangeGo, Reporter.healthFn] using ih m hrest

/-- After `Store key v`, ranging `healthFn` leaves `v` at a string key. -/
theorem range_store_get (sm : SyncMap) (k : String) (v : Any) (m : GoMap) :
    ((sm.Store (.str k) v).Range Reporter.healthFn m).get k = some v := by
  simp only [SyncMap.Range, SyncMap.Store, SyncMap.rangeGo, Reporter.healthFn, if_true]
  rw [rangeGo_healthFn_absent k _ _ (by intro e he; simpa using (List.mem_filter.mp he).2)]
  exact GoMap.get_set_self _ _ _

/-- After `Delete key`, ranging `healthFn` leaves a string key as it was in the map. -/
theorem range_delete_get (sm : SyncMap) (k : String) (m : GoMap) :
    ((sm.Delete (.str k)).Range Reporter.healthFn m).get k = m.get k := by
  simp only [SyncMap.Range, SyncMap.Delete]
  exact rangeGo_healthFn_absent k _ _ (by intro e he; simpa using (List.mem_filter.mp he).2)

theorem SyncMap.load_store_self (sm : SyncMap) (key v : Any) :
    (sm.Store key v).Load key = some v := by
  simp [SyncMap.Store, SyncMap.Load]

theorem SyncMap.load_delete_self (sm : SyncMap) (key : Any) :
    (sm.Delete key).Load key = none := by
  simp [SyncMap.Delete, SyncMap.Load, List.find?_eq_none]

/-- C1: after `PersistStat(K, v1)` then `AddStat(K, v2)`, both `Health().Data[K]` and
`GetStat(K)` are `v2`; after a following `ClearStat(K)` both are `v1`.  This holds for
every reporter, key, pair of values and clock reading. -/
theorem persist_add_clear_stat (r : Reporter) (K : String) (v1 v2 : Any) (now now2 : Int) :
    (((r.PersistStat K v1).AddStat K v2).Health now).Data.get K = some v2
    ∧ ((r.PersistStat K v1).AddStat K v2).GetStat K = v2
    ∧ ((((r.PersistStat K v1).AddStat K v2).ClearStat K).Health now2).Data.get K = some v1
    ∧ (((r.PersistStat K v1).AddStat K v2).ClearStat K).GetStat K = v1 := by
  refine ⟨?_, ?_, ?_, ?_⟩
  · simp only [Reporter.Health, Reporter.AddStat, Reporter.PersistStat]
    exact range_store_get _ _ _ _
  · simp only [Reporter.GetStat, Reporter.AddStat, Reporter.PersistStat,
      SyncMap.load_store_self]
  · simp only [Reporter.Health, Reporter.AddStat, Reporter.PersistStat, Reporter.ClearStat]
    rw [range_delete_get]
    exact range_store_get _ _ _ _
  · simp only [Reporter.GetStat, Reporter.AddStat, Reporter.PersistStat, Reporter.ClearStat,
      SyncMap.load_delete_self, SyncMap.load_store_self]

/-- A failed probe adds one to `retry` and sets `backOff` to the smaller of
`backOff + interval * retry` and the maximum. -/
theorem probe_failure (I M : Int) (b : Backoff) (now : Int) :
    (probe I M b false now).retry = b.retry + 1
    ∧ (probe I M b false now).backOff = min (b.backOff + I * (b.retry + 1)) M := by
  simp only [probe, Bool.false_eq_true, if_false, min_def]
  refine ⟨trivial, ?_⟩
  split_ifs <;> omega

/-- C2: from `retry = 0`, `backOff = 0` and with a base interval `I > 0`, three failed
probes in a row give the backoff values `min I M`, `min (3 * I) M` and `min (6 * I) M`
(with `retry` 1, 2, 3), each failure setting `retry := retry + 1` and
`backOff := min (backOff + I * retry) M`; a successful probe right after sets `retry`
and `backOff` to 0. -/
theorem backoff_three_failures (I M : Int) (n1 n2 n3 n4 : Int) (hI : 0 < I) :
    (probe I M Backoff.init false n1).backOff = min I M
    ∧ (probe I M (probe I M Backoff.init false n1) false n2).backOff = min (3 * I) M
    ∧ (probe I M (probe I M (probe I M Backoff.init false n1) false n2) false n3).backOff
        = min (6 * I) M
    ∧ (probe I M (probe I M (probe I M Backoff.init false n1) false n2) false n3).retry = 3
    ∧ (probe I M (probe I M (probe I M (probe I M Backoff.init false n1) false n2)
        false n3) true n4).retry = 0
    ∧ (probe I M (probe I M (probe I M (probe I M Backoff.init false n1) false n2)
        false n3) true n4).backOff = 0
    ∧ (∀ (b : Backoff) (now : Int),
        (probe I M b false now).retry = b.retry + 1
        ∧ (probe I M b false now).backOff = min (b.backOff + I * (b.retry + 1)) M) := by
  have h1 := probe_failure I M Backoff.init n1
  have h2 := probe_failure I M (probe I M Backoff.init false n1) n2
  have h3 := probe_failure I M (probe I M (probe I M Backoff.init false n1) false n2) n3
  obtain ⟨r1, b1⟩ := h1
  obtain ⟨r2, b2⟩ := h2
  obtain ⟨r3, b3⟩ := h3
  have i0 : Backoff.init.retry = 0 := rfl
  have i1 : Backoff.init.backOff = 0 := rfl
  rw [i0] at r1
  rw [i0, i1] at b1
  rw [r1, b1] at b2
  rw [r1] at r2
  rw [r2, b2] at b3
  rw [r2] at r3
  refine ⟨?_, ?_, ?_, ?_, ?_, ?_, fun b now => probe_failure I M b now⟩
  · rw [b1]; simp only [min_def]; split_ifs <;> omega
  · rw [b2]; simp only [min_def]; split_ifs <;> omega
  · rw [b3]; simp only [min_def]; split_ifs <;> omega
  · rw [r3]; rfl
  · simp [probe]
  · simp [probe]

/-- C2 at the reporter's defaults: one minute, capped at five minutes. -/
theorem backoff_three_failures_witness :
    (0 : Int) < 60000000000
    ∧ (probe 60000000000 MaxKafkaHealthCheckInterval
        (probe 60000000000 MaxKafkaHealthCheckInterval
          (probe 60000000000 MaxKafkaHealthCheckInterval Backoff.init false 1) false 2)
        false 3).backOff = min (6 * 60000000000) MaxKafkaHealthCheckInterval :=
  ⟨by decide, (backoff_three_failures 60000000000 MaxKafkaHealthCheckInterval 1 2 3 4
    (by decide)).2.2.1⟩

/-! ### Stat layers and snapshot -/

/-- Ranging `healthFn` over entries with distinct keys: a string key among them gets
its entry's value, any other string key keeps the value it had in the map. -/
theorem rangeGo_healthFn_get (k : String) (l : List (Any × Any)) (m : GoMap)
    (h : (l.map Prod.fst).Nodup) :
    (SyncMap.rangeGo Reporter.healthFn l m).get k
      = match (l.find? (fun e => e.1 = Any.str k)).map (fun e => e.2) with
        | some v => some v
        | none => m.get k := by
  induction l generalizing m with
  | nil => rfl
  | cons e rest ih =>
    obtain ⟨ek, ev⟩ := e
    have hnd : (rest.map Prod.fst).Nodup := (List.nodup_cons.mp h).2
    have hnotin : ek ∉ rest.map Prod.fst := (List.nodup_cons.mp h).1
    by_cases hk : ek = Any.str k
    · subst hk
      have habs : ∀ e ∈ rest, e.1 ≠ Any.str k := by
        intro e he heq
        exact hnotin (List.mem_map.mpr ⟨e, he, heq⟩)
      simp only [SyncMap.rangeGo, Reporter.healthFn, if_true]
      rw [rangeGo_healthFn_absent k rest _ habs, GoMap.get_set_self]
      simp
    · rw [List.find?_cons_of_neg _ (by simpa using hk)]
      cases ek with
      | str key =>
        have hne : key ≠ k := fun hkk => hk (by rw [hkk])
        simp only [SyncMap.rangeGo, Reporter.healthFn, if_true]
        rw [ih _ hnd, GoMap.get_set_other _ _ _ _ hne]
      | nil => simpa [SyncMap.rangeGo, Reporter.healthFn] using ih m hnd
      | bool b => simpa [SyncMap.rangeGo, Reporter.healthFn] using ih m hnd
      | int n => simpa [SyncMap.rangeGo, Reporter.healthFn] using ih m hnd
      | other n => simpa [SyncMap.rangeGo, Reporter.healthFn] using ih m hnd

/-- `Load` finds a value exactly for the keys of the map. -/
theorem SyncMap.load_isSome_iff (sm : SyncMap) (key : Any) :
    sm.Load key ≠ none ↔ key ∈ sm.entries.map Prod.fst := by
  simp only [SyncMap.Load, ne_eq, Option.map_eq_none', List.find?_eq_none, not_forall,
    List.mem_map]
  constructor
  · rintro ⟨e, he, hk⟩
    exact ⟨e, he, by simpa using hk⟩
  · rintro ⟨e, he, hk⟩
    exact ⟨e, he, by simpa using hk⟩

/-- C14: the `Data` map of `Health()` is the union of the two layers with the transient
layer winning, whatever the two layers hold (a `sync.Map` has one entry per key): at a
string key `k` it has the transient value if the transient layer has `k`, else the
persistent value if the persistent layer has `k`, else nothing; so its keys are exactly
the string keys of the two layers. -/
theorem health_data_union (r : Reporter) (now : Int) (k : String)
    (ht : (r.stats.entries.map Prod.fst).Nodup)
    (hp : (r.persistentStats.entries.map Prod.fst).Nodup) :
    (r.Health now).Data.get k
        = (match r.stats.Load (.str k) with
           | some v => some v
           | none => r.persistentStats.Load (.str k))
    ∧ ((r.Health now).Data.get k ≠ none ↔
        (Any.str k ∈ r.stats.entries.map Prod.fst
          ∨ Any.str k ∈ r.persistentStats.entries.map Prod.fst)) := by
  have h1 : (r.Health now).Data.get k
        = (match r.stats.Load (.str k) with
           | some v => some v
           | none => r.persistentStats.Load (.str k)) := by
    simp only [Reporter.Health, SyncMap.Range]
    rw [rangeGo_healthFn_get k _ _ ht, rangeGo_healthFn_get k _ _ hp]
    simp only [SyncMap.Load]
    cases (r.stats.entries.find? (fun e => e.1 = Any.str k)).map (fun e => e.2) with
    | some v => rfl
    | none =>
      cases (r.persistentStats.entries.find? (fun e => e.1 = Any.str k)).map
          (fun e => e.2) with
      | some v => rfl
      | none => rfl
  refine ⟨h1, ?_⟩
  rw [h1, ← SyncMap.load_isSome_iff, ← SyncMap.load_isSome_iff]
  cases r.stats.Load (.str k) <;> simp

/-- C14 on a reporter with a persistent `a`, and `b` in both layers. -/
theorem health_data_union_witness :
    (((((NewReporter "host" "v1" "svc").PersistStat "a" (.int 1)).PersistStat "b"
        (.int 2)).AddStat "b" (.int 3)).Health 0).Data.get "b"
      = some (.int 3) :=
  (health_data_union ((((NewReporter "host" "v1" "svc").PersistStat "a" (.int 1)).PersistStat
      "b" (.int 2)).AddStat "b" (.int 3)) 0 "b" (by decide) (by decide)).1

/-- The maps built from `sync.Map{}` by `Store` and `Delete` have one entry per key. -/
theorem SyncMap.nodup_keys (sm : SyncMap) (key value : Any)
    (h : (sm.entries.map Prod.fst).Nodup) :
    (SyncMap.empty.entries.map Prod.fst).Nodup
    ∧ ((sm.Store key value).entries.map Prod.fst).Nodup
    ∧ ((sm.Delete key).entries.map Prod.fst).Nodup := by
  have hf : ((sm.entries.filter (fun e => e.1 ≠ key)).map Prod.fst).Nodup :=
    (List.filter_sublist sm.entries).map Prod.fst |>.nodup h
  refine ⟨List.nodup_nil, ?_, hf⟩
  simp only [SyncMap.Store, List.map_cons, List.nodup_cons]
  refine ⟨?_, hf⟩
  intro hmem
  obtain ⟨e, he, hk⟩ := List.mem_map.mp hmem
  have := (List.mem_filter.mp he).2
  simp [hk] at this

/-- C16: after `SetHealth(s, m)` the snapshot has `State = s` and `Message = m`, and its
hostname, service, version and stat data are those of a snapshot taken before the
call. -/
theorem set_health_then_health (r : Reporter) (s : State) (m : String) (now0 now : Int) :
    ((r.SetHealth s m).Health now).State = s
    ∧ ((r.SetHealth s m).Health now).Message = m
    ∧ ((r.SetHealth s m).Health now).Hostname = (r.Health now0).Hostname
    ∧ ((r.SetHealth s m).Health now).Service = (r.Health now0).Service
    ∧ ((r.SetHealth s m).Health now).Version = (r.Health now0).Version
    ∧ ((r.SetHealth s m).Health now).Data = (r.Health now0).Data :=
  ⟨rfl, rfl, rfl, rfl, rfl, rfl⟩

/-- C18: `ClearStats` empties the transient layer and keeps the persistent layer, so
`GetStat(k)` is then the persistent value of `k`, or nil without one; `ClearAll` empties
both layers, so `GetStat(k)` is then nil for every `k` and `Health().Data` is the empty
map. -/
theorem clear_stats_and_clear_all (r : Reporter) (k : String) (key : Any) (now : Int) :
    r.ClearStats.stats.Load key = none
    ∧ r.ClearStats.persistentStats = r.persistentStats
    ∧ r.ClearStats.GetStat k
        = (match r.persistentStats.Load (.str k) with
           | some val => val
           | none => Any.nil)
    ∧ r.ClearAll.stats.Load key = none
    ∧ r.ClearAll.persistentStats.Load key = none
    ∧ r.ClearAll.GetStat k = Any.nil
    ∧ (r.ClearAll.Health now).Data = GoMap.make
    ∧ (r.ClearAll.Health now).Data.get k = none :=
  ⟨rfl, rfl, rfl, rfl, rfl, rfl, rfl, rfl⟩

/-! ### Backoff of the connectivity probe -/

/-- A probe keeps `0 ≤ retry` and `0 ≤ backOff ≤ M`. -/
theorem probe_bounds (I M : Int) (hI : 0 < I) (hM : 0 ≤ M) (b : Backoff) (healthy : Bool)
    (now : Int) (h : 0 ≤ b.retry ∧ 0 ≤ b.backOff ∧ b.backOff ≤ M) :
    0 ≤ (probe I M b healthy now).retry ∧ 0 ≤ (probe I M b healthy now).backOff
    ∧ (probe I M b healthy now).backOff ≤ M := by
  cases healthy with
  | true => simp [probe, hM]
  | false =>
    have hpos : 0 < I * (b.retry + 1) := Int.mul_pos hI (by omega)
    simp only [probe, Bool.false_eq_true, if_false]
    refine ⟨by omega, ?_, ?_⟩ <;> split_ifs <;> omega

theorem runHealthTicks_bounds (I M : Int) (hI : 0 < I) (hM : 0 ≤ M) (b : Backoff)
    (ticks : List (Int × Bool × Int))
    (h : 0 ≤ b.retry ∧ 0 ≤ b.backOff ∧ b.backOff ≤ M) :
    0 ≤ (runHealthTicks I M b ticks).retry ∧ 0 ≤ (runHealthTicks I M b ticks).backOff
    ∧ (runHealthTicks I M b ticks).backOff ≤ M := by
  induction ticks generalizing b with
  | nil => exact h
  | cons t rest ih =>
    simp only [runHealthTicks]
    apply ih
    simp only [healthTick]
    split_ifs
    · exact probe_bounds I M hI hM b _ _ h
    · exact h

/-- C15: with a base interval `I > 0` and a maximum `M ≥ 0`, after any sequence of ticks
of the probe task, whatever the probes return, `retry ≥ 0` and `0 ≤ backOff ≤ M`; a
failed probe made next does not lower `backOff`; and a successful probe made next sets
`retry` and `backOff` to 0. -/
theorem backoff_invariant (I M : Int) (hI : 0 < I) (hM : 0 ≤ M)
    (ticks : List (Int × Bool × Int)) (now : Int) :
    0 ≤ (runHealthTicks I M Backoff.init ticks).retry
    ∧ 0 ≤ (runHealthTicks I M Backoff.init ticks).backOff
    ∧ (runHealthTicks I M Backoff.init ticks).backOff ≤ M
    ∧ (runHealthTicks I M Backoff.init ticks).backOff
        ≤ (probe I M (runHealthTicks I M Backoff.init ticks) false now).backOff
    ∧ (probe I M (runHealthTicks I M Backoff.init ticks) true now).retry = 0
    ∧ (probe I M (runHealthTicks I M Backoff.init ticks) true now).backOff = 0 := by
  have hb := runHealthTicks_bounds I M hI hM Backoff.init ticks
    ⟨le_refl _, le_refl _, hM⟩
  obtain ⟨h1, h2, h3⟩ := hb
  refine ⟨h1, h2, h3, ?_, by simp [probe], by simp [probe]⟩
  have hpos : 0 < I * ((runHealthTicks I M Backoff.init ticks).retry + 1) :=
    Int.mul_pos hI (by omega)
  simp only [probe, Bool.false_eq_true, if_false]
  split_ifs <;> omega

/-- C15 at the reporter's defaults, after two failed probes and a tick that comes too
early for a probe. -/
theorem backoff_invariant_witness :
    (runHealthTicks 60000000000 MaxKafkaHealthCheckInterval Backoff.init
        [(0, false, 1), (61000000000, false, 61000000001), (62000000000, true, 0)]).backOff
      ≤ MaxKafkaHealthCheckInterval :=
  (backoff_invariant 60000000000 MaxKafkaHealthCheckInterval (by decide) (by decide)
    [(0, false, 1), (61000000000, false, 61000000001), (62000000000, true, 0)] 0).2.2.1

/-! ### Encoding of the snapshot -/

/-- C20: in a call of `produce`, with `fullTopic` the full name of the topic:
`Produce` is called, on `fullTopic` and the message, exactly when there is a producer;
`Errfn` (when the reporter has one) is called exactly when the producer is absent, or
`Produce` returned an error, or kafka is marked unhealthy; the message is printed exactly
when that holds and `fallback` is set; the error handed to `Errfn` is
`produce error: [text] fullTopic`, where the text is `producer not set` without a
producer, else `could not produce: err` when `Produce` returned `err`, else
`kafka not available`; and `produce` returns what `Produce` returned, nil when it was not
called. -/
theorem produce_step (x : FullReporter) (fallback : Bool) (topic : String) (message : Json) :
    (∀ t m, Effect.Produce t m ∈ (x.produce fallback topic message).1 ↔
      (x.sc.GetProducer ≠ none ∧ t = x.sc.FullTopic topic ∧ m = message))
    ∧ ((∃ e, Effect.Errfn e ∈ (x.produce fallback topic message).1) ↔
      (x.Errfn = true ∧ (x.sc.GetProducer = none
        ∨ x.sc.Produce (x.sc.FullTopic topic) message ≠ none ∨ x.kafkaHealthy = false)))
    ∧ (∀ m, Effect.Println m ∈ (x.produce fallback topic message).1 ↔
      ((x.sc.GetProducer = none
        ∨ x.sc.Produce (x.sc.FullTopic topic) message ≠ none ∨ x.kafkaHealthy = false)
        ∧ fallback = true ∧ m = message))
    ∧ (∀ e, Effect.Errfn e ∈ (x.produce fallback topic message).1 →
      (x.sc.GetProducer = none →
        e = "produce error" ++ ": " ++ ("[" ++ "producer not set" ++ "] " ++ x.sc.FullTopic topic))
      ∧ (∀ err, x.sc.GetProducer ≠ none →
        x.sc.Produce (x.sc.FullTopic topic) message = some err →
        e = "produce error" ++ ": "
          ++ ("[" ++ ("could not produce: " ++ err) ++ "] " ++ x.sc.FullTopic topic))
      ∧ (x.sc.GetProducer ≠ none → x.sc.Produce (x.sc.FullTopic topic) message = none →
        e = "produce error" ++ ": "
          ++ ("[" ++ "kafka not available" ++ "] " ++ x.sc.FullTopic topic)))
    ∧ (x.produce fallback topic message).2
        = (if x.sc.GetProducer ≠ none then x.sc.Produce (x.sc.FullTopic topic) message
           else none) := by
  cases hp : x.sc.GetProducer <;> cases he : x.sc.Produce (x.sc.FullTopic topic) message <;>
    cases hh : x.kafkaHealthy <;> cases fallback <;> cases hE : x.Errfn <;>
    simp [FullReporter.produce, FullReporter.errorHandler, hp, he, hh, hE]

/-- C20 on a new reporter, which has no producer: `Errfn` gets `producer not set`. -/
theorem produce_step_witness :
    Effect.Errfn "produce error: [producer not set] atsu.health.svc"
      ∈ ((NewFullReporter "host" "v1" "svc" "atsu" "b" true).produce false "health.svc"
          Json.null).1
    ∧ "produce error: [producer not set] atsu.health.svc"
      = "produce error" ++ ": " ++ ("[" ++ "producer not set" ++ "] "
          ++ (NewFullReporter "host" "v1" "svc" "atsu" "b" true).sc.FullTopic "health.svc") :=
  ⟨List.Mem.head _,
   ((produce_step (NewFullReporter "host" "v1" "svc" "atsu" "b" true) false "health.svc"
      Json.null).2.2.2.1 "produce error: [producer not set] atsu.health.svc"
      (List.Mem.head _)).1 rfl⟩

/-- What `StopWithFinalState` returns, leaves and does when `doneCh` is not closed
yet. -/
theorem stop_of_open (x : FullReporter) (enc : Nat → Except String Json) (now : Int)
    (s : State) (m : String) (hopen : x.doneCh ≠ some true) :
    (x.StopWithFinalState enc now s m).result = .ok x.sc.Close
    ∧ (x.StopWithFinalState enc now s m).x.toReporter
        = (runStatFns x.statFns (x.toReporter.SetHealth s m)).1
    ∧ (x.StopWithFinalState enc now s m).x.doneCh = x.doneCh.map (fun _ => true)
    ∧ (x.StopWithFinalState enc now s m).x.sc = x.sc
    ∧ (x.StopWithFinalState enc now s m).effects
        = ({ x with toReporter := x.toReporter.SetHealth s m }.ReportHealth enc now).2
          ++ ((if x.reportTicker.isSome then [Effect.TickerStop] else [])
          ++ ((if x.doneCh.isSome then [Effect.CloseDoneCh] else [])
          ++ ((if x.sc.GetProducer.isSome then [Effect.Flush DefaultFlushTimeout] else [])
          ++ [Effect.Close]))) := by
  cases hd : x.doneCh with
  | none =>
    simp [FullReporter.StopWithFinalState, FullReporter.ReportHealth, hd]
  | some b =>
    cases b with
    | true => exact absurd hd hopen
    | false =>
      simp [FullReporter.StopWithFinalState, FullReporter.ReportHealth, hd]

/-- What `StopWithFinalState` does when `doneCh` is closed already. -/
theorem stop_of_closed (x : FullReporter) (enc : Nat → Except String Json) (now : Int)
    (s : State) (m : String) (hclosed : x.doneCh = some true) :
    (x.StopWithFinalState enc now s m).result = .error "close of closed channel" := by
  simp only [FullReporter.StopWithFinalState, FullReporter.ReportHealth, hclosed]

/-- C12, as amended: a call of `StopWithFinalState` on a reporter whose `doneCh` is not
closed yet returns what `Close` of the stream config returns, and leaves `doneCh`
closed when there is one; a call on a reporter whose `doneCh` is closed panics with
`close of closed channel`; so after a first call on a reporter with an open `doneCh`, a
second call panics. -/
theorem stop_twice_panics (x : FullReporter) (enc : Nat → Except String Json)
    (now now2 : Int) (s s2 : State) (m m2 : String) :
    (x.doneCh ≠ some true → (x.StopWithFinalState enc now s m).result = .ok x.sc.Close)
    ∧ (x.doneCh = some true →
        (x.StopWithFinalState enc now s m).result = .error "close of closed channel")
    ∧ (x.doneCh = some false →
        (x.StopWithFinalState enc now s m).x.doneCh = some true
        ∧ ((x.StopWithFinalState enc now s m).x.StopWithFinalState enc now2 s2 m2).result
            = .error "close of closed channel") := by
  refine ⟨fun h => (stop_of_open x enc now s m h).1, stop_of_closed x enc now s m, ?_⟩
  intro hd
  have hopen : x.doneCh ≠ some true := by rw [hd]; simp
  have hc : (x.StopWithFinalState enc now s m).x.doneCh = some true := by
    rw [(stop_of_open x enc now s m hopen).2.2.1, hd]
    rfl
  exact ⟨hc, stop_of_closed _ enc now2 s2 m2 hc⟩

/-- C12 as stated fails: on a new reporter the first `Stop` returns nil and the second
`Stop` panics. -/
theorem stop_twice_counterexample :
    ((NewFullReporter "host" "v1" "test" "test" "0.0.0.0:9092" true).Stop
        (fun _ => .error "unsupported") 7).result = .ok none
    ∧ (((NewFullReporter "host" "v1" "test" "test" "0.0.0.0:9092" true).Stop
        (fun _ => .error "unsupported") 7).x.Stop (fun _ => .error "unsupported") 8).result
      = .error "close of closed channel" := by
  constructor <;> rfl

/-- C12 as amended, on the reporter of `TestReporter_Stop`. -/
theorem stop_twice_panics_witness :
    (mockReporter.StopWithFinalState (fun _ => .error "unsupported") 7 Gray "").result
      = .ok mockReporter.sc.Close
    ∧ ((mockReporter.StopWithFinalState (fun _ => .error "unsupported") 7 Gray
        "").x.StopWithFinalState (fun _ => .error "unsupported") 8 Gray "").result
      = .error "close of closed channel" :=
  ⟨(stop_twice_panics mockReporter (fun _ => .error "unsupported") 7 8 Gray Gray "" "").1
      (by simp [mockReporter, NewFullReporter]),
   ((stop_twice_panics mockReporter (fun _ => .error "unsupported") 7 8 Gray Gray "" "").2.2
      rfl).2⟩

/-- C17: a reporter made by `NewReporter` has state `Blue` and an empty message, and so
has its snapshot; `AddStat`, `PersistStat`, `ClearStat`, `ClearStats`, `ClearAll`,
`RegisterStatFn` and `AddHostnameSuffix` leave the state and the message as they are,
and `Health` reports them as they are (`GetStat` and `Health` return a value and leave
the reporter as a whole as it is). -/
theorem new_reporter_blue_and_frame (hn version service pfx brokers : String) (errfn : Bool)
    (r : Reporter) (x : FullReporter) (k suffix name : String) (v : Any) (fn : StatFn)
    (now : Int) :
    (NewReporter hn version service).state = Blue
    ∧ (NewReporter hn version service).message = ""
    ∧ (NewFullReporter hn version service pfx brokers errfn).state = Blue
    ∧ (NewFullReporter hn version service pfx brokers errfn).message = ""
    ∧ ((NewReporter hn version service).Health now).State = Blue
    ∧ ((NewReporter hn version service).Health now).Message = ""
    ∧ ((r.AddStat k v).state = r.state ∧ (r.AddStat k v).message = r.message)
    ∧ ((r.PersistStat k v).state = r.state ∧ (r.PersistStat k v).message = r.message)
    ∧ ((r.ClearStat k).state = r.state ∧ (r.ClearStat k).message = r.message)
    ∧ (r.ClearStats.state = r.state ∧ r.ClearStats.message = r.message)
    ∧ (r.ClearAll.state = r.state ∧ r.ClearAll.message = r.message)
    ∧ ((r.AddHostnameSuffix suffix).state = r.state
        ∧ (r.AddHostnameSuffix suffix).message = r.message)
    ∧ ((x.RegisterStatFn name fn).state = x.state
        ∧ (x.RegisterStatFn name fn).message = x.message)
    ∧ ((r.Health now).State = r.state ∧ (r.Health now).Message = r.message) := by
  refine ⟨rfl, rfl, rfl, rfl, rfl, rfl, ⟨rfl, rfl⟩, ⟨rfl, rfl⟩, ⟨rfl, rfl⟩, ⟨rfl, rfl⟩,
    ⟨rfl, rfl⟩, ?_, ⟨rfl, rfl⟩, ⟨rfl, rfl⟩⟩
  unfold Reporter.AddHostnameSuffix
  split_ifs <;> exact ⟨rfl, rfl⟩

/-! ### State names and initialization -/

/-- C28, at the name the code misses: `Set("red")` returns nil and leaves the receiver
blue, whatever it was, so its `String()` is not `"red"`. -/
theorem set_red_assigns_blue (s : State) :
    State.Set s "red" = (Blue, none) ∧ State.String (State.Set s "red").1 ≠ "red" := by
  constructor
  · simp [State.Set, Blue, Green, Yellow, Red]
  · simp [State.Set, State.String, Blue, Green, Yellow, Red]

/-- C21, at a stream config that already holds a producer: `Initialize` on the reporter
of the tests returns false with a nil error and leaves kafka marked unhealthy, whatever
a new producer would have answered. -/
theorem initialize_with_producer_returns_false (a : NewProducerAnswers)
    (enc : Nat → Except String Json) (now : Int) :
    (mockReporter.Initialize (some mockStreamConfig) a enc now).result = (false, none)
      ∧ (mockReporter.Initialize (some mockStreamConfig) a enc now).x.KafkaHealthy
          = (false, none) := by
  constructor <;> rfl

end Health

/-! ## Properties of the consumption driver -/

namespace Stream

section Driver

variable {σ κ : Type}

/-- `Consume` when `NewConsumer` fails: the error is returned and no method is called. -/
theorem consume_of_connect_error (sc sc1 : StreamConfig) (k : Kafka)
    (c : StreamConsumer σ κ) (st : σ) (config : κ) (events : List Event) (err : GoError)
    (hnew : sc.NewConsumer k = (.error err, sc1)) :
    sc.Consume k c st config events
      = { result := some (some err), sc := sc1, consumer := st, calls := [],
          iterations := 0 } := by
  simp only [StreamConfig.Consume, hnew]

/-- `Consume` when `Start` fails. -/
theorem consume_of_start_error (sc sc1 : StreamConfig) (k : Kafka) (kc : KafkaConsumer)
    (c : StreamConsumer σ κ) (st st1 : σ) (config : κ) (events : List Event) (err : GoError)
    (hnew : sc.NewConsumer k = (.ok kc, sc1))
    (hstart : c.Start st sc1 config = (st1, some err)) :
    sc.Consume k c st config events
      = { result := some (some err), sc := sc1, consumer := st1, calls := [Call.Start],
          iterations := 0 } := by
  simp only [StreamConfig.Consume, hnew, hstart]

/-- `Consume` when `Start` succeeds: the loop runs from `enterLoop`; when it ends,
`Finish` is called and its error returned. -/
theorem consume_of_start_ok (sc : StreamConfig) (k : Kafka)
    (c : StreamConsumer σ κ) (st : σ) (config : κ) (events : List Event)
    (hnew : ∃ kc, (sc.NewConsumer k).1 = .ok kc)
    (hstart : (c.Start st (sc.NewConsumer k).2 config).2 = none) :
    sc.Consume k c st config events
      = if (sc.consumeLoop k c st config events).run then
          { result := none,
            sc := (sc.consumeLoop k c st config events).sc,
            consumer := (sc.consumeLoop k c st config events).consumer,
            calls := (sc.consumeLoop k c st config events).calls,
            iterations := (sc.consumeLoop k c st config events).iterations }
        else
          { result := some (c.Finish (sc.consumeLoop k c st config events).consumer
              (sc.consumeLoop k c st config events).sc).2,
            sc := (sc.consumeLoop k c st config events).sc,
            consumer := (c.Finish (sc.consumeLoop k c st config events).consumer
              (sc.consumeLoop k c st config events).sc).1,
            calls := (sc.consumeLoop k c st config events).calls ++ [Call.Finish],
            iterations := (sc.consumeLoop k c st config events).iterations } := by
  obtain ⟨kc, hkc⟩ := hnew
  unfold StreamConfig.Consume StreamConfig.consumeLoop
  cases hN : sc.NewConsumer k with
  | mk r sc1 =>
    rw [hN] at hkc hstart
    simp only at hkc hstart
    subst hkc
    cases hS : c.Start st sc1 config with
    | mk st1 e =>
      rw [hS] at hstart
      simp only at hstart
      subst hstart
      simp only [hS]

/-- A loop that has stopped ignores the remaining outcomes. -/
theorem loop_of_stopped (c : StreamConsumer σ κ) (tt it : Ticker) (s : Loop σ)
    (es : List Event) (h : s.run = false) : loop c tt it s es = s := by
  cases es with
  | nil => rfl
  | cons ev rest => simp [loop, h]

/-- Running the loop over two lists of outcomes in a row. -/
theorem loop_append (c : StreamConsumer σ κ) (tt it : Ticker) (s : Loop σ)
    (es fs : List Event) :
    loop c tt it s (es ++ fs) = loop c tt it (loop c tt it s es) fs := by
  induction es generalizing s with
  | nil => rfl
  | cons ev rest ih =>
    by_cases hr : s.run = true
    · by_cases he : ev.ready tt it = true
      · simp only [List.cons_append, loop, hr, he, if_true]
        exact ih _
      · simp only [List.cons_append, loop, hr, he, if_true]
        exact ih _
    · have hr : s.run = false := by simpa using hr
      simp only [List.cons_append, loop, hr]
      simp [loop_of_stopped c tt it s fs hr]

theorem selectCase_calls (c : StreamConsumer σ κ) (s : Loop σ) (ev : Event) :
    (selectCase c s ev).calls = s.calls ++ branchCalls s ev := by
  rcases ev with (_ | _ | _) | _ | _ | _ <;> simp [selectCase, branchCalls]

theorem iteration_calls (c : StreamConsumer σ κ) (s : Loop σ) (ev : Event) :
    (iteration c s ev).calls = s.calls ++ branchCalls s ev ++ [Call.Process] := by
  simp only [iteration, process, selectCase_calls]
  rcases ev with (_ | _ | _) | _ | _ | _ <;> rfl

/-- C3: when `NewConsumer` succeeded and `Start` returns a non-nil error, `Consume`
returns exactly that error, and `Start` is the only consumer method called: no `Message`,
`Interval`, `Timeout`, `Error`, `Process` or `Finish`. -/
theorem start_error_aborts (sc : StreamConfig) (k : Kafka) (c : StreamConsumer σ κ)
    (st : σ) (config : κ) (events : List Event) (err : GoError)
    (hnew : ∃ kc, (sc.NewConsumer k).1 = .ok kc)
    (hstart : (c.Start st (sc.NewConsumer k).2 config).2 = some err) :
    (sc.Consume k c st config events).result = some (some err)
    ∧ (sc.Consume k c st config events).calls = [Call.Start] := by
  obtain ⟨kc, hkc⟩ := hnew
  have hnew : sc.NewConsumer k = (.ok kc, (sc.NewConsumer k).2) := by
    rw [← hkc]
  have hs : c.Start st (sc.NewConsumer k).2 config
      = ((c.Start st (sc.NewConsumer k).2 config).1, some err) := by
    rw [← hstart]
  rw [consume_of_start_error sc _ k kc c st _ config events err hnew hs]
  exact ⟨rfl, rfl⟩

/-- C3 on a consumer whose `Start` fails, with a message, a tick and a cancellation
waiting. -/
theorem start_error_aborts_witness :
    (testStreamConfig.Consume kafkaUp (countingConsumer 5 (some "no start") none) 0 ()
        [Event.events (.message { Value := [1, 2] }), Event.timeTick 7, Event.done]).result
      = some (some "no start")
    ∧ (testStreamConfig.Consume kafkaUp (countingConsumer 5 (some "no start") none) 0 ()
        [Event.events (.message { Value := [1, 2] }), Event.timeTick 7, Event.done]).calls
      = [Call.Start] :=
  start_error_aborts testStreamConfig kafkaUp (countingConsumer 5 (some "no start") none) 0 ()
    [Event.events (.message { Value := [1, 2] }), Event.timeTick 7, Event.done] "no start"
    ⟨_, rfl⟩ rfl

theorem iteration_count_finish (c : StreamConsumer σ κ) (s : Loop σ) (ev : Event) :
    (iteration c s ev).calls.count Call.Finish = s.calls.count Call.Finish := by
  rw [iteration_calls]
  rcases ev with (_ | _ | _) | _ | _ | _ <;> simp [branchCalls, List.count_cons]

theorem loop_count_finish (c : StreamConsumer σ κ) (tt it : Ticker) (s : Loop σ)
    (es : List Event) :
    (loop c tt it s es).calls.count Call.Finish = s.calls.count Call.Finish := by
  induction es generalizing s with
  | nil => rfl
  | cons ev rest ih =>
    simp only [loop]
    split_ifs
    · rw [ih, iteration_count_finish]
    · exact ih s
    · rfl

/-- C4: when `NewConsumer` and `Start` succeeded and the loop ends on the given
outcomes, `Consume` returns exactly what `Finish` returned, `Finish` being called on the
state the loop ended in; `Finish` is the last call, and it is called exactly once. -/
theorem finish_once_and_last (sc : StreamConfig) (k : Kafka) (c : StreamConsumer σ κ)
    (st : σ) (config : κ) (events : List Event)
    (hnew : ∃ kc, (sc.NewConsumer k).1 = .ok kc)
    (hstart : (c.Start st (sc.NewConsumer k).2 config).2 = none)
    (hexit : (sc.consumeLoop k c st config events).run = false) :
    (sc.Consume k c st config events).result
        = some (c.Finish (sc.consumeLoop k c st config events).consumer
            (sc.consumeLoop k c st config events).sc).2
    ∧ (sc.Consume k c st config events).calls
        = (sc.consumeLoop k c st config events).calls ++ [Call.Finish]
    ∧ (sc.Consume k c st config events).calls.getLast? = some Call.Finish
    ∧ (sc.Consume k c st config events).calls.count Call.Finish = 1 := by
  rw [consume_of_start_ok sc k c st config events hnew hstart, hexit]
  refine ⟨rfl, rfl, ?_, ?_⟩
  · simp
  · simp only [Bool.false_eq_true, if_false, List.count_append]
    unfold StreamConfig.consumeLoop
    rw [loop_count_finish]
    simp [enterLoop, List.count_cons]

/-- C4 on a consumer whose `Message` is followed by a cancellation: `Finish` returns an
error, and `Consume` returns it. -/
theorem finish_once_and_last_witness :
    (testStreamConfig.Consume kafkaUp (countingConsumer 5 none (some "finished")) 0 ()
        [Event.events (.message { Value := [1, 2] }), Event.done]).result
      = some (some "finished")
    ∧ (testStreamConfig.Consume kafkaUp (countingConsumer 5 none (some "finished")) 0 ()
        [Event.events (.message { Value := [1, 2] }), Event.done]).calls
      = [Call.Start, Call.Message { Value := [1, 2] }, Call.Process, Call.Process,
          Call.Finish] :=
  ⟨(finish_once_and_last testStreamConfig kafkaUp (countingConsumer 5 none (some "finished"))
      0 () [Event.events (.message { Value := [1, 2] }), Event.done] ⟨_, rfl⟩ rfl rfl).1,
   (finish_once_and_last testStreamConfig kafkaUp (countingConsumer 5 none (some "finished"))
      0 () [Event.events (.message { Value := [1, 2] }), Event.done] ⟨_, rfl⟩ rfl rfl).2.1⟩

/-- The three ways `Consume` can go: `NewConsumer` fails, `Start` fails, or the loop is
entered. -/
theorem consume_cases (sc : StreamConfig) (k : Kafka) (c : StreamConsumer σ κ)
    (st : σ) (config : κ) (events : List Event) :
    (sc.Consume k c st config events).calls = []
      ∧ (sc.Consume k c st config events).iterations = 0
    ∨ (sc.Consume k c st config events).calls = [Call.Start]
      ∧ (sc.Consume k c st config events).iterations = 0
    ∨ (∃ kc, (sc.NewConsumer k).1 = .ok kc)
      ∧ (c.Start st (sc.NewConsumer k).2 config).2 = none := by
  cases hN : sc.NewConsumer k with
  | mk r sc1 =>
    cases r with
    | error err =>
      left
      rw [consume_of_connect_error sc sc1 k c st config events err hN]
      exact ⟨rfl, rfl⟩
    | ok kc =>
      cases hS : c.Start st sc1 config with
      | mk st1 e =>
        cases e with
        | some err =>
          right; left
          rw [consume_of_start_error sc sc1 k kc c st st1 config events err hN hS]
          exact ⟨rfl, rfl⟩
        | none =>
          right; right
          exact ⟨⟨kc, rfl⟩, by simp only [hS]⟩

/-- An iteration started with `run` true ends with `run` false exactly when a stop was
requested in it: by the method of the case that fired, by a cancellation, or by
`Process`. -/
theorem iteration_stops_iff (c : StreamConsumer σ κ) (s : Loop σ) (ev : Event)
    (hrun : s.run = true) :
    (iteration c s ev).run = false ↔
      ((∃ e, ev = .events (.message e)
          ∧ (c.Message s.consumer (s.sc.countMessage e) e).2 ≠ none)
      ∨ (∃ e, ev = .events (.error e) ∧ (c.Error s.consumer s.sc e).2 = true)
      ∨ (∃ t, ev = .intTick t ∧ (c.Interval s.consumer s.sc t).2 ≠ none)
      ∨ (∃ t, ev = .timeTick t
          ∧ (c.Timeout s.consumer s.sc t (decide (s.last = s.sc.Messages))).2 = true)
      ∨ ev = .done
      ∨ (c.Process (selectCase c s ev).consumer (selectCase c s ev).sc).2.1 = true
      ∨ (c.Process (selectCase c s ev).consumer (selectCase c s ev).sc).2.2 ≠ none) := by
  rcases ev with (e | e | _) | t | t | _
  · simp only [iteration, process, selectCase, hrun]
    cases h1 : (c.Message s.consumer (s.sc.countMessage e) e).2 <;>
    cases h2 : (c.Process (c.Message s.consumer (s.sc.countMessage e) e).1
                (s.sc.countMessage e)).2.1 <;>
    cases h3 : (c.Process (c.Message s.consumer (s.sc.countMessage e) e).1
                (s.sc.countMessage e)).2.2 <;>
    simp_all
  · simp only [iteration, process, selectCase, hrun]
    cases h1 : (c.Error s.consumer s.sc e).2 <;>
    cases h2 : (c.Process (c.Error s.consumer s.sc e).1 s.sc).2.1 <;>
    cases h3 : (c.Process (c.Error s.consumer s.sc e).1 s.sc).2.2 <;>
    simp_all
  · simp only [iteration, process, selectCase, hrun]
    cases h2 : (c.Process s.consumer s.sc).2.1 <;>
    cases h3 : (c.Process s.consumer s.sc).2.2 <;>
    simp_all
  · simp only [iteration, process, selectCase, hrun]
    cases h1 : (c.Interval s.consumer s.sc t).2 <;>
    cases h2 : (c.Process (c.Interval s.consumer s.sc t).1 s.sc).2.1 <;>
    cases h3 : (c.Process (c.Interval s.consumer s.sc t).1 s.sc).2.2 <;>
    simp_all
  · simp only [iteration, process, selectCase, hrun]
    cases h1 : (c.Timeout s.consumer s.sc t (decide (s.last = s.sc.Messages))).2 <;>
    cases h2 : (c.Process
      (c.Timeout s.consumer s.sc t (decide (s.last = s.sc.Messages))).1 s.sc).2.1 <;>
    cases h3 : (c.Process
      (c.Timeout s.consumer s.sc t (decide (s.last = s.sc.Messages))).1 s.sc).2.2 <;>
    simp_all
  · simp [iteration, process, selectCase]

/-- The loop of `Consume` over `pre ++ es` continues the loop over `pre`. -/
theorem consumeLoop_append (sc : StreamConfig) (k : Kafka) (c : StreamConsumer σ κ)
    (st : σ) (config : κ) (pre es : List Event) :
    sc.consumeLoop k c st config (pre ++ es)
      = loop c (mkTicker (sc.NewConsumer k).2.Timeout) (mkTicker (sc.NewConsumer k).2.Interval)
          (sc.consumeLoop k c st config pre) es := by
  unfold StreamConfig.consumeLoop
  exact loop_append _ _ _ _ _ _

/-- A running loop serves a ready outcome with one iteration. -/
theorem loop_cons_ready (c : StreamConsumer σ κ) (tt it : Ticker) (s : Loop σ)
    (ev : Event) (rest : List Event) (hrun : s.run = true)
    (hready : ev.ready tt it = true) :
    loop c tt it s (ev :: rest) = loop c tt it (iteration c s ev) rest := by
  simp only [loop, hrun, hready, if_true]

/-- C6: take a run of `Consume` in which `NewConsumer` and `Start` succeeded and the
loop, in state `s`, is still running after the outcomes `pre`, and let `ev` be the next
outcome that can fire.  The iteration for `ev` ends the loop exactly when a stop is
requested in it: `Message` or `Interval` returns a non-nil error, `Timeout` or `Error`
returns true, the cancellation channel is ready, or `Process` returns `stop = true` or a
non-nil error.  When it does, the calls of the whole run are those made before, the call
of the case that fired, `Process` and `Finish`, whatever outcomes come after `ev`, and
`Consume` returns what `Finish` returned. -/
theorem stops_at_first_stop_request (sc : StreamConfig) (k : Kafka)
    (c : StreamConsumer σ κ) (st : σ) (config : κ) (pre : List Event) (ev : Event)
    (rest : List Event) (s : Loop σ)
    (hnew : ∃ kc, (sc.NewConsumer k).1 = .ok kc)
    (hstart : (c.Start st (sc.NewConsumer k).2 config).2 = none)
    (hs : sc.consumeLoop k c st config pre = s)
    (hrun : s.run = true)
    (hready : ev.ready (mkTicker (sc.NewConsumer k).2.Timeout)
        (mkTicker (sc.NewConsumer k).2.Interval) = true) :
    ((sc.consumeLoop k c st config (pre ++ [ev])).run = false ↔
      ((∃ e, ev = .events (.message e)
          ∧ (c.Message s.consumer (s.sc.countMessage e) e).2 ≠ none)
      ∨ (∃ e, ev = .events (.error e) ∧ (c.Error s.consumer s.sc e).2 = true)
      ∨ (∃ t, ev = .intTick t ∧ (c.Interval s.consumer s.sc t).2 ≠ none)
      ∨ (∃ t, ev = .timeTick t
          ∧ (c.Timeout s.consumer s.sc t (decide (s.last = s.sc.Messages))).2 = true)
      ∨ ev = .done
      ∨ (c.Process (selectCase c s ev).consumer (selectCase c s ev).sc).2.1 = true
      ∨ (c.Process (selectCase c s ev).consumer (selectCase c s ev).sc).2.2 ≠ none))
    ∧ ((sc.consumeLoop k c st config (pre ++ [ev])).run = false →
        (sc.Consume k c st config (pre ++ ev :: rest)).calls
            = s.calls ++ branchCalls s ev ++ [Call.Process, Call.Finish]
        ∧ (sc.Consume k c st config (pre ++ ev :: rest)).result
            = some (c.Finish (iteration c s ev).consumer (iteration c s ev).sc).2) := by
  have h1 : sc.consumeLoop k c st config (pre ++ [ev]) = iteration c s ev := by
    rw [consumeLoop_append, hs, loop_cons_ready c _ _ s ev [] hrun hready]
    rfl
  rw [h1]
  refine ⟨iteration_stops_iff c s ev hrun, fun hstop => ?_⟩
  have h2 : sc.consumeLoop k c st config (pre ++ ev :: rest) = iteration c s ev := by
    rw [consumeLoop_append, hs, loop_cons_ready c _ _ s ev rest hrun hready]
    exact loop_of_stopped c _ _ _ rest hstop
  rw [consume_of_start_ok sc k c st config _ hnew hstart, h2, hstop]
  simp [iteration_calls]

/-- C6 on a consumer whose `Process` asks to stop at its first call: the message and the
cancellation that come after are not served. -/
theorem stops_at_first_stop_request_witness :
    (testStreamConfig.Consume kafkaUp (countingConsumer 1 none none) 0 ()
        ([] ++ Event.events (.message { Value := [1] })
          :: [Event.events (.message { Value := [2] }), Event.done])).calls
      = [Call.Start, Call.Message { Value := [1] }, Call.Process, Call.Finish] :=
  ((stops_at_first_stop_request testStreamConfig kafkaUp (countingConsumer 1 none none) 0 ()
      [] (Event.events (.message { Value := [1] }))
      [Event.events (.message { Value := [2] }), Event.done]
      (testStreamConfig.consumeLoop kafkaUp (countingConsumer 1 none none) 0 () [])
      ⟨_, rfl⟩ rfl rfl rfl rfl).2 rfl).1

/-- `NewConsumer` changes the field `consumer` only. -/
theorem newConsumer_fields (sc : StreamConfig) (k : Kafka) :
    (sc.NewConsumer k).2.Messages = sc.Messages
    ∧ (sc.NewConsumer k).2.Bytes = sc.Bytes
    ∧ (sc.NewConsumer k).2.Timeout = sc.Timeout
    ∧ (sc.NewConsumer k).2.Interval = sc.Interval := by
  unfold StreamConfig.NewConsumer
  cases k.newConsumer <;> cases k.getMetadata <;> exact ⟨rfl, rfl, rfl, rfl⟩

/-- A loop that is running after some outcomes was running before them. -/
theorem run_of_loop_run (c : StreamConsumer σ κ) (tt it : Ticker) (s : Loop σ)
    (es : List Event) (h : (loop c tt it s es).run = true) : s.run = true := by
  by_contra hs
  have hs : s.run = false := by simpa using hs
  rw [loop_of_stopped c tt it s es hs] at h
  rw [hs] at h
  exact Bool.false_ne_true h

/-- Only the timeout case writes `last`. -/
theorem iteration_last (c : StreamConsumer σ κ) (s : Loop σ) (ev : Event)
    (h : ∀ t, ev ≠ Event.timeTick t) : (iteration c s ev).last = s.last := by
  rcases ev with (_ | _ | _) | _ | t | _
  all_goals first | rfl | exact absurd rfl (h t)

theorem loop_last (c : StreamConsumer σ κ) (tt it : Ticker) (s : Loop σ)
    (es : List Event) (h : ∀ t, Event.timeTick t ∉ es) :
    (loop c tt it s es).last = s.last := by
  induction es generalizing s with
  | nil => rfl
  | cons ev rest ih =>
    have hrest : ∀ t, Event.timeTick t ∉ rest :=
      fun t ht => h t (List.mem_cons_of_mem _ ht)
    have hev : ∀ t, ev ≠ Event.timeTick t :=
      fun t ht => h t (ht ▸ List.mem_cons_self _ _)
    simp only [loop]
    split_ifs
    · rw [ih _ hrest, iteration_last c s ev hev]
    · exact ih s hrest
    · rfl

/-- The timeout case leaves the session as it is and stores its counter in `last`. -/
theorem iteration_timeTick (c : StreamConsumer σ κ) (s : Loop σ) (t : Int) :
    (iteration c s (.timeTick t)).last = s.sc.Messages
    ∧ (iteration c s (.timeTick t)).sc = s.sc := ⟨rfl, rfl⟩

/-- C7, as amended.  With a timeout ticker (`sc.Timeout > 0`):
on the first timeout tick, when the session's `Messages` counter was 0 at the call of
`Consume`, the `stalled` argument of `Timeout` is true exactly when the counter is what
it was at the call; on a later timeout tick it is true exactly when the counter is what it
was at the previous timeout tick, whatever the counter was at the call.  The outcomes
`es` between the two points hold no timeout tick, and the loop is running when the tick
fires. -/
theorem stalled_iff_counter_unchanged (sc : StreamConfig) (k : Kafka)
    (c : StreamConsumer σ κ) (st : σ) (config : κ) (hT : 0 < sc.Timeout) :
    (∀ (es : List Event) (t : Int), sc.Messages = 0 → (∀ u, Event.timeTick u ∉ es) →
      (sc.consumeLoop k c st config es).run = true →
      (sc.consumeLoop k c st config (es ++ [.timeTick t])).calls
        = (sc.consumeLoop k c st config es).calls
          ++ [Call.Timeout t (decide (sc.Messages = (sc.consumeLoop k c st config es).sc.Messages)),
              Call.Process])
    ∧ (∀ (pre : List Event) (t0 : Int) (es : List Event) (t : Int),
      (∀ u, Event.timeTick u ∉ es) →
      (sc.consumeLoop k c st config (pre ++ [.timeTick t0] ++ es)).run = true →
      (sc.consumeLoop k c st config (pre ++ [.timeTick t0] ++ es ++ [.timeTick t])).calls
        = (sc.consumeLoop k c st config (pre ++ [.timeTick t0] ++ es)).calls
          ++ [Call.Timeout t
                (decide ((sc.consumeLoop k c st config (pre ++ [.timeTick t0])).sc.Messages
                  = (sc.consumeLoop k c st config (pre ++ [.timeTick t0] ++ es)).sc.Messages)),
              Call.Process]) := by
  have hready : ∀ t, (Event.timeTick t).ready (mkTicker (sc.NewConsumer k).2.Timeout)
      (mkTicker (sc.NewConsumer k).2.Interval) = true := by
    intro t
    simp [Event.ready, mkTicker, (newConsumer_fields sc k).2.2.1, hT]
  have hstep : ∀ (es : List Event) (t : Int),
      (sc.consumeLoop k c st config es).run = true →
      sc.consumeLoop k c st config (es ++ [.timeTick t])
        = iteration c (sc.consumeLoop k c st config es) (.timeTick t) := by
    intro es t hrun
    rw [consumeLoop_append, loop_cons_ready c _ _ _ _ [] hrun (hready t)]
    rfl
  constructor
  · intro es t h0 hno hrun
    rw [hstep es t hrun, iteration_calls]
    have hlast : (sc.consumeLoop k c st config es).last = sc.Messages := by
      unfold StreamConfig.consumeLoop
      rw [loop_last _ _ _ _ _ hno, h0]
      rfl
    simp only [branchCalls]
    rw [hlast, List.append_assoc]
    rfl
  · intro pre t0 es t hno hrun
    rw [hstep _ t hrun, iteration_calls]
    have hrun1 : (sc.consumeLoop k c st config (pre ++ [.timeTick t0])).run = true := by
      rw [consumeLoop_append _ _ _ _ _ (pre ++ [Event.timeTick t0]) es] at hrun
      exact run_of_loop_run _ _ _ _ _ hrun
    have hrun0 : (sc.consumeLoop k c st config pre).run = true := by
      rw [consumeLoop_append] at hrun1
      exact run_of_loop_run _ _ _ _ _ hrun1
    have hlast : (sc.consumeLoop k c st config (pre ++ [.timeTick t0] ++ es)).last
        = (sc.consumeLoop k c st config (pre ++ [.timeTick t0])).sc.Messages := by
      rw [consumeLoop_append _ _ _ _ _ (pre ++ [Event.timeTick t0]) es, loop_last _ _ _ _ _ hno,
        hstep pre t0 hrun0]
      rfl
    simp only [branchCalls]
    rw [hlast, List.append_assoc]
    rfl

/-- C7 as stated fails on the first tick: the session starts with `Messages = 123` (as in
the configuration of `TestJsonMarshal`), no message arrives, and the first timeout tick
calls `Timeout` with `stalled = false` although the counter is still 123. -/
theorem stalled_first_tick_counterexample :
    ({ testStreamConfig with Messages := 123, Timeout := 1000000000 }.Consume kafkaUp
        (countingConsumer 5 none none) 0 () [Event.timeTick 7]).calls
      = [Call.Start, Call.Timeout 7 false, Call.Process]
    ∧ ({ testStreamConfig with Messages := 123, Timeout := 1000000000 }.Consume kafkaUp
        (countingConsumer 5 none none) 0 () [Event.timeTick 7]).sc.Messages = 123 := by
  constructor <;> rfl

/-- C7 as amended, on a session that starts at 0: the first tick comes after one
message, so `stalled` is false; the second tick comes with no message since the first,
so `stalled` is true. -/
theorem stalled_iff_counter_unchanged_witness :
    ({ testStreamConfig with Timeout := 1000000000 }.consumeLoop kafkaUp
        (countingConsumer 5 none none) 0 ()
        ([Event.events (.message { Value := [1] })] ++ [Event.timeTick 7])).calls
      = [Call.Start, Call.Message { Value := [1] }, Call.Process]
          ++ [Call.Timeout 7 false, Call.Process]
    ∧ ({ testStreamConfig with Timeout := 1000000000 }.consumeLoop kafkaUp
        (countingConsumer 5 none none) 0 ()
        ([Event.events (.message { Value := [1] })] ++ [Event.timeTick 7] ++ [] ++ [Event.timeTick 8])).calls
      = [Call.Start, Call.Message { Value := [1] }, Call.Process, Call.Timeout 7 false,
          Call.Process] ++ [Call.Timeout 8 true, Call.Process] :=
  ⟨(stalled_iff_counter_unchanged { testStreamConfig with Timeout := 1000000000 } kafkaUp
      (countingConsumer 5 none none) 0 () (by decide)).1
      [Event.events (.message { Value := [1] })] 7 rfl (by simp) rfl,
   (stalled_iff_counter_unchanged { testStreamConfig with Timeout := 1000000000 } kafkaUp
      (countingConsumer 5 none none) 0 () (by decide)).2
      [Event.events (.message { Value := [1] })] 7 [] 8 (by simp) rfl⟩

theorem wrapInt_inInt (n : Int) : inInt (wrapInt n) := by
  unfold inInt wrapInt
  constructor <;> omega

theorem wrapInt_of_inInt (n : Int) (h : inInt n) : wrapInt n = n := by
  unfold inInt at h
  unfold wrapInt
  omega

theorem wrapInt_add (a b : Int) : wrapInt (wrapInt a + b) = wrapInt (a + b) := by
  unfold wrapInt
  omega

theorem messagesOf_append (a b : List Call) :
    messagesOf (a ++ b) = messagesOf a ++ messagesOf b := by
  induction a with
  | nil => rfl
  | cons x rest ih =>
    cases x <;> simp [messagesOf, ih]

/-- One iteration keeps the counters within `int`, adds its calls to those made, and
adds to the counters what the messages among its calls count for. -/
theorem iteration_counters (c : StreamConsumer σ κ) (s : Loop σ) (ev : Event)
    (hM : inInt s.sc.Messages) (hB : inInt s.sc.Bytes) :
    inInt (iteration c s ev).sc.Messages ∧ inInt (iteration c s ev).sc.Bytes
    ∧ (iteration c s ev).sc.Messages
        = wrapInt (s.sc.Messages + (messagesOf (branchCalls s ev ++ [Call.Process])).length)
    ∧ (iteration c s ev).sc.Bytes
        = wrapInt (s.sc.Bytes + bytesOf (messagesOf (branchCalls s ev ++ [Call.Process]))) := by
  rcases ev with (e | _ | _) | _ | _ | _
  · refine ⟨wrapInt_inInt _, wrapInt_inInt _, ?_, ?_⟩
    · simp [iteration, process, selectCase, StreamConfig.countMessage, branchCalls, messagesOf]
    · simp [iteration, process, selectCase, StreamConfig.countMessage, branchCalls, messagesOf,
        bytesOf]
  all_goals
    refine ⟨hM, hB, ?_, ?_⟩
    · simp only [branchCalls, messagesOf, List.nil_append, List.singleton_append,
        List.length_nil, Nat.cast_zero, add_zero]
      exact (wrapInt_of_inInt _ hM).symm
    · simp only [branchCalls, messagesOf, List.nil_append, List.singleton_append, bytesOf,
        List.map_nil, List.sum_nil, add_zero]
      exact (wrapInt_of_inInt _ hB).symm

/-- The loop adds calls to those made, and adds to the counters, in the arithmetic of
`int`, what the messages among the added calls count for. -/
theorem loop_counters (c : StreamConsumer σ κ) (tt it : Ticker) (s : Loop σ)
    (es : List Event) (hM : inInt s.sc.Messages) (hB : inInt s.sc.Bytes) :
    ∃ added, (loop c tt it s es).calls = s.calls ++ added
      ∧ (loop c tt it s es).sc.Messages = wrapInt (s.sc.Messages + (messagesOf added).length)
      ∧ (loop c tt it s es).sc.Bytes = wrapInt (s.sc.Bytes + bytesOf (messagesOf added)) := by
  induction es generalizing s with
  | nil =>
    refine ⟨[], by simp [loop], ?_, ?_⟩
    · simpa [loop, messagesOf] using (wrapInt_of_inInt _ hM).symm
    · simpa [loop, messagesOf, bytesOf] using (wrapInt_of_inInt _ hB).symm
  | cons ev rest ih =>
    simp only [loop]
    split_ifs
    · obtain ⟨h1, h2, h3, h4⟩ := iteration_counters c s ev hM hB
      obtain ⟨added, hc, hm, hb⟩ := ih (iteration c s ev) h1 h2
      refine ⟨branchCalls s ev ++ [Call.Process] ++ added, ?_, ?_, ?_⟩
      · rw [hc, iteration_calls]
        simp
      · rw [hm, h3, wrapInt_add]
        simp only [messagesOf_append, List.length_append, Nat.cast_add, add_assoc]
      · rw [hb, h4, wrapInt_add]
        simp only [messagesOf_append, bytesOf, List.map_append, List.sum_append, add_assoc]
    · exact ih s hM hB
    · refine ⟨[], by simp, ?_, ?_⟩
      · simpa [messagesOf] using (wrapInt_of_inInt _ hM).symm
      · simpa [messagesOf, bytesOf] using (wrapInt_of_inInt _ hB).symm

/-- Over `Consume` the counters grow, in the arithmetic of `int`, by what the messages
handed to `Message` count for. -/
theorem consume_counters (sc : StreamConfig) (k : Kafka) (c : StreamConsumer σ κ)
    (st : σ) (config : κ) (events : List Event)
    (hM : inInt sc.Messages) (hB : inInt sc.Bytes) :
    (sc.Consume k c st config events).sc.Messages
        = wrapInt (sc.Messages + (messagesOf (sc.Consume k c st config events).calls).length)
    ∧ (sc.Consume k c st config events).sc.Bytes
        = wrapInt (sc.Bytes + bytesOf (messagesOf (sc.Consume k c st config events).calls)) := by
  have hf := newConsumer_fields sc k
  cases hN : sc.NewConsumer k with
  | mk r sc1 =>
    have hf1 : sc1.Messages = sc.Messages := by rw [← hf.1, hN]
    have hf2 : sc1.Bytes = sc.Bytes := by rw [← hf.2.1, hN]
    cases r with
    | error err =>
      rw [consume_of_connect_error sc sc1 k c st config events err hN]
      simp only [messagesOf, bytesOf, List.length_nil, Nat.cast_zero, add_zero, List.map_nil,
        List.sum_nil, hf1, hf2]
      exact ⟨(wrapInt_of_inInt _ hM).symm, (wrapInt_of_inInt _ hB).symm⟩
    | ok kc =>
      cases hS : c.Start st sc1 config with
      | mk st1 e1 =>
        cases e1 with
        | some err =>
          rw [consume_of_start_error sc sc1 k kc c st st1 config events err hN hS]
          simp only [messagesOf, bytesOf, List.length_nil, Nat.cast_zero, add_zero,
            List.map_nil, List.sum_nil, hf1, hf2]
          exact ⟨(wrapInt_of_inInt _ hM).symm, (wrapInt_of_inInt _ hB).symm⟩
        | none =>
          have hl := loop_counters c (mkTicker (sc.NewConsumer k).2.Timeout)
            (mkTicker (sc.NewConsumer k).2.Interval)
            (enterLoop (sc.NewConsumer k).2 (c.Start st (sc.NewConsumer k).2 config).1) events
            (by simpa [enterLoop, hf.1] using hM) (by simpa [enterLoop, hf.2.1] using hB)
          obtain ⟨added, hc, hm, hb⟩ := hl
          have hc2 : (sc.consumeLoop k c st config events).calls = [Call.Start] ++ added := hc
          have hm2 : (sc.consumeLoop k c st config events).sc.Messages
              = wrapInt (sc.Messages + (messagesOf added).length) := by
            rw [← hf.1]; exact hm
          have hb2 : (sc.consumeLoop k c st config events).sc.Bytes
              = wrapInt (sc.Bytes + bytesOf (messagesOf added)) := by
            rw [← hf.2.1]; exact hb
          rw [consume_of_start_ok sc k c st config events ⟨kc, by rw [hN]⟩
            (by rw [hN]; simp only [hS])]
          split_ifs <;> simp [hc2, hm2, hb2, messagesOf_append, messagesOf]

theorem bytesOf_nonneg (ms : List KafkaMessage) : 0 ≤ bytesOf ms := by
  induction ms with
  | nil => simp [bytesOf]
  | cons m rest ih =>
    simp only [bytesOf, List.map_cons, List.sum_cons] at ih ⊢
    omega

/-- When `NewConsumer` and `Start` succeed, the session `Consume` leaves is the one its
loop leaves, and the messages handed to `Message` are those of the loop. -/
theorem consume_session_of_start_ok (sc : StreamConfig) (k : Kafka) (c : StreamConsumer σ κ)
    (st : σ) (config : κ) (events : List Event)
    (hnew : ∃ kc, (sc.NewConsumer k).1 = .ok kc)
    (hstart : (c.Start st (sc.NewConsumer k).2 config).2 = none) :
    (sc.Consume k c st config events).sc = (sc.consumeLoop k c st config events).sc
    ∧ messagesOf (sc.Consume k c st config events).calls
        = messagesOf (sc.consumeLoop k c st config events).calls := by
  rw [consume_of_start_ok sc k c st config events hnew hstart]
  split_ifs
  · exact ⟨rfl, rfl⟩
  · exact ⟨rfl, by simp [messagesOf_append, messagesOf]⟩

/-- A message that arrives while the loop of `Consume` runs is counted and handed to
`Message`. -/
theorem consumeLoop_message (sc : StreamConfig) (k : Kafka) (c : StreamConsumer σ κ)
    (st : σ) (config : κ) (pre : List Event) (m : KafkaMessage)
    (hrun : (sc.consumeLoop k c st config pre).run = true) :
    (sc.consumeLoop k c st config (pre ++ [Event.events (.message m)])).sc
        = (sc.consumeLoop k c st config pre).sc.countMessage m
    ∧ (sc.consumeLoop k c st config (pre ++ [Event.events (.message m)])).calls
        = (sc.consumeLoop k c st config pre).calls ++ [Call.Message m, Call.Process] := by
  rw [consumeLoop_append, loop_cons_ready c _ _ _ (Event.events (.message m)) [] hrun rfl]
  simp only [loop]
  refine ⟨rfl, ?_⟩
  rw [iteration_calls]
  simp [branchCalls]

/-- C8, as amended.  The counters are those of Go's `int`, 64 bits wide, and the session
starts with counters that are such values.  In the iteration for a received message `e`
the driver adds 1 to `Messages` and `len(e.Value)` to `Bytes` in the arithmetic of `int`
(by exactly that much when the sum is below `2 ^ 63`), and `Message` is called with the
session already counted; the iteration for any other outcome (broker error, other broker
event, interval tick, timeout tick, cancellation) and the `Process` call leave the
session as it is.  So along the loop, from any state and over any outcomes, and over
`Consume` as a whole, `Messages` has grown by the number of messages handed to `Message`
and `Bytes` by the sum of their lengths, in the arithmetic of `int`; and when these sums
stay below `2 ^ 63`, the counters have grown by exactly that and have not decreased.
And when `NewConsumer` and `Start` succeed, a message `m` that arrives while the loop
runs, after the outcomes `pre`, is counted and handed to `Message`: with it `Consume`
leaves `Messages` one higher and `Bytes` higher by `len(m.Value)`, in the arithmetic of
`int`, than without it, and `m` is the last message handed to `Message`. -/
theorem counters_track_messages (sc : StreamConfig) (k : Kafka) (c : StreamConsumer σ κ)
    (st : σ) (config : κ) (events : List Event) (tt it : Ticker) (s : Loop σ)
    (e : KafkaMessage) (es : List Event)
    (hsc : inInt sc.Messages ∧ inInt sc.Bytes) (hs : inInt s.sc.Messages ∧ inInt s.sc.Bytes) :
    (iteration c s (.events (.message e))).sc
        = { s.sc with Messages := wrapInt (s.sc.Messages + 1), Bytes := wrapInt (s.sc.Bytes + e.Value.length) }
    ∧ (s.sc.Messages + 1 < 2 ^ 63 →
        (iteration c s (.events (.message e))).sc.Messages = s.sc.Messages + 1)
    ∧ (s.sc.Bytes + e.Value.length < 2 ^ 63 →
        (iteration c s (.events (.message e))).sc.Bytes = s.sc.Bytes + e.Value.length)
    ∧ (selectCase c s (.events (.message e))).consumer
        = (c.Message s.consumer (iteration c s (.events (.message e))).sc e).1
    ∧ (∀ err, (iteration c s (.events (.error err))).sc = s.sc)
    ∧ (iteration c s (.events .other)).sc = s.sc
    ∧ (∀ t, (iteration c s (.intTick t)).sc = s.sc)
    ∧ (∀ t, (iteration c s (.timeTick t)).sc = s.sc)
    ∧ (iteration c s .done).sc = s.sc
    ∧ (process c s).sc = s.sc
    ∧ (∃ added, (loop c tt it s es).calls = s.calls ++ added
        ∧ (loop c tt it s es).sc.Messages = wrapInt (s.sc.Messages + (messagesOf added).length)
        ∧ (loop c tt it s es).sc.Bytes = wrapInt (s.sc.Bytes + bytesOf (messagesOf added))
        ∧ (s.sc.Messages + (messagesOf added).length < 2 ^ 63 →
            (loop c tt it s es).sc.Messages = s.sc.Messages + (messagesOf added).length
            ∧ s.sc.Messages ≤ (loop c tt it s es).sc.Messages)
        ∧ (s.sc.Bytes + bytesOf (messagesOf added) < 2 ^ 63 →
            (loop c tt it s es).sc.Bytes = s.sc.Bytes + bytesOf (messagesOf added)
            ∧ s.sc.Bytes ≤ (loop c tt it s es).sc.Bytes))
    ∧ (sc.Consume k c st config events).sc.Messages
        = wrapInt (sc.Messages + (messagesOf (sc.Consume k c st config events).calls).length)
    ∧ (sc.Consume k c st config events).sc.Bytes
        = wrapInt (sc.Bytes + bytesOf (messagesOf (sc.Consume k c st config events).calls))
    ∧ (sc.Messages + (messagesOf (sc.Consume k c st config events).calls).length < 2 ^ 63 →
        (sc.Consume k c st config events).sc.Messages
          = sc.Messages + (messagesOf (sc.Consume k c st config events).calls).length
        ∧ sc.Messages ≤ (sc.Consume k c st config events).sc.Messages)
    ∧ (sc.Bytes + bytesOf (messagesOf (sc.Consume k c st config events).calls) < 2 ^ 63 →
        (sc.Consume k c st config events).sc.Bytes
          = sc.Bytes + bytesOf (messagesOf (sc.Consume k c st config events).calls)
        ∧ sc.Bytes ≤ (sc.Consume k c st config events).sc.Bytes)
    ∧ (∀ (pre : List Event) (m : KafkaMessage), (∃ kc, (sc.NewConsumer k).1 = .ok kc) →
        (c.Start st (sc.NewConsumer k).2 config).2 = none →
        (sc.consumeLoop k c st config pre).run = true →
        (sc.Consume k c st config (pre ++ [Event.events (.message m)])).sc.Messages
          = wrapInt ((sc.Consume k c st config pre).sc.Messages + 1)
        ∧ (sc.Consume k c st config (pre ++ [Event.events (.message m)])).sc.Bytes
          = wrapInt ((sc.Consume k c st config pre).sc.Bytes + m.Value.length)
        ∧ messagesOf (sc.Consume k c st config (pre ++ [Event.events (.message m)])).calls
          = messagesOf (sc.Consume k c st config pre).calls ++ [m]) := by
  have hexact : ∀ (a d : Int), inInt a → 0 ≤ d → a + d < 2 ^ 63 →
      wrapInt (a + d) = a + d ∧ a ≤ wrapInt (a + d) := by
    intro a d ha hd hlt
    have h := wrapInt_of_inInt (a + d) (by unfold inInt at ha ⊢; omega)
    exact ⟨h, by rw [h]; omega⟩
  obtain ⟨added, hc, hm, hb⟩ := loop_counters c tt it s es hs.1 hs.2
  obtain ⟨hcm, hcb⟩ := consume_counters sc k c st config events hsc.1 hsc.2
  refine ⟨rfl, ?_, ?_, rfl, fun _ => rfl, rfl, fun _ => rfl, fun _ => rfl, rfl, rfl,
    ⟨added, hc, hm, hb, ?_, ?_⟩, hcm, hcb, ?_, ?_, ?_⟩
  · intro h
    exact (hexact _ 1 hs.1 (by norm_num) h).1
  · intro h
    exact (hexact _ _ hs.2 (by omega) h).1
  · intro h
    rw [hm]
    exact hexact _ _ hs.1 (by omega) h
  · intro h
    rw [hb]
    exact hexact _ _ hs.2 (bytesOf_nonneg _) h
  · intro h
    rw [hcm]
    exact hexact _ _ hsc.1 (by omega) h
  · intro h
    rw [hcb]
    exact hexact _ _ hsc.2 (bytesOf_nonneg _) h
  · intro pre m hnew hstart hrun
    obtain ⟨h1, h2⟩ := consume_session_of_start_ok sc k c st config pre hnew hstart
    obtain ⟨h3, h4⟩ := consume_session_of_start_ok sc k c st config
      (pre ++ [Event.events (.message m)]) hnew hstart
    obtain ⟨h5, h6⟩ := consumeLoop_message sc k c st config pre m hrun
    rw [h1, h2, h3, h4, h5, h6]
    exact ⟨rfl, rfl, by simp [messagesOf_append, messagesOf]⟩

/-- C8 as stated fails on a session whose `Messages` counter holds the largest `int`:
one message takes it to the least `int`, which is not one more and is a decrease. -/
theorem counters_wrap_counterexample :
    ({ testStreamConfig with Messages := 9223372036854775807 }.Consume kafkaUp
        (countingConsumer 5 none none) 0 ()
        [Event.events (.message (testMessage 1))]).calls
      = [Call.Start, Call.Message (testMessage 1), Call.Process]
    ∧ ({ testStreamConfig with Messages := 9223372036854775807 }.Consume kafkaUp
        (countingConsumer 5 none none) 0 ()
        [Event.events (.message (testMessage 1))]).sc.Messages = -9223372036854775808
    ∧ (-9223372036854775808 : Int) ≠ 9223372036854775807 + 1
    ∧ (-9223372036854775808 : Int) < 9223372036854775807 := by
  refine ⟨by rfl, by rfl, by decide, by decide⟩

/-- C8 as amended, on the default session and two messages of one byte. -/
theorem counters_track_messages_witness :
    (inInt testStreamConfig.Messages ∧ inInt testStreamConfig.Bytes)
    ∧ (testStreamConfig.Consume kafkaUp (countingConsumer 5 none none) 0 ()
        [Event.events (.message (testMessage 1)), Event.intTick 3,
          Event.events (.message (testMessage 2))]).sc.Messages
      = wrapInt (testStreamConfig.Messages + (messagesOf (testStreamConfig.Consume kafkaUp
          (countingConsumer 5 none none) 0 ()
          [Event.events (.message (testMessage 1)), Event.intTick 3,
            Event.events (.message (testMessage 2))]).calls).length)
    ∧ (testStreamConfig.Consume kafkaUp (countingConsumer 5 none none) 0 ()
        [Event.events (.message (testMessage 1)), Event.intTick 3,
          Event.events (.message (testMessage 2))]).sc.Bytes
      = wrapInt (testStreamConfig.Bytes + bytesOf (messagesOf (testStreamConfig.Consume kafkaUp
          (countingConsumer 5 none none) 0 ()
          [Event.events (.message (testMessage 1)), Event.intTick 3,
            Event.events (.message (testMessage 2))]).calls)) :=
  ⟨by decide,
   (counters_track_messages testStreamConfig kafkaUp (countingConsumer 5 none none) 0 ()
      [Event.events (.message (testMessage 1)), Event.intTick 3,
        Event.events (.message (testMessage 2))] { C := none } { C := none }
      (enterLoop testStreamConfig 0) (testMessage 1) [] (by decide) (by decide)).2.2.2.2.2.2.2.2.2.2.2.1,
   (counters_track_messages testStreamConfig kafkaUp (countingConsumer 5 none none) 0 ()
      [Event.events (.message (testMessage 1)), Event.intTick 3,
        Event.events (.message (testMessage 2))] { C := none } { C := none }
      (enterLoop testStreamConfig 0) (testMessage 1) [] (by decide) (by decide)).2.2.2.2.2.2.2.2.2.2.2.2.1⟩

/-- One message served by a consumer whose `Message` returns nil and whose `Process`
asks to stop at its fifth call, `n` counting the `Process` calls made. -/
theorem iteration_message_counting (c : StreamConsumer σ κ) (n : σ → Nat)
    (hmsg : ∀ s x e, (c.Message s x e).2 = none ∧ n (c.Message s x e).1 = n s)
    (hproc : ∀ s x, n s < 5 →
      n (c.Process s x).1 = n s + 1 ∧ (c.Process s x).2 = (decide (n s + 1 = 5), none))
    (s : Loop σ) (m : KafkaMessage) (j : Nat) (calls : List Call) (M : Int)
    (hrun : s.run = true) (hj : n s.consumer = j) (hlt : j < 5)
    (hcalls : s.calls = calls) (hM : s.sc.Messages = M) :
    (iteration c s (.events (.message m))).calls = calls ++ [Call.Message m, Call.Process]
    ∧ (iteration c s (.events (.message m))).sc.Messages = wrapInt (M + 1)
    ∧ n (iteration c s (.events (.message m))).consumer = j + 1
    ∧ (iteration c s (.events (.message m))).run = !(decide (j + 1 = 5)) := by
  subst hj hcalls hM
  have h1 := hmsg s.consumer (s.sc.countMessage m) m
  have h2 := hproc (c.Message s.consumer (s.sc.countMessage m) m).1 (s.sc.countMessage m)
    (by rw [h1.2]; exact hlt)
  rw [h1.2] at h2
  refine ⟨by simp [iteration_calls, branchCalls], rfl, h2.1, ?_⟩
  simp only [iteration, process, selectCase, h1.1, h2.2, hrun]
  by_cases h5 : n s.consumer + 1 = 5 <;> simp [h5]

/-- C9, as amended: take a consumer whose `Start` and `Message` return nil and whose
`Process` returns `(false, nil)` at its calls 1 to 4 and `(true, nil)` at its call 5 (`n`
counts the `Process` calls made), and outcomes that are broker messages only, `m1` to
`m5` and then any further messages `more`.  Then `Consume` calls `Message` on `m1` to
`m5` and on no other message, each call followed by `Process`, then `Finish`, once; it
returns what `Finish` returned; and the session's `Messages` has grown by 5 in the
arithmetic of `int`, which is by exactly 5 when the counter was an `int` below
`2 ^ 63 - 5` at the call. -/
theorem stops_after_fifth_message (sc : StreamConfig) (k : Kafka) (c : StreamConsumer σ κ)
    (st : σ) (config : κ) (n : σ → Nat) (m1 m2 m3 m4 m5 : KafkaMessage)
    (more : List KafkaMessage)
    (hnew : ∃ kc, (sc.NewConsumer k).1 = .ok kc)
    (hstart : (c.Start st (sc.NewConsumer k).2 config).2 = none)
    (hn0 : n (c.Start st (sc.NewConsumer k).2 config).1 = 0)
    (hmsg : ∀ s x e, (c.Message s x e).2 = none ∧ n (c.Message s x e).1 = n s)
    (hproc : ∀ s x, n s < 5 →
      n (c.Process s x).1 = n s + 1 ∧ (c.Process s x).2 = (decide (n s + 1 = 5), none)) :
    (sc.Consume k c st config
        (([m1, m2, m3, m4, m5] ++ more).map (fun m => Event.events (.message m)))).calls
      = [Call.Start, Call.Message m1, Call.Process, Call.Message m2, Call.Process,
          Call.Message m3, Call.Process, Call.Message m4, Call.Process,
          Call.Message m5, Call.Process, Call.Finish]
    ∧ (sc.Consume k c st config
        (([m1, m2, m3, m4, m5] ++ more).map (fun m => Event.events (.message m)))).result
      = some (c.Finish
          (sc.consumeLoop k c st config
            (([m1, m2, m3, m4, m5] ++ more).map (fun m => Event.events (.message m)))).consumer
          (sc.consumeLoop k c st config
            (([m1, m2, m3, m4, m5] ++ more).map (fun m => Event.events (.message m)))).sc).2
    ∧ (sc.Consume k c st config
        (([m1, m2, m3, m4, m5] ++ more).map (fun m => Event.events (.message m)))).sc.Messages
      = wrapInt (sc.Messages + 5)
    ∧ (inInt sc.Messages → sc.Messages + 5 < 2 ^ 63 →
        (sc.Consume k c st config
          (([m1, m2, m3, m4, m5] ++ more).map
            (fun m => Event.events (.message m)))).sc.Messages
        = sc.Messages + 5) := by
  have hstep := iteration_message_counting c n hmsg hproc
  have hready : ∀ m, (Event.events (.message m)).ready
      (mkTicker (sc.NewConsumer k).2.Timeout) (mkTicker (sc.NewConsumer k).2.Interval)
      = true := fun _ => rfl
  obtain ⟨c1, g1, n1, r1⟩ := hstep
    (enterLoop (sc.NewConsumer k).2 (c.Start st (sc.NewConsumer k).2 config).1) m1 0
    [Call.Start] sc.Messages rfl hn0 (by decide) rfl (newConsumer_fields sc k).1
  have r1 : _ = true := r1
  obtain ⟨c2, g2, n2, r2⟩ := hstep _ m2 _ _ _ r1 n1 (by decide) c1 g1
  have r2 : _ = true := r2
  obtain ⟨c3, g3, n3, r3⟩ := hstep _ m3 _ _ _ r2 n2 (by decide) c2 g2
  have r3 : _ = true := r3
  obtain ⟨c4, g4, n4, r4⟩ := hstep _ m4 _ _ _ r3 n3 (by decide) c3 g3
  have r4 : _ = true := r4
  obtain ⟨c5, g5, n5, r5⟩ := hstep _ m5 _ _ _ r4 n4 (by decide) c4 g4
  have r5 : _ = false := r5
  have hloop : sc.consumeLoop k c st config
      (([m1, m2, m3, m4, m5] ++ more).map (fun m => Event.events (.message m)))
      = iteration c (iteration c (iteration c (iteration c (iteration c
          (enterLoop (sc.NewConsumer k).2 (c.Start st (sc.NewConsumer k).2 config).1)
          (.events (.message m1))) (.events (.message m2))) (.events (.message m3)))
          (.events (.message m4))) (.events (.message m5)) := by
    unfold StreamConfig.consumeLoop
    simp only [List.cons_append, List.nil_append, List.map_cons]
    rw [loop_cons_ready c _ _ _ _ _ rfl (hready m1), loop_cons_ready c _ _ _ _ _ r1 (hready m2),
      loop_cons_ready c _ _ _ _ _ r2 (hready m3), loop_cons_ready c _ _ _ _ _ r3 (hready m4),
      loop_cons_ready c _ _ _ _ _ r4 (hready m5)]
    exact loop_of_stopped c _ _ _ _ r5
  have hfive : (sc.Consume k c st config
      (([m1, m2, m3, m4, m5] ++ more).map (fun m => Event.events (.message m)))).sc.Messages
      = wrapInt (sc.Messages + 5) := by
    rw [consume_of_start_ok sc k c st config _ hnew hstart]
    rw [hloop, r5]
    simp only [Bool.false_eq_true, if_false, g5]
    unfold wrapInt
    omega
  refine ⟨?_, ?_, hfive, ?_⟩
  · rw [consume_of_start_ok sc k c st config _ hnew hstart]
    rw [hloop, r5]
    simp [c5]
  · rw [consume_of_start_ok sc k c st config _ hnew hstart]
    rw [hloop, r5]
    rfl
  · intro hin hlt
    rw [hfive]
    exact wrapInt_of_inInt _ (by unfold inInt at hin ⊢; omega)

set_option maxRecDepth 8000 in
/-- C9 as stated fails on a session whose `Messages` counter is within 5 of the largest
`int`: the five messages take it around to a negative value. -/
theorem fifth_message_wrap_counterexample :
    ({ testStreamConfig with Messages := 9223372036854775805 }.Consume kafkaUp
        (countingConsumer 5 none (some "finished")) 0 ()
        ([testMessage 1, testMessage 2, testMessage 3, testMessage 4, testMessage 5].map
          (fun m => Event.events (.message m)))).calls
      = [Call.Start, Call.Message (testMessage 1), Call.Process,
          Call.Message (testMessage 2), Call.Process, Call.Message (testMessage 3),
          Call.Process, Call.Message (testMessage 4), Call.Process,
          Call.Message (testMessage 5), Call.Process, Call.Finish]
    ∧ ({ testStreamConfig with Messages := 9223372036854775805 }.Consume kafkaUp
        (countingConsumer 5 none (some "finished")) 0 ()
        ([testMessage 1, testMessage 2, testMessage 3, testMessage 4, testMessage 5].map
          (fun m => Event.events (.message m)))).sc.Messages = -9223372036854775806
    ∧ (-9223372036854775806 : Int) ≠ 9223372036854775805 + 5 := by
  refine ⟨by rfl, by decide, by decide⟩

/-- C9 as amended, on the example consumer, with seven messages waiting: five are
delivered. -/
theorem stops_after_fifth_message_witness :
    (testStreamConfig.Consume kafkaUp (countingConsumer 5 none (some "finished")) 0 ()
        (([testMessage 1, testMessage 2, testMessage 3, testMessage 4, testMessage 5]
            ++ [testMessage 6, testMessage 7]).map
          (fun m => Event.events (.message m)))).calls
      = [Call.Start, Call.Message (testMessage 1), Call.Process,
          Call.Message (testMessage 2), Call.Process, Call.Message (testMessage 3),
          Call.Process, Call.Message (testMessage 4), Call.Process,
          Call.Message (testMessage 5), Call.Process, Call.Finish]
    ∧ (testStreamConfig.Consume kafkaUp (countingConsumer 5 none (some "finished")) 0 ()
        (([testMessage 1, testMessage 2, testMessage 3, testMessage 4, testMessage 5]
            ++ [testMessage 6, testMessage 7]).map
          (fun m => Event.events (.message m)))).result = some (some "finished")
    ∧ (testStreamConfig.Consume kafkaUp (countingConsumer 5 none (some "finished")) 0 ()
        (([testMessage 1, testMessage 2, testMessage 3, testMessage 4, testMessage 5]
            ++ [testMessage 6, testMessage 7]).map
          (fun m => Event.events (.message m)))).sc.Messages = testStreamConfig.Messages + 5 :=
  ⟨(stops_after_fifth_message testStreamConfig kafkaUp
      (countingConsumer 5 none (some "finished")) 0 () (fun s => s)
      (testMessage 1) (testMessage 2) (testMessage 3) (testMessage 4) (testMessage 5)
      [testMessage 6, testMessage 7] ⟨_, rfl⟩ rfl rfl
      (fun _ _ _ => ⟨rfl, rfl⟩) (fun _ _ _ => ⟨rfl, rfl⟩)).1,
   (stops_after_fifth_message testStreamConfig kafkaUp
      (countingConsumer 5 none (some "finished")) 0 () (fun s => s)
      (testMessage 1) (testMessage 2) (testMessage 3) (testMessage 4) (testMessage 5)
      [testMessage 6, testMessage 7] ⟨_, rfl⟩ rfl rfl
      (fun _ _ _ => ⟨rfl, rfl⟩) (fun _ _ _ => ⟨rfl, rfl⟩)).2.1,
   (stops_after_fifth_message testStreamConfig kafkaUp
      (countingConsumer 5 none (some "finished")) 0 () (fun s => s)
      (testMessage 1) (testMessage 2) (testMessage 3) (testMessage 4) (testMessage 5)
      [testMessage 6, testMessage 7] ⟨_, rfl⟩ rfl rfl
      (fun _ _ _ => ⟨rfl, rfl⟩) (fun _ _ _ => ⟨rfl, rfl⟩)).2.2.2 (by decide) (by decide)⟩

/-- With no timeout ticker the loop adds no `Timeout` call. -/
theorem loop_no_timeout (c : StreamConsumer σ κ) (tt it : Ticker) (s : Loop σ)
    (es : List Event) (htt : tt.C = none) (t : Int) (b : Bool)
    (h : Call.Timeout t b ∉ s.calls) : Call.Timeout t b ∉ (loop c tt it s es).calls := by
  induction es generalizing s with
  | nil => exact h
  | cons ev rest ih =>
    simp only [loop]
    split_ifs with hrun hready
    · apply ih
      rw [iteration_calls]
      rcases ev with (_ | _ | _) | _ | u | _
      all_goals first
        | (simp [Event.ready, htt] at hready; done)
        | simpa [branchCalls] using h
    · exact ih s h
    · exact h

/-- With no interval ticker the loop adds no `Interval` call. -/
theorem loop_no_interval (c : StreamConsumer σ κ) (tt it : Ticker) (s : Loop σ)
    (es : List Event) (hit : it.C = none) (t : Int)
    (h : Call.Interval t ∉ s.calls) : Call.Interval t ∉ (loop c tt it s es).calls := by
  induction es generalizing s with
  | nil => exact h
  | cons ev rest ih =>
    simp only [loop]
    split_ifs with hrun hready
    · apply ih
      rw [iteration_calls]
      rcases ev with (_ | _ | _) | u | _ | _
      all_goals first
        | (simp [Event.ready, hit] at hready; done)
        | simpa [branchCalls] using h
    · exact ih s h
    · exact h

/-- What `Consume` has called: nothing, `Start` only, or the calls of the loop, with
`Finish` when the loop ended. -/
theorem consume_calls (sc : StreamConfig) (k : Kafka) (c : StreamConsumer σ κ)
    (st : σ) (config : κ) (events : List Event) :
    (sc.Consume k c st config events).calls = []
    ∨ (sc.Consume k c st config events).calls = [Call.Start]
    ∨ (sc.Consume k c st config events).calls = (sc.consumeLoop k c st config events).calls
    ∨ (sc.Consume k c st config events).calls
        = (sc.consumeLoop k c st config events).calls ++ [Call.Finish] := by
  rcases consume_cases sc k c st config events with ⟨h1, _⟩ | ⟨h1, _⟩ | ⟨hnew, hstart⟩
  · exact Or.inl h1
  · exact Or.inr (Or.inl h1)
  · rw [consume_of_start_ok sc k c st config events hnew hstart]
    split_ifs
    · exact Or.inr (Or.inr (Or.inl rfl))
    · exact Or.inr (Or.inr (Or.inr rfl))

/-- C10: when the session's `Timeout` is 0, no run of `Consume` calls `Timeout`, and when
its `Interval` is 0, no run calls `Interval`, whatever outcomes are offered, tick outcomes
included: a tick case of the `select` cannot fire without its ticker. -/
theorem disabled_tickers_never_fire (sc : StreamConfig) (k : Kafka)
    (c : StreamConsumer σ κ) (st : σ) (config : κ) (events : List Event) :
    (sc.Timeout = 0 → ∀ t b, Call.Timeout t b ∉ (sc.Consume k c st config events).calls)
    ∧ (sc.Interval = 0 → ∀ t, Call.Interval t ∉ (sc.Consume k c st config events).calls) := by
  have hf := newConsumer_fields sc k
  constructor
  · intro h0 t b
    have hl : Call.Timeout t b ∉ (sc.consumeLoop k c st config events).calls := by
      unfold StreamConfig.consumeLoop
      apply loop_no_timeout
      · simp [mkTicker, hf.2.2.1, h0]
      · simp [enterLoop]
    rcases consume_calls sc k c st config events with h | h | h | h <;> rw [h]
    · simp
    · simp
    · exact hl
    · simpa using hl
  · intro h0 t
    have hl : Call.Interval t ∉ (sc.consumeLoop k c st config events).calls := by
      unfold StreamConfig.consumeLoop
      apply loop_no_interval
      · simp [mkTicker, hf.2.2.2, h0]
      · simp [enterLoop]
    rcases consume_calls sc k c st config events with h | h | h | h <;> rw [h]
    · simp
    · simp
    · exact hl
    · simpa using hl

/-- C10 on the default configuration, where both durations are 0: the two ticks offered
start no iteration. -/
theorem disabled_tickers_never_fire_witness :
    Call.Timeout 7 true ∉ (testStreamConfig.Consume kafkaUp (countingConsumer 5 none none) 0 ()
        [Event.timeTick 7, Event.intTick 8, Event.done]).calls
    ∧ Call.Interval 8 ∉ (testStreamConfig.Consume kafkaUp (countingConsumer 5 none none) 0 ()
        [Event.timeTick 7, Event.intTick 8, Event.done]).calls :=
  ⟨(disabled_tickers_never_fire testStreamConfig kafkaUp (countingConsumer 5 none none) 0 ()
      [Event.timeTick 7, Event.intTick 8, Event.done]).1 rfl 7 true,
   (disabled_tickers_never_fire testStreamConfig kafkaUp (countingConsumer 5 none none) 0 ()
      [Event.timeTick 7, Event.intTick 8, Event.done]).2 rfl 8⟩

/-- C27, with `Glob` set: the consumer is subscribed to `Prefix.Topic` for every stream
config, and for the default config that is not the pattern `^atsu.unset.*`. -/
theorem newConsumer_glob_subscribes_to_full_topic (sc : StreamConfig) :
    ({ sc with Glob := true }.NewConsumer kafkaUp).1
        = .ok { subscribed := sc.Prefix ++ "." ++ sc.Topic }
      ∧ ({ testStreamConfig with Glob := true }.NewConsumer kafkaUp).1
        = .ok { subscribed := "atsu.unset" }
      ∧ "atsu.unset" ≠ "^" ++ { testStreamConfig with Glob := true }.FullTopic "" ++ ".*" := by
  refine ⟨?_, ?_, ?_⟩
  · simp [StreamConfig.NewConsumer, kafkaUp, StreamConfig.FullTopic]
  · rfl
  · decide

end Driver

end Stream

/-! ## Properties of the numerals -/

namespace Strconv

theorem decimalFrom_ge (s : List Char) (n : Nat) : n ≤ decimalFrom n s := by
  induction s generalizing n with
  | nil => simp [decimalFrom]
  | cons c cs ih =>
    have h := ih (n * 10 + (c.toNat - 48))
    simp only [decimalFrom, List.foldl_cons] at h ⊢
    omega

theorem parseUintLoop_cons_digit (n : Nat) (c : Char) (cs : List Char)
    (hd : 48 ≤ c.toNat ∧ c.toNat ≤ 57) (hn : n * 10 + (c.toNat - 48) < 2 ^ 64) :
    parseUintLoop n (c :: cs) = parseUintLoop (n * 10 + (c.toNat - 48)) cs := by
  have h1 : ¬ (c.toNat - 48 ≥ 10) := by omega
  have h2 : ¬ (n ≥ maxUint64 / 10 + 1) := by simp only [maxUint64]; omega
  have h3 : n * 10 % 2 ^ 64 = n * 10 := Nat.mod_eq_of_lt (by omega)
  have h4 : (n * 10 + (c.toNat - 48)) % 2 ^ 64 = n * 10 + (c.toNat - 48) :=
    Nat.mod_eq_of_lt hn
  have h5 : ¬ (n * 10 + (c.toNat - 48) < n * 10 ∨ n * 10 + (c.toNat - 48) > maxUint64) := by
    simp only [maxUint64]; omega
  simp only [parseUintLoop, digitValue, hd, and_self, if_true, h1, h2, if_false, h3, h4, h5]

theorem parseUintLoop_cons_overflow (n : Nat) (c : Char) (cs : List Char)
    (hd : 48 ≤ c.toNat ∧ c.toNat ≤ 57) (h : n < 2 ^ 64)
    (hn : ¬ n * 10 + (c.toNat - 48) < 2 ^ 64) :
    (parseUintLoop n (c :: cs)).2 = some "value out of range" := by
  have h1 : ¬ (c.toNat - 48 ≥ 10) := by omega
  simp only [parseUintLoop, digitValue, hd, and_self, if_true, h1, if_false]
  by_cases h2 : n ≥ maxUint64 / 10 + 1
  · simp [h2]
  · simp only [h2, if_false]
    have h3 : n * 10 % 2 ^ 64 = n * 10 := by
      apply Nat.mod_eq_of_lt; simp only [maxUint64] at h2; omega
    have h5 : (n * 10 + (c.toNat - 48)) % 2 ^ 64 < n * 10 := by
      simp only [maxUint64] at h2; omega
    rw [if_pos (Or.inl (by rw [h3]; exact h5))]

theorem parseUintLoop_cons_other (n : Nat) (c : Char) (cs : List Char)
    (hd : ¬ (48 ≤ c.toNat ∧ c.toNat ≤ 57)) :
    (parseUintLoop n (c :: cs)).2 = some "invalid syntax" := by
  simp only [parseUintLoop, digitValue, hd, if_false]
  split
  · rfl
  · next d h =>
    split at h
    · injection h with h
      subst h
      rw [if_pos (by omega)]
    · simp at h

/-- The loop of `ParseUint` returns no error exactly on digits whose value fits, and
then returns that value. -/
theorem parseUintLoop_spec (s : List Char) (n : Nat) (hn : n < 2 ^ 64) :
    ((parseUintLoop n s).2 = none
        ↔ s.all (fun c => decide (48 ≤ c.toNat ∧ c.toNat ≤ 57)) = true
          ∧ decimalFrom n s < 2 ^ 64)
      ∧ ((parseUintLoop n s).2 = none → (parseUintLoop n s).1 = decimalFrom n s) := by
  induction s generalizing n with
  | nil => simp only [parseUintLoop, decimalFrom, List.all_nil, List.foldl_nil]; simp; omega
  | cons c cs ih =>
    by_cases hd : 48 ≤ c.toNat ∧ c.toNat ≤ 57
    · by_cases hf : n * 10 + (c.toNat - 48) < 2 ^ 64
      · rw [parseUintLoop_cons_digit n c cs hd hf]
        have := ih _ hf
        simpa [decimalFrom, hd] using this
      · have he := parseUintLoop_cons_overflow n c cs hd hn hf
        have hge := decimalFrom_ge cs (n * 10 + (c.toNat - 48))
        have hnot : ¬ decimalFrom n (c :: cs) < 2 ^ 64 := by
          simp only [decimalFrom, List.foldl_cons] at hge ⊢
          omega
        rw [he]
        refine ⟨⟨fun h => (by cases h), fun h => absurd h.2 hnot⟩, fun h => (by cases h)⟩
    · have he := parseUintLoop_cons_other n c cs hd
      simp [he, hd]

/-- The result of `ParseUint` has no error exactly for an unsigned 64-bit decimal. -/
theorem parseUint_ok_iff (s : List Char) :
    (ParseUint s).2 = none ↔ isUint64Decimal s = true := by
  cases s with
  | nil => simp [ParseUint, isUint64Decimal]
  | cons c cs =>
    have h := (parseUintLoop_spec (c :: cs) 0 (by norm_num)).1
    simp only [ParseUint, isUint64Decimal]
    simpa using h

end Strconv

/-! ## Properties of the module version -/

namespace Build

theorem split_eq (path : List Char) :
    Split path = ((path.reverse.dropWhile (fun c => c != '/')).reverse,
      (path.reverse.takeWhile (fun c => c != '/')).reverse) := by
  have key : path = (path.reverse.dropWhile (fun c => c != '/')).reverse
      ++ (path.reverse.takeWhile (fun c => c != '/')).reverse := by
    rw [← List.reverse_append, List.takeWhile_append_dropWhile, List.reverse_reverse]
  have hlen := congrArg List.length key
  rw [List.length_append] at hlen
  have hsub : path.length - (path.reverse.takeWhile (fun c => c != '/')).reverse.length
      = (path.reverse.dropWhile (fun c => c != '/')).reverse.length := by omega
  simp only [Split, hsub]
  exact Prod.ext ((congrArg (List.take _) key).trans (List.take_left _ _)) rfl

/-- `filepath.Split` cuts the path in two; the file holds no separator and the directory
is empty or ends in one. -/
theorem split_spec (path : List Char) :
    (Split path).1 ++ (Split path).2 = path ∧ '/' ∉ (Split path).2
      ∧ ((Split path).1 = [] ∨ (Split path).1.getLast? = some '/') := by
  rw [split_eq]
  refine ⟨?_, ?_, ?_⟩
  · simp only [← List.reverse_append, List.takeWhile_append_dropWhile, List.reverse_reverse]
  · intro h
    have := List.mem_takeWhile_imp (List.mem_reverse.1 h)
    simp at this
  · simp only [List.reverse_eq_nil_iff, List.getLast?_reverse]
    cases hd : path.reverse.dropWhile (fun c => c != '/') with
    | nil => exact Or.inl rfl
    | cons c cs =>
      right
      have h := List.head_dropWhile_not (fun c => c != '/') path.reverse (by rw [hd]; simp)
      simp only [hd, List.head_cons] at h
      simpa using h

/-- C24: `MajorVersion` returns the text after the leading `v` of the final segment of
the path when the segment starts with `v`, is longer than one character, and the rest is
an unsigned 64-bit decimal integer; in every other case it returns `"0"`. -/
theorem majorVersion_spec (r : Module) :
    r.MajorVersion
      = if (Split r.Path.toList).2.head? = some 'v' ∧ 1 < (Split r.Path.toList).2.length
            ∧ Strconv.isUint64Decimal ((Split r.Path.toList).2.drop 1) = true
        then String.mk ((Split r.Path.toList).2.drop 1) else "0" := by
  simp only [Module.MajorVersion]
  generalize (Split r.Path.toList).2 = seg
  cases seg with
  | nil => simp
  | cons c rest =>
    by_cases hc : c = 'v'
    · subst hc
      cases rest with
      | nil => simp [Strconv.isUint64Decimal]
      | cons d ds =>
        cases hp : (Strconv.ParseUint (d :: ds)).2 with
        | none =>
          have h := (Strconv.parseUint_ok_iff _).1 hp
          simp [hp, h]
        | some e =>
          have h : ¬ Strconv.isUint64Decimal (d :: ds) = true := fun h => by
            rw [(Strconv.parseUint_ok_iff _).2 h] at hp
            cases hp
          simp [hp, h]
    · simp [hc]

end Build

/-! ## Properties of the buckets -/

namespace Bucket

/-- C25: for every `X`, `NewBucket("s3://" + X)` returns an S3 bucket named `X` and no
error, and `NewBucket("gs://" + X)` returns an error when `X` holds a dot, and else a
GCS bucket named `X` and no error. -/
theorem newBucket_schemes (X : String) :
    NewBucket ("s3://" ++ X) = .ok (some (Bucket.S3 { S3.zero with Name := X }), none)
      ∧ NewBucket ("gs://" ++ X)
        = if '.' ∈ X.toList then .ok (none, some "illegal dot (.) character in name")
          else .ok (some (Bucket.GCS { GCS.zero with Name := X }), none) := by
  have hs : ("s3://" ++ X).toList = 's' :: '3' :: ':' :: '/' :: '/' :: X.toList := rfl
  have hg : ("gs://" ++ X).toList = 'g' :: 's' :: ':' :: '/' :: '/' :: X.toList := rfl
  constructor
  · simp only [NewBucket, hs]
    simp [Bucket.SetName]
  · simp only [NewBucket, hg]
    by_cases hdot : '.' ∈ X.data
    · simp [hdot]
    · simp [hdot, Bucket.SetName]

/-- C26, at a name shorter than five characters and at a name with no scheme: the
first panics on the slice `[0:5]`, the second loses its first five characters. -/
theorem newBucket_without_scheme :
    NewBucket "foo" = .error "slice bounds out of range"
      ∧ NewBucket "mybucket" = .ok (some (Bucket.S3 { S3.zero with Name := "ket" }), none) := by
  constructor <;> rfl

end Bucket

/-! ## Properties of the decimal numerals written by `fmt` -/

namespace Fmt

theorem digit_toNat (d : Nat) (h : d < 10) : (Char.ofNat (48 + d)).toNat = 48 + d := by
  interval_cases d <;> rfl

theorem digitsCore_eq (u : Nat) :
    ∀ fuel acc, u < fuel → digitsCore fuel u acc = digitsCore (u + 1) u [] ++ acc := by
  induction u using Nat.strong_induction_on with
  | _ u ih =>
    intro fuel acc hf
    cases fuel with
    | zero => omega
    | succ f =>
      by_cases h : u < 10
      · simp [digitsCore, h]
      · simp only [digitsCore, h, if_false]
        rw [ih (u / 10) (by omega) f _ (by omega), ih (u / 10) (by omega) u [_] (by omega)]
        simp

theorem formatUint_lt (u : Nat) (h : u < 10) : formatUint u = [Char.ofNat (48 + u)] := by
  simp [formatUint, digitsCore, h]

theorem formatUint_ge (u : Nat) (h : 10 ≤ u) :
    formatUint u = formatUint (u / 10) ++ [Char.ofNat (48 + u % 10)] := by
  have h10 : ¬ u < 10 := by omega
  simp only [formatUint, digitsCore, h10, if_false]
  exact digitsCore_eq (u / 10) u _ (by omega)

/-- The numeral of a number holds digits only. -/
theorem formatUint_digits (u : Nat) : ∀ c ∈ formatUint u, 48 ≤ c.toNat ∧ c.toNat ≤ 57 := by
  induction u using Nat.strong_induction_on with
  | _ u ih =>
    intro c hc
    by_cases h : u < 10
    · rw [formatUint_lt u h, List.mem_singleton] at hc
      rw [hc, digit_toNat u h]
      omega
    · rw [formatUint_ge u (by omega), List.mem_append, List.mem_singleton] at hc
      rcases hc with hc | hc
      · exact ih (u / 10) (by omega) c hc
      · rw [hc, digit_toNat _ (Nat.mod_lt _ (by norm_num))]
        omega

/-- The numeral of a number writes that number. -/
theorem decimalFrom_formatUint (u : Nat) : Strconv.decimalFrom 0 (formatUint u) = u := by
  induction u using Nat.strong_induction_on with
  | _ u ih =>
    by_cases h : u < 10
    · rw [formatUint_lt u h]
      simp [Strconv.decimalFrom, digit_toNat u h]
    · rw [formatUint_ge u (by omega)]
      have := ih (u / 10) (by omega)
      simp only [Strconv.decimalFrom, List.foldl_append, List.foldl_cons, List.foldl_nil] at this ⊢
      rw [this, digit_toNat _ (Nat.mod_lt _ (by norm_num))]
      omega

/-- A number from `10 ^ k` up to `10 ^ (k + 1)` has `k + 1` digits. -/
theorem formatUint_length (k : Nat) :
    ∀ u, 10 ^ k ≤ u → u < 10 ^ (k + 1) → (formatUint u).length = k + 1 := by
  induction k with
  | zero =>
    intro u _ h
    rw [formatUint_lt u (by simpa using h)]
    rfl
  | succ k ih =>
    intro u hlo hhi
    have h10 : 10 ≤ u := le_trans (by rw [pow_succ]; have := Nat.one_le_pow k 10 (by norm_num); omega) hlo
    rw [formatUint_ge u h10, List.length_append, List.length_singleton]
    rw [ih (u / 10) (by rw [Nat.le_div_iff_mul_le (by norm_num)]; rw [pow_succ] at hlo; exact hlo)
      (by rw [Nat.div_lt_iff_lt_mul (by norm_num)]; rw [pow_succ] at hhi; exact hhi)]

theorem formatUint_ne_nil (u : Nat) : formatUint u ≠ [] := by
  by_cases h : u < 10
  · rw [formatUint_lt u h]; simp
  · rw [formatUint_ge u (by omega)]; simp

/-- No `/` is written for a number. -/
theorem formatInt_no_slash (width : Nat) (n : Int) : '/' ∉ formatInt width n := by
  have hd : '/' ∉ formatUint n.natAbs := fun h => by
    have := formatUint_digits _ _ h
    revert this
    decide
  have hp : ∀ k, '/' ∉ List.replicate k '0' ++ formatUint n.natAbs := by
    intro k h
    rcases List.mem_append.1 h with h | h
    · have := List.eq_of_mem_replicate h
      revert this
      decide
    · exact hd h
  simp only [formatInt]
  split
  · intro h
    rcases List.mem_cons.1 h with h | h
    · revert h; decide
    · exact hp _ h
  · exact hp _

/-- `%d` of a number that is not negative is its numeral. -/
theorem formatInt_zero_of_nonneg (n : Int) (h : 0 ≤ n) : formatInt 0 n = formatUint n.toNat := by
  have hn : ¬ n < 0 := by omega
  have habs : n.natAbs = n.toNat := by omega
  simp [formatInt, hn, habs]

end Fmt

namespace Strconv

/-- `ParseInt` reads a numeral of digits below `2 ^ 63` as its value, with no error. -/
theorem parseInt_digits (s : List Char) (hne : s ≠ [])
    (hd : ∀ c ∈ s, 48 ≤ c.toNat ∧ c.toNat ≤ 57) (hv : decimalFrom 0 s < 2 ^ 63) :
    ParseInt s = ((decimalFrom 0 s : Int), none) := by
  cases s with
  | nil => exact absurd rfl hne
  | cons c cs =>
    have hc := hd c (List.mem_cons_self _ _)
    have hplus : (c == '+') = false := by
      apply beq_false_of_ne
      rintro rfl
      revert hc; decide
    have hminus : (c == '-') = false := by
      apply beq_false_of_ne
      rintro rfl
      revert hc; decide
    have hspec := parseUintLoop_spec (c :: cs) 0 (by norm_num)
    have hall : (c :: cs).all (fun c => decide (48 ≤ c.toNat ∧ c.toNat ≤ 57)) = true := by
      rw [List.all_eq_true]
      intro x hx
      exact decide_eq_true (hd x hx)
    have herr : (parseUintLoop 0 (c :: cs)).2 = none := hspec.1.2 ⟨hall, by omega⟩
    have hval := hspec.2 herr
    have hlt : ¬ (parseUintLoop 0 (c :: cs)).1 ≥ 2 ^ 63 := by rw [hval]; omega
    simp only [ParseInt, hplus, hminus, ParseUint]
    simp [herr, hval]
    omega

end Strconv

/-! ## Properties of the keys of stored objects -/

namespace Bucket

/-- A key of seven parts whose file name ends in a numeral of 19 digits and `.json.gz` is
read back part by part. -/
theorem newPipelineObject_of_toList (key etag owner pipeline name file : String)
    (a b c : List Char) (u : Nat)
    (hfile : file.toList = name.toList ++ '-' :: (Fmt.formatUint u ++ ".json.gz".toList))
    (hkey : key.toList = List.intercalate ['/'] [owner.toList, pipeline.toList, name.toList,
      a, b, c, file.toList])
    (ho : '/' ∉ owner.toList) (hp : '/' ∉ pipeline.toList) (hn : '/' ∉ name.toList)
    (ha : '/' ∉ a) (hb : '/' ∉ b) (hc : '/' ∉ c) (hlo : 10 ^ 18 ≤ u) (hhi : u < 2 ^ 63) :
    NewPipelineObject key etag
      = .ok (some { Owner := owner, Pipeline := pipeline, Name := name, Date := u, File := file, Key := key, Etag := etag }) := by
  have hdig := Fmt.formatUint_digits u
  have hlen : (Fmt.formatUint u).length = 19 := Fmt.formatUint_length 18 u hlo (by omega)
  have hf : '/' ∉ file.toList := by
    rw [hfile]
    intro h
    rcases List.mem_append.1 h with h | h
    · exact hn h
    · rcases List.mem_cons.1 h with h | h
      · revert h; decide
      · rcases List.mem_append.1 h with h | h
        · have := hdig _ h
          revert this; decide
        · revert h; decide
  have hsplit : Strings.Split key '/' = [owner, pipeline, name, String.mk a, String.mk b,
      String.mk c, file] := by
    simp only [Strings.Split, hkey]
    rw [List.splitOn_intercalate]
    · simp [String.toList]
    · intro l hl
      simp only [List.mem_cons, List.mem_singleton, List.not_mem_nil, or_false] at hl
      rcases hl with rfl | rfl | rfl | rfl | rfl | rfl | rfl <;> assumption
    · simp
  have hparse := Strconv.parseInt_digits (Fmt.formatUint u) (Fmt.formatUint_ne_nil u) hdig
    (by rw [Fmt.decimalFrom_formatUint]; exact hhi)
  rw [Fmt.decimalFrom_formatUint] at hparse
  have hflen : file.length = name.length + 28 := by
    show file.toList.length = name.toList.length + 28
    rw [hfile, List.length_append, List.length_cons, List.length_append, hlen]
    rfl
  have hstart : ((name.length + 28 : Nat) : Int) - (19 + 8) = ((name.length + 1 : Nat) : Int) := by
    push_cast; ring
  have hstop : ((name.length + 28 : Nat) : Int) - 8 - ((name.length + 1 : Nat) : Int)
      = ((19 : Nat) : Int) := by
    push_cast; ring
  have hneg : ¬ (((name.length + 1 : Nat) : Int) < 0) := by omega
  have hwin : (file.toList.drop (name.length + 1)).take 19 = Fmt.formatUint u := by
    have h1 : name.toList ++ '-' :: (Fmt.formatUint u ++ ".json.gz".toList)
        = (name.toList ++ ['-']) ++ (Fmt.formatUint u ++ ".json.gz".toList) := by simp
    have h2 : (name.toList ++ ['-']).length = name.length + 1 := by
      rw [List.length_append]; rfl
    rw [hfile, h1, List.drop_left' h2, List.take_left' hlen]
  have hl : [owner, pipeline, name, String.mk a, String.mk b, String.mk c, file].length = 7 := rfl
  have g6 : [owner, pipeline, name, String.mk a, String.mk b, String.mk c, file].getD 6 ""
      = file := rfl
  have g0 : [owner, pipeline, name, String.mk a, String.mk b, String.mk c, file].getD 0 ""
      = owner := rfl
  have g1 : [owner, pipeline, name, String.mk a, String.mk b, String.mk c, file].getD 1 ""
      = pipeline := rfl
  have g2 : [owner, pipeline, name, String.mk a, String.mk b, String.mk c, file].getD 2 ""
      = name := rfl
  simp only [NewPipelineObject, hsplit, objectPathCount, objectStrNanoLength,
    objectStrSuffixLength, hl, g0, g1, g2, g6, hflen, hstart, hstop, hneg, Int.toNat_ofNat,
    hwin, hparse, ne_eq, not_true_eq_false, if_false]

theorem s3_key_toList (s : S3) (t : Time) (hsfx : s.Suffix = "json.gz") (hn : 0 ≤ t.UnixNano) :
    ∃ file : String,
      file.toList = s.Name.toList ++ '-' :: (Fmt.formatUint t.UnixNano.toNat ++ ".json.gz".toList)
      ∧ (s.Key t).toList = List.intercalate ['/'] [s.Owner.toList, s.Pipeline.toList,
          s.Name.toList, Fmt.formatInt 0 t.Year, Fmt.formatInt 3 t.YearDay,
          Fmt.formatInt 2 t.Hour, file.toList] := by
  refine ⟨String.mk (s.Name.toList ++ '-' :: (Fmt.formatUint t.UnixNano.toNat
    ++ ".json.gz".toList)), rfl, ?_⟩
  simp [S3.Key, S3.KeyPrefix, S3.Path, hsfx, Fmt.formatInt_zero_of_nonneg _ hn, String.toList,
    List.intercalate]

theorem gcs_key_toList (g : GCS) (t : Time) (hsfx : g.Suffix = "json.gz") (hn : 0 ≤ t.UnixNano) :
    ∃ file : String,
      file.toList = g.Name.toList ++ '-' :: (Fmt.formatUint t.UnixNano.toNat ++ ".json.gz".toList)
      ∧ (g.Key t).toList = List.intercalate ['/'] [g.Owner.toList, g.Pipeline.toList,
          g.Name.toList, Fmt.formatInt 0 t.Year, Fmt.formatInt 3 t.YearDay,
          Fmt.formatInt 2 t.Hour, file.toList] := by
  refine ⟨String.mk (g.Name.toList ++ '-' :: (Fmt.formatUint t.UnixNano.toNat
    ++ ".json.gz".toList)), rfl, ?_⟩
  simp [GCS.Key, GCS.KeyPrefix, GCS.Path, hsfx, Fmt.formatInt_zero_of_nonneg _ hn, String.toList,
    List.intercalate]

/-- C29, amended: for an S3 and a GCS configuration whose Owner, Pipeline and Name hold
no `/` and whose Suffix is `json.gz`, and a time whose `UnixNano` is an `int64` that is not
negative and has 19 digits, `NewPipelineObject(Key(t), etag)` is an object with the Owner,
Pipeline and Name of the configuration, the key `Key(t)`, the given etag and the date
`t`, and `MatchesBucket` holds of it on that configuration. -/
theorem newPipelineObject_inverts_key (s : S3) (g : GCS) (t : Time) (etag : String)
    (hs : '/' ∉ s.Owner.toList ∧ '/' ∉ s.Pipeline.toList ∧ '/' ∉ s.Name.toList
      ∧ s.Suffix = "json.gz")
    (hg : '/' ∉ g.Owner.toList ∧ '/' ∉ g.Pipeline.toList ∧ '/' ∉ g.Name.toList
      ∧ g.Suffix = "json.gz")
    (ht : 10 ^ 18 ≤ t.UnixNano ∧ t.UnixNano < 2 ^ 63) :
    (∃ obj, NewPipelineObject (s.Key t) etag = .ok (some obj)
        ∧ obj.Owner = s.Owner ∧ obj.Pipeline = s.Pipeline ∧ obj.Name = s.Name
        ∧ obj.Key = s.Key t ∧ obj.Etag = etag ∧ obj.Date = t.UnixNano
        ∧ obj.MatchesBucket (Bucket.S3 s) = true)
      ∧ (∃ obj, NewPipelineObject (g.Key t) etag = .ok (some obj)
        ∧ obj.Owner = g.Owner ∧ obj.Pipeline = g.Pipeline ∧ obj.Name = g.Name
        ∧ obj.Key = g.Key t ∧ obj.Etag = etag ∧ obj.Date = t.UnixNano
        ∧ obj.MatchesBucket (Bucket.GCS g) = true) := by
  have hn : 0 ≤ t.UnixNano := by omega
  have hlo : 10 ^ 18 ≤ t.UnixNano.toNat := by omega
  have hhi : t.UnixNano.toNat < 2 ^ 63 := by omega
  have hdate : ((t.UnixNano.toNat : Nat) : Int) = t.UnixNano := Int.toNat_of_nonneg hn
  constructor
  · obtain ⟨file, hfile, hkey⟩ := s3_key_toList s t hs.2.2.2 hn
    have h := newPipelineObject_of_toList (s.Key t) etag s.Owner s.Pipeline s.Name file _ _ _
      t.UnixNano.toNat hfile hkey hs.1 hs.2.1 hs.2.2.1 (Fmt.formatInt_no_slash _ _)
      (Fmt.formatInt_no_slash _ _) (Fmt.formatInt_no_slash _ _) hlo hhi
    refine ⟨_, h, rfl, rfl, rfl, rfl, rfl, hdate, ?_⟩
    simp [PipelineObject.MatchesBucket, Bucket.GetPipeline, Bucket.GetOwner, Bucket.GetName]
  · obtain ⟨file, hfile, hkey⟩ := gcs_key_toList g t hg.2.2.2 hn
    have h := newPipelineObject_of_toList (g.Key t) etag g.Owner g.Pipeline g.Name file _ _ _
      t.UnixNano.toNat hfile hkey hg.1 hg.2.1 hg.2.2.1 (Fmt.formatInt_no_slash _ _)
      (Fmt.formatInt_no_slash _ _) (Fmt.formatInt_no_slash _ _) hlo hhi
    refine ⟨_, h, rfl, rfl, rfl, rfl, rfl, hdate, ?_⟩
    simp [PipelineObject.MatchesBucket, Bucket.GetPipeline, Bucket.GetOwner, Bucket.GetName]

/-- The amended C29 at the test configurations and an hour of July 2024. -/
theorem newPipelineObject_inverts_key_witness :
    ('/' ∉ testS3.Owner.toList ∧ '/' ∉ testS3.Pipeline.toList ∧ '/' ∉ testS3.Name.toList
        ∧ testS3.Suffix = "json.gz")
      ∧ ((10 : Int) ^ 18 ≤ testTime.UnixNano ∧ testTime.UnixNano < 2 ^ 63)
      ∧ (∃ obj, NewPipelineObject (testS3.Key testTime) "etag" = .ok (some obj)
        ∧ obj.Owner = testS3.Owner ∧ obj.Pipeline = testS3.Pipeline ∧ obj.Name = testS3.Name
        ∧ obj.Key = testS3.Key testTime ∧ obj.Etag = "etag" ∧ obj.Date = testTime.UnixNano
        ∧ obj.MatchesBucket (Bucket.S3 testS3) = true) :=
  ⟨by decide, by decide,
    (newPipelineObject_inverts_key testS3 testGCS testTime "etag" (by decide) (by decide)
      (by decide)).1⟩

/-- C29 as stated fails before the epoch: the `UnixNano` of the first hour of 1930 has 19
digits and a sign, the key holds the sign as well, and the date read back is in 2010. -/
theorem newPipelineObject_negative_nano_counterexample :
    ('/' ∉ testS3.Owner.toList ∧ '/' ∉ testS3.Pipeline.toList ∧ '/' ∉ testS3.Name.toList
        ∧ testS3.Suffix = "json.gz")
      ∧ (Fmt.formatUint testTime1930.UnixNano.natAbs).length = 19
      ∧ testS3.Key testTime1930 = "owner/pipeline/topic/1930/001/00/topic--1262304000000000000.json.gz"
      ∧ NewPipelineObject (testS3.Key testTime1930) "etag"
        = .ok (some { Owner := "owner", Pipeline := "pipeline", Name := "topic", Date := 1262304000000000000, File := "topic--1262304000000000000.json.gz", Key := "owner/pipeline/topic/1930/001/00/topic--1262304000000000000.json.gz", Etag := "etag" })
      ∧ (1262304000000000000 : Int) ≠ testTime1930.UnixNano := by
  refine ⟨by decide, by rfl, by rfl, by rfl, by decide⟩

end Bucket

/-! ## Properties of the encoded key package -/

namespace Crypto

theorem decodeMap_encodeChar : ∀ i, i < 64 → decodeMap (encodeChar i) = some i := by
  decide

theorem encodeChar_plain : ∀ i, i < 64 →
    encodeChar i ≠ '$' ∧ encodeChar i ≠ '\n' ∧ encodeChar i ≠ '\r' ∧ encodeChar i ≠ '=' := by
  decide

theorem decodeMap_pad : decodeMap '=' = none := by decide

theorem byte_ofNat (a : Byte) (n : Nat) (h : n % 256 = a.val) : (Fin.ofNat n : Byte) = a :=
  Fin.ext h

/-- Decoding inverts encoding, group by group. -/
theorem decodeQuanta_encodeQuanta (bs : List Byte) : decodeQuanta (encodeQuanta bs) = .ok bs := by
  induction bs using encodeQuanta.induct with
  | case1 => rfl
  | case2 a =>
    have ha := a.isLt
    simp only [encodeQuanta, decodeQuanta]
    rw [decodeMap_encodeChar _ (Nat.mod_lt _ (by norm_num)),
      decodeMap_encodeChar _ (Nat.mod_lt _ (by norm_num))]
    simp only [decodeMap_pad, and_self, if_true]
    rw [byte_ofNat a _ (by omega)]
  | case3 a b =>
    have ha := a.isLt
    have hb := b.isLt
    simp only [encodeQuanta, decodeQuanta]
    rw [decodeMap_encodeChar _ (Nat.mod_lt _ (by norm_num)),
      decodeMap_encodeChar _ (Nat.mod_lt _ (by norm_num))]
    simp only [decodeMap_encodeChar _ (Nat.mod_lt _ (by norm_num)), decodeMap_pad, and_self,
      if_true]
    rw [byte_ofNat a _ (by omega), byte_ofNat b _ (by omega)]
  | case4 a b c rest ih =>
    have ha := a.isLt
    have hb := b.isLt
    have hc := c.isLt
    simp only [encodeQuanta, decodeQuanta]
    rw [decodeMap_encodeChar _ (Nat.mod_lt _ (by norm_num)),
      decodeMap_encodeChar _ (Nat.mod_lt _ (by norm_num))]
    simp only [decodeMap_encodeChar _ (Nat.mod_lt _ (by norm_num)), ih]
    rw [byte_ofNat a _ (by omega), byte_ofNat b _ (by omega), byte_ofNat c _ (by omega)]

/-- The encoding holds neither `$` nor a line end. -/
theorem encodeQuanta_chars (bs : List Byte) :
    ∀ c ∈ encodeQuanta bs, c ≠ '$' ∧ c ≠ '\n' ∧ c ≠ '\r' := by
  have hpad : ('=' : Char) ≠ '$' ∧ ('=' : Char) ≠ '\n' ∧ ('=' : Char) ≠ '\r' := by decide
  have henc : ∀ i, encodeChar (i % 64) ≠ '$' ∧ encodeChar (i % 64) ≠ '\n'
      ∧ encodeChar (i % 64) ≠ '\r' := fun i =>
    let h := encodeChar_plain (i % 64) (Nat.mod_lt _ (by norm_num))
    ⟨h.1, h.2.1, h.2.2.1⟩
  induction bs using encodeQuanta.induct with
  | case1 => intro c hc; cases hc
  | case2 a =>
    intro c hc
    simp only [encodeQuanta, List.mem_cons, List.mem_singleton, List.not_mem_nil, or_false] at hc
    rcases hc with rfl | rfl | rfl | rfl
    · exact henc _
    · exact henc _
    · exact hpad
    · exact hpad
  | case3 a b =>
    intro c hc
    simp only [encodeQuanta, List.mem_cons, List.mem_singleton, List.not_mem_nil, or_false] at hc
    rcases hc with rfl | rfl | rfl | rfl
    · exact henc _
    · exact henc _
    · exact henc _
    · exact hpad
  | case4 a b c rest ih =>
    intro x hx
    simp only [encodeQuanta, List.mem_cons] at hx
    rcases hx with rfl | rfl | rfl | rfl | hx
    · exact henc _
    · exact henc _
    · exact henc _
    · exact henc _
    · exact ih x hx

/-- `DecodeString` inverts `EncodeToString`. -/
theorem decodeString_encodeToString (bs : List Byte) :
    DecodeString (EncodeToString bs) = .ok bs := by
  have hf : (encodeQuanta bs).filter (fun c => c != '\n' && c != '\r') = encodeQuanta bs := by
    rw [List.filter_eq_self]
    intro c hc
    have h := encodeQuanta_chars bs c hc
    simp [h.2.1, h.2.2]
  simp only [DecodeString, EncodeToString, String.toList]
  rw [hf, decodeQuanta_encodeQuanta]

/-- C22: for a package with the default parameters, the encoding holds one `$`, and
decoding it returns the package. -/
theorem encode_decode (p : ScryptPkg) (hp : p.Params = GetDefaultParams) :
    p.Encode.toList.count '$' = 1 ∧ Decode p.Encode = .ok p := by
  have hlist : p.Encode.toList = encodeQuanta p.Salt ++ '$' :: encodeQuanta p.Key := by
    simp [ScryptPkg.Encode, EncodeToString, String.toList]
  have hs : '$' ∉ encodeQuanta p.Salt := fun h => (encodeQuanta_chars _ _ h).1 rfl
  have hk : '$' ∉ encodeQuanta p.Key := fun h => (encodeQuanta_chars _ _ h).1 rfl
  constructor
  · rw [hlist, List.count_append, List.count_cons_self, List.count_eq_zero.2 hs,
      List.count_eq_zero.2 hk]
  · have hsplit : Strings.Split p.Encode '$' = [EncodeToString p.Salt, EncodeToString p.Key] := by
      have hi : encodeQuanta p.Salt ++ '$' :: encodeQuanta p.Key
          = List.intercalate ['$'] [encodeQuanta p.Salt, encodeQuanta p.Key] := by
        simp [List.intercalate]
      simp only [Strings.Split, hlist]
      rw [hi, List.splitOn_intercalate]
      · rfl
      · intro l hl
        simp only [List.mem_cons, List.mem_singleton, List.not_mem_nil, or_false] at hl
        rcases hl with rfl | rfl <;> assumption
      · simp
    have g0 : [EncodeToString p.Salt, EncodeToString p.Key].getD 0 "" = EncodeToString p.Salt := rfl
    have g1 : [EncodeToString p.Salt, EncodeToString p.Key].getD 1 "" = EncodeToString p.Key := rfl
    have hl : [EncodeToString p.Salt, EncodeToString p.Key].length = 2 := rfl
    simp only [Decode, hsplit, hl, g0, g1, decodeString_encodeToString, ne_eq, not_true_eq_false,
      if_false]
    rw [← hp]

/-- C22 at a package of three key bytes and a salt of two. -/
theorem encode_decode_witness :
    ({ Key := [1, 2, 3], Salt := [4, 5], Params := GetDefaultParams } : ScryptPkg).Params
        = GetDefaultParams
      ∧ ({ Key := [1, 2, 3], Salt := [4, 5], Params := GetDefaultParams } : ScryptPkg).Encode
        = "BAU=$AQID"
      ∧ Decode "BAU=$AQID" = .ok { Key := [1, 2, 3], Salt := [4, 5], Params := GetDefaultParams } :=
  ⟨rfl, rfl, (encode_decode { Key := [1, 2, 3], Salt := [4, 5], Params := GetDefaultParams } rfl).2⟩

end Crypto

/-! ## Properties of encryption and decryption -/

namespace Crypto

theorem createAESGCM_ok (key : List Byte)
    (h : key.length = 16 ∨ key.length = 24 ∨ key.length = 32) :
    createAESGCM key = .ok { key := key } := by
  simp [createAESGCM, h]

theorem slice_left (a rest : List Byte) : slice (a ++ rest) 0 a.length = .ok a := by
  simp [slice]

theorem slice_mid (a b c : List Byte) :
    slice (a ++ (b ++ c)) a.length (a.length + b.length) = .ok b := by
  have h : (a ++ (b ++ c)).take (a.length + b.length) = a ++ b := by
    rw [← List.append_assoc, ← List.length_append, List.take_left]
  simp only [slice, h, List.drop_left, List.length_append]
  simp

theorem slice_right (a b c : List Byte) :
    slice (a ++ (b ++ c)) (a.length + b.length) (a ++ (b ++ c)).length = .ok c := by
  have h : (a ++ (b ++ c)).drop (a.length + b.length) = c := by
    rw [← List.append_assoc, ← List.length_append, List.drop_left]
  simp only [slice, List.take_length, h, le_refl, and_true]
  simp [List.length_append]

theorem read_ok (r : Random) (n : Nat) (h : r.err = none) :
    r.read n = .ok ((List.range n).map r.byte) := by
  simp [Random.read, h]

/-- What `decryptGCM` returns on a salt, a nonce of twelve bytes and what `Seal` made,
one after the other. -/
theorem decryptGCM_framed (P : Primitives) (r : ScryptPkg) (salt nonce text : List Byte)
    (hopen : ∀ k n t, P.gcmOpen k n (P.gcmSeal k n t) = .ok t)
    (hkey : r.Key.length = 16 ∨ r.Key.length = 24 ∨ r.Key.length = 32)
    (hn : nonce.length = 12) (hasSalt : Bool)
    (hs : salt.length = if hasSalt then r.Salt.length else 0) :
    decryptGCM P (salt ++ (nonce ++ P.gcmSeal r.Key nonce text)) r hasSalt = .ok (.ok text) := by
  have h1 := slice_mid salt nonce (P.gcmSeal r.Key nonce text)
  have h2 := slice_right salt nonce (P.gcmSeal r.Key nonce text)
  rw [hn] at h1 h2
  simp only [decryptGCM, createAESGCM_ok r.Key hkey, AEAD.NonceSize, ← hs, h1, h2, hopen]

/-- C23: when `Open` inverts `Seal`, the random source delivers and scrypt derives a key
of 32 bytes, `EncryptGCM` returns the salt, the nonce and the sealed text, and
`DecryptGCM` returns the plaintext from it; and for a package with a key AES takes,
`EncryptGCM` returns the nonce and the sealed text and `DecryptGCM` returns the plaintext
from it, as do the base64 forms. -/
theorem decrypt_inverts_encrypt (P : Primitives) (saltSrc nonceSrc : Random)
    (plainText password key : List Byte) (pkg : ScryptPkg)
    (hopen : ∀ k n t, P.gcmOpen k n (P.gcmSeal k n t) = .ok t)
    (hsalt : saltSrc.err = none) (hnonce : nonceSrc.err = none)
    (hscrypt : P.scryptKey password ((List.range 16).map saltSrc.byte) GetDefaultParams = .ok key)
    (hkey : key.length = 32)
    (hpkg : pkg.Key.length = 16 ∨ pkg.Key.length = 24 ∨ pkg.Key.length = 32) :
    (EncryptGCM P saltSrc nonceSrc plainText password
          = .ok (.ok ((List.range 16).map saltSrc.byte ++ ((List.range 12).map nonceSrc.byte
              ++ P.gcmSeal key ((List.range 12).map nonceSrc.byte) plainText)))
        ∧ DecryptGCM P ((List.range 16).map saltSrc.byte ++ ((List.range 12).map nonceSrc.byte
              ++ P.gcmSeal key ((List.range 12).map nonceSrc.byte) plainText)) password
          = .ok (.ok plainText))
      ∧ (pkg.EncryptGCM P nonceSrc plainText
          = .ok ((List.range 12).map nonceSrc.byte
              ++ P.gcmSeal pkg.Key ((List.range 12).map nonceSrc.byte) plainText)
        ∧ pkg.DecryptGCM P ((List.range 12).map nonceSrc.byte
              ++ P.gcmSeal pkg.Key ((List.range 12).map nonceSrc.byte) plainText)
          = .ok (.ok plainText))
      ∧ (pkg.EncryptGCMBase64 P nonceSrc plainText
          = .ok (EncodeToString ((List.range 12).map nonceSrc.byte
              ++ P.gcmSeal pkg.Key ((List.range 12).map nonceSrc.byte) plainText))
        ∧ pkg.DecryptGCMBase64 P (EncodeToString ((List.range 12).map nonceSrc.byte
              ++ P.gcmSeal pkg.Key ((List.range 12).map nonceSrc.byte) plainText))
          = .ok (.ok plainText)) := by
  have hk : key.length = 16 ∨ key.length = 24 ∨ key.length = 32 := Or.inr (Or.inr hkey)
  have hn : ((List.range 12).map nonceSrc.byte).length = 12 := by simp
  have hs : ((List.range 16).map saltSrc.byte).length = 16 := by simp
  have henc : pkg.EncryptGCM P nonceSrc plainText
      = .ok ((List.range 12).map nonceSrc.byte
          ++ P.gcmSeal pkg.Key ((List.range 12).map nonceSrc.byte) plainText) := by
    simp only [ScryptPkg.EncryptGCM, encryptGCM, createAESGCM_ok pkg.Key hpkg, AEAD.NonceSize,
      read_ok nonceSrc 12 hnonce]
    rfl
  have hdec : pkg.DecryptGCM P ((List.range 12).map nonceSrc.byte
      ++ P.gcmSeal pkg.Key ((List.range 12).map nonceSrc.byte) plainText)
      = .ok (.ok plainText) :=
    decryptGCM_framed P pkg [] _ plainText hopen hpkg hn false rfl
  refine ⟨⟨?_, ?_⟩, ⟨henc, hdec⟩, ?_, ?_⟩
  · have h16 : GetDefaultParams.SaltLen.toNat = 16 := rfl
    have hneg : ¬ GetDefaultParams.SaltLen < 0 := by decide
    simp only [EncryptGCM, NewScryptPkg, NewScryptPkgWithParams, hneg, if_false, h16,
      read_ok saltSrc 16 hsalt, hscrypt, encryptGCM, createAESGCM_ok key hk, AEAD.NonceSize,
      read_ok nonceSrc 12 hnonce]
    simp
  · have h16 : GetDefaultParams.SaltLen.toNat = 16 := rfl
    have hsl := slice_left ((List.range 16).map saltSrc.byte) ((List.range 12).map nonceSrc.byte
      ++ P.gcmSeal key ((List.range 12).map nonceSrc.byte) plainText)
    rw [hs] at hsl
    simp only [DecryptGCM, h16, hsl, hscrypt]
    exact decryptGCM_framed P { Key := key, Salt := _, Params := GetDefaultParams } _ _ plainText
      hopen hk hn true rfl
  · simp only [ScryptPkg.EncryptGCMBase64, henc]
  · simp only [ScryptPkg.DecryptGCMBase64, decodeString_encodeToString, hdec]

/-- C23 at the stand-in libraries, the plaintext `1, 2, 3` and the password `5`. -/
theorem decrypt_inverts_encrypt_witness :
    (EncryptGCM toyPrimitives toyRandom toyRandom [1, 2, 3] [5]
          = .ok (.ok ((List.range 16).map toyRandom.byte ++ ((List.range 12).map toyRandom.byte
              ++ toyPrimitives.gcmSeal (List.replicate 32 0) ((List.range 12).map toyRandom.byte)
                [1, 2, 3])))
        ∧ DecryptGCM toyPrimitives ((List.range 16).map toyRandom.byte
              ++ ((List.range 12).map toyRandom.byte
              ++ toyPrimitives.gcmSeal (List.replicate 32 0) ((List.range 12).map toyRandom.byte)
                [1, 2, 3])) [5]
          = .ok (.ok [1, 2, 3]))
      ∧ (toyPkg.EncryptGCM toyPrimitives toyRandom [1, 2, 3]
          = .ok ((List.range 12).map toyRandom.byte
              ++ toyPrimitives.gcmSeal toyPkg.Key ((List.range 12).map toyRandom.byte) [1, 2, 3])
        ∧ toyPkg.DecryptGCM toyPrimitives ((List.range 12).map toyRandom.byte
              ++ toyPrimitives.gcmSeal toyPkg.Key ((List.range 12).map toyRandom.byte) [1, 2, 3])
          = .ok (.ok [1, 2, 3]))
      ∧ (toyPkg.EncryptGCMBase64 toyPrimitives toyRandom [1, 2, 3]
          = .ok (EncodeToString ((List.range 12).map toyRandom.byte
              ++ toyPrimitives.gcmSeal toyPkg.Key ((List.range 12).map toyRandom.byte) [1, 2, 3]))
        ∧ toyPkg.DecryptGCMBase64 toyPrimitives (EncodeToString ((List.range 12).map toyRandom.byte
              ++ toyPrimitives.gcmSeal toyPkg.Key ((List.range 12).map toyRandom.byte) [1, 2, 3]))
          = .ok (.ok [1, 2, 3])) :=
  decrypt_inverts_encrypt toyPrimitives toyRandom toyRandom [1, 2, 3] [5] (List.replicate 32 0)
    toyPkg (by intro k n t; simp [toyPrimitives]) rfl rfl rfl rfl (Or.inr (Or.inr rfl))

/-- C30, at data of five bytes and of twenty: `DecryptGCM` panics on a slice out of range
whatever the libraries do with five bytes, and with twenty once the key is derived;
`ScryptPkg.DecryptGCM` panics with a key AES takes, though it returns an error for a
key AES does not take. -/
theorem decrypt_short_data_panics (P : Primitives) (password : List Byte) :
    DecryptGCM P [1, 2, 3, 4, 5] password = .error sliceBounds
      ∧ DecryptGCM toyPrimitives (List.replicate 20 1) password = .error sliceBounds
      ∧ toyPkg.DecryptGCM P [1, 2, 3, 4, 5] = .error sliceBounds
      ∧ ({ toyPkg with Key := [1] } : ScryptPkg).DecryptGCM P [1, 2, 3, 4, 5]
        = .ok (.error "crypto/aes: invalid key size 1") := by
  refine ⟨rfl, rfl, rfl, rfl⟩

end Crypto

end Goat
